import Mathlib

/-!
# IPC-toolkit: linked cells and virtual-move Monte Carlo

A shallow embedding of `src/MC/cells.c` and `src/MC/vmmc.c`.

Conventions of the embedding.

* A C `double` is an exact rational (`ℚ`): every finite double is a rational, and the
  arithmetic is carried out without rounding.
* A C `int` is a mathematical integer (`Int`, or `Nat` for counters and particle indices
  that the code never makes negative); no wrap-around is modelled.
* A C array is a total map from its index type; the allocation size is stated separately
  wherever a property depends on it.
* A `PatchyParticle *` is the position of the particle in `syst->particles`
  (`Option Nat` where the pointer may be `NULL`).
* A function with a `while` loop takes a bound `fuel` on the passes of each loop and
  returns `Except Stop`: `Stop.out_of_fuel` when the bound is hit, `Stop.assertion` when
  an `assert` fails (unless the build flag `NDEBUG` of the environment is set),
  `Stop.fatal` when `output_exit` is called.
* What the core takes from its collaborators (`drand48`, the samplers of `utils.h`,
  `MC_interact`, `exp`) is a field of `Env`; `MC_change_cell`, which lives in `MC.c`, is
  modelled from the specification.
-/

namespace IPC

/-! ## Data model -/

/-- The C type `vector` (`double[3]`). -/
abbrev vector := Fin 3 → ℚ

/-- The C type `matrix` (`double[3][3]`). -/
abbrev matrix := Fin 3 → Fin 3 → ℚ

/-- The constant `DBL_EPSILON` of `<float.h>`: `2^-52`. -/
def DBL_EPSILON : ℚ := 1 / 2 ^ 52

/-- The conversion `(int) x` of a double to an int: truncation toward zero. -/
def int_cast (x : ℚ) : Int := if 0 ≤ x then ⌊x⌋ else ⌈x⌉

/-- The C library function `rint` in the default rounding mode: the nearest integer,
a tie going to the even neighbour. -/
def rint (x : ℚ) : Int :=
  if x - (⌊x⌋ : ℚ) < 1 / 2 then ⌊x⌋
  else if 1 / 2 < x - (⌊x⌋ : ℚ) then ⌊x⌋ + 1
  else if ⌊x⌋ % 2 = 0 then ⌊x⌋ else ⌊x⌋ + 1

/-- Modelled from the spec: the macro `SCALAR(a, b)` of `defs.h`, the dot product of two
vectors. -/
def SCALAR (a b : vector) : ℚ := a 0 * b 0 + a 1 * b 1 + a 2 * b 2

/-- Modelled from the spec: the macro `MATRIX_VECTOR_MULTIPLICATION(m, v, result)` of
`defs.h`, the product `R · v` of a matrix and a vector. -/
def MATRIX_VECTOR_MULTIPLICATION (m : matrix) (v : vector) : vector :=
  fun i => m i 0 * v 0 + m i 1 * v 1 + m i 2 * v 2

/-- The loop `for(i = 0; i < n; i++) body`. -/
def for_loop {σ : Type} (n : Nat) (body : Nat → σ → σ) (s : σ) : σ :=
  (List.range n).foldl (fun acc i => body i acc) s

/-- The struct `PatchyParticle`. -/
structure PatchyParticle where
  index : Nat
  r : vector
  r_old : vector
  patches : Nat → vector
  patches_old : Nat → vector
  n_patches : Nat
  cell : Int
  cell_old : Int

/-- The struct `Cells`: `heads` is indexed by the cell index, `next` by the particle
index. -/
structure Cells where
  N_side : Fin 3 → Int
  N : Int
  heads : Int → Option Nat
  next : Nat → Option Nat

/-- The fields of the struct `System` that the cell index and the cluster move use;
`tries` and `accepted` are the entries `[MOVE_VMMC]` of the two counters. -/
structure System where
  N : Nat
  N_max : Nat
  box : vector
  particles : Nat → PatchyParticle
  cells : Cells
  n_patches : Nat
  sqr_rcut : ℚ
  T : ℚ
  K : vector
  e : vector
  disp_max : ℚ
  theta_max : ℚ
  energy : ℚ
  overlap : Int
  tries : Nat
  accepted : Nat

/-- A message handed to `output_log_msg`. -/
inductive LogMsg where
  | box_too_small (i : Fin 3)
  | cells_count (counter : Nat) (N : Nat)
  deriving DecidableEq, Repr

/-- The log sink of `Output`: the messages written so far, oldest first. -/
abbrev Output := List LogMsg

/-! ## cells.c -/

/-- One pass of the loop at lines 22-28 of `cells_init`. -/
def cells_init_side (box : vector) (rcut : ℚ) (i : Fin 3) (acc : (Fin 3 → Int) × Output) :
    (Fin 3 → Int) × Output :=
  let n : Int := ⌊box i / rcut⌋
  if n < 3 then (Function.update acc.1 i 3, acc.2 ++ [LogMsg.box_too_small i])
  else (Function.update acc.1 i n, acc.2)

/-- The function `cells_init`. `raw` is the content of the freshly allocated memory. -/
def cells_init (syst : System) (output_files : Output) (rcut : ℚ) (raw : Cells) :
    System × Output :=
  let sides := [(0 : Fin 3), 1, 2].foldl (fun acc i => cells_init_side syst.box rcut i acc)
    (raw.N_side, output_files)
  let N_side := sides.1
  let N : Int := N_side 0 * N_side 1 * N_side 2
  let heads := for_loop N.toNat (fun i h => Function.update h (i : Int) none) raw.heads
  let next := for_loop syst.N_max (fun i nx => Function.update nx i none) raw.next
  ({ syst with cells := { N_side := N_side, N := N, heads := heads, next := next } }, sides.2)

/-- The function `cells_fill_and_get_idx_from_vector`: the returned cell index together
with the triple written to `idx`. -/
def cells_fill_and_get_idx_from_vector (syst : System) (r : vector) : Int × (Fin 3 → Int) :=
  let idx : Fin 3 → Int := fun d =>
    int_cast ((r d / syst.box d - (⌊r d / syst.box d⌋ : ℚ)) * (1 - DBL_EPSILON)
      * (syst.cells.N_side d : ℚ))
  ((idx 0 * syst.cells.N_side 1 + idx 1) * syst.cells.N_side 2 + idx 2, idx)

/-- The function `cells_fill_and_get_idx_from_particle`. -/
def cells_fill_and_get_idx_from_particle (syst : System) (p : Nat) : Int × (Fin 3 → Int) :=
  cells_fill_and_get_idx_from_vector syst (syst.particles p).r

/-- The body of the loop of `cells_fill` for the particle `syst->particles + i`. -/
def cells_fill_body (i : Nat) (syst : System) : System :=
  let p := syst.particles i
  let cell_index := (cells_fill_and_get_idx_from_particle syst i).1
  let next := Function.update syst.cells.next p.index (syst.cells.heads cell_index)
  let heads := Function.update syst.cells.heads cell_index (some i)
  { syst with
    cells := { syst.cells with heads := heads, next := next }
    particles := Function.update syst.particles i
      { p with cell := cell_index, cell_old := cell_index } }

/-- The function `cells_fill`. -/
def cells_fill (syst : System) : System :=
  for_loop syst.N cells_fill_body syst

/-- The traversal `q = start; while(q != NULL) { ...; q = next[q->index]; }` used by
`cells_check` and by the neighbour loops: the particles visited, in order, or `none`
when more than `fuel` particles are met. -/
def chain_walk (particles : Nat → PatchyParticle) (next : Nat → Option Nat) :
    Nat → Option Nat → Option (List Nat)
  | _, none => some []
  | 0, some _ => none
  | fuel + 1, some q =>
    (chain_walk particles next fuel (next (particles q).index)).map (fun l => q :: l)

/-- The chain of cell `c`: the particles reached from `heads[c]`. -/
def cell_chain (syst : System) (fuel : Nat) (c : Int) : Option (List Nat) :=
  chain_walk syst.particles syst.cells.next fuel (syst.cells.heads c)

/-- The function `cells_check`: the logger after the call, or `none` when a chain does
not end within `fuel` particles. -/
def cells_check (syst : System) (output_files : Output) (fuel : Nat) : Option Output :=
  ((List.range syst.cells.N.toNat).foldl
    (fun acc i => acc.bind (fun counter =>
      (cell_chain syst fuel (i : Int)).map (fun l => counter + l.length)))
    (some 0)).map
    (fun counter =>
      if counter ≠ syst.N then output_files ++ [LogMsg.cells_count counter syst.N]
      else output_files)

/-! ## vmmc.c: geometry and snapshots -/

/-- The function `normalized_diff_vector`: the value written to `c`. -/
def normalized_diff_vector (syst : System) (a b : vector) : vector :=
  fun d => (b d - a d) - syst.box d * (rint ((b d - a d) / syst.box d) : ℚ)

/-- The function `_store_dof`. -/
def _store_dof (p : PatchyParticle) : PatchyParticle :=
  { p with
    r_old := p.r
    patches_old :=
      for_loop p.n_patches (fun j po => Function.update po j (p.patches j)) p.patches_old }

/-- The function `_restore_dof`. -/
def _restore_dof (p : PatchyParticle) : PatchyParticle :=
  { p with
    r := p.r_old
    patches :=
      for_loop p.n_patches (fun j pt => Function.update pt j (p.patches_old j)) p.patches }

/-- The two values of `vmmcdata->which_move`. -/
inductive MoveKind where
  | VMMC_TRANSLATION
  | VMMC_ROTATION
  deriving DecidableEq, Repr

/-- The struct `vmmc_d` behind the global `vmmcdata`. -/
structure vmmc_d where
  max_move : ℚ
  max_cluster : Int
  n_possible_links : Nat
  possible_links : Nat → Nat
  clust : Nat → Nat
  n_clust : Nat
  prelinked_particles : Nat → Nat
  n_prelinked_particles : Nat
  is_in_cluster : Nat → Int
  which_move : MoveKind
  rotation : matrix

/-- Assignment through a particle pointer: `*(syst->particles + p) = x`. -/
def System.set_particle (syst : System) (p : Nat) (x : PatchyParticle) : System :=
  { syst with particles := Function.update syst.particles p x }

/-- The function `_move_particle`. The last argument `t` is not used by the C code. -/
def _move_particle (syst : System) (vm : vmmc_d) (p : Nat) (move : vector) (_t : ℚ) : System :=
  let P := syst.particles p
  match vm.which_move with
  | MoveKind.VMMC_TRANSLATION =>
    syst.set_particle p
      { P with
        r := fun d => P.r d + move d
        patches := for_loop syst.n_patches
          (fun i pt => Function.update pt i (fun d => pt i d + move d)) P.patches }
  | MoveKind.VMMC_ROTATION =>
    let seed := syst.particles (vm.clust 0)
    let dr_tmp : vector := fun d => P.r d - seed.r d
    let dr := MATRIX_VECTOR_MULTIPLICATION vm.rotation dr_tmp
    syst.set_particle p
      { P with
        patches := for_loop syst.n_patches
          (fun i pt => Function.update pt i (fun d =>
            seed.r d + dr d
              + MATRIX_VECTOR_MULTIPLICATION vm.rotation
                  (normalized_diff_vector syst P.r (pt i)) d)) P.patches
        r := fun d => seed.r d + dr d }

/-! ## vmmc.c: the cluster move -/

/-- Why a run of the code did not return: a loop of the model ran out of fuel, an
`assert` failed, or `output_exit` was called. -/
inductive Stop where
  | out_of_fuel
  | assertion
  | fatal
  deriving DecidableEq, Repr

/-- The three outcomes of the pair oracle `MC_interact`. -/
inductive Interaction where
  | BOND
  | OVERLAP
  | NONE
  deriving DecidableEq, Repr

/-- The collaborators of the core that are not part of it: the build flag `NDEBUG`
(when set, `assert` does nothing), the successive values of `drand48()`, the samplers
of `utils.h` (each maps the number of draws consumed so far to its result and the new
number), the pair oracle with the vector `O` it writes, and the library function `exp`. -/
structure Env where
  NDEBUG : Bool
  drand48 : Nat → ℚ
  random_vector_on_sphere : Nat → vector × Nat
  biased_angle : ℚ → Nat → ℚ × Nat
  get_rotation_matrix : vector → ℚ → matrix
  MC_interact : System → Nat → Nat → Interaction × vector
  exp : ℚ → ℚ

/-- The program state of the cluster move: the system, the global `vmmcdata` and the
number of values of `drand48()` consumed so far. -/
structure State where
  syst : System
  vmmcdata : vmmc_d
  draws : Nat

/-- The function `_pair_energy`: the value returned and the system after the call. -/
def _pair_energy (env : Env) (syst : System) (p q : Nat) : ℚ × System :=
  match (env.MC_interact syst p q).1 with
  | Interaction.BOND => (SCALAR syst.e (env.MC_interact syst p q).2, syst)
  | Interaction.OVERLAP => (100000000, { syst with overlap := 1 })
  | Interaction.NONE => (0, syst)

/-- The function `_mycomp` applied to `&possible_links[p]` and `&possible_links[q]`. -/
def _mycomp (syst : System) (links : Nat → Nat) (p q : Nat) : Int :=
  let a := syst.particles (links p)
  let b := syst.particles (links (p + 1))
  let c := syst.particles (links q)
  let d := syst.particles (links (q + 1))
  let idx1 : Int := (a.index : Int) * syst.N + b.index
  let idx2 : Int := (c.index : Int) * syst.N + d.index
  idx1 - idx2

/-- The offsets `(j, k, l)` of the three nested loops over `-1, 0, 1`, in loop order. -/
def neighbour_offsets : List (Int × Int × Int) :=
  [-1, 0, 1].flatMap (fun j => [-1, 0, 1].flatMap (fun k => [-1, 0, 1].map (fun l => (j, k, l))))

/-- The value of `loop_index` for the cell triple `ind` and the offsets `o`; `%` is the
remainder of C. -/
def loop_index (syst : System) (ind : Fin 3 → Int) (o : Int × Int × Int) : Int :=
  let l0 := (ind 0 + o.1 + syst.cells.N_side 0).tmod (syst.cells.N_side 0)
  let l1 := (ind 1 + o.2.1 + syst.cells.N_side 1).tmod (syst.cells.N_side 1)
  let l2 := (ind 2 + o.2.2 + syst.cells.N_side 2).tmod (syst.cells.N_side 2)
  (l0 * syst.cells.N_side 1 + l1) * syst.cells.N_side 2 + l2

/-- The body of the `while(q != NULL)` loop of `_populate_possible_links` (lines
274-307) for the anchor `p` and the chain member `q`. -/
def populate_visit (s : State) (p q : Nat) : Except Stop State :=
  let P := s.syst.particles p
  let Q := s.syst.particles q
  if Q.index ≠ P.index then
    let dist : vector := fun d =>
      (Q.r d - P.r d) - s.syst.box d * (rint ((Q.r d - P.r d) / s.syst.box d) : ℚ)
    let dist2 := SCALAR dist dist
    if dist2 ≤ s.syst.sqr_rcut then
      if s.vmmcdata.n_possible_links ≥ 16 * s.syst.N_max then Except.error Stop.fatal
      else
        let n := s.vmmcdata.n_possible_links
        let links := Function.update
          (Function.update s.vmmcdata.possible_links (2 * n + 0)
            (if P.index < Q.index then p else q))
          (2 * n + 1) (if P.index < Q.index then q else p)
        let n1 := n + 1
        let dist := normalized_diff_vector s.syst P.r_old Q.r
        let Q1 : PatchyParticle :=
          { Q with
            patches := for_loop s.syst.n_patches
              (fun h pt => Function.update pt h
                (fun d => (P.r_old d + dist d) + (pt h d - Q.r d))) Q.patches
            r := fun d => P.r_old d + dist d }
        let syst1 := s.syst.set_particle q Q1
        let n2 :=
          if (List.range (n1 - 1)).any
              (fun m => decide (_mycomp syst1 links (2 * m) (2 * (n1 - 1)) = 0))
          then n1 - 1 else n1
        Except.ok { s with
          syst := syst1
          vmmcdata := { s.vmmcdata with possible_links := links, n_possible_links := n2 } }
    else Except.ok s
  else Except.ok s

/-- The loop `while(q != NULL) { ...; q = next[q->index]; }` of
`_populate_possible_links`, started at `q`. -/
def populate_chain (p : Nat) : Nat → Option Nat → State → Except Stop State
  | _, none, s => Except.ok s
  | 0, some _, _ => Except.error Stop.out_of_fuel
  | fuel + 1, some q, s =>
    match populate_visit s p q with
    | Except.error e => Except.error e
    | Except.ok s1 =>
      populate_chain p fuel (s1.syst.cells.next (s1.syst.particles q).index) s1

/-- The 27-cell loop of `_populate_possible_links` over the remaining offsets. -/
def populate_cells (fuel : Nat) (p : Nat) (ind : Fin 3 → Int) :
    List (Int × Int × Int) → State → Except Stop State
  | [], s => Except.ok s
  | o :: os, s =>
    match populate_chain p fuel (s.syst.cells.heads (loop_index s.syst ind o)) s with
    | Except.error e => Except.error e
    | Except.ok s1 => populate_cells fuel p ind os s1

/-- The function `_populate_possible_links`. -/
def _populate_possible_links (env : Env) (fuel : Nat) (s : State) (p : Nat) :
    Except Stop State :=
  let ind := (cells_fill_and_get_idx_from_particle s.syst p).2
  if env.NDEBUG = false ∧ s.vmmcdata.is_in_cluster (s.syst.particles p).index ≠ 1 then
    Except.error Stop.assertion
  else populate_cells fuel p ind neighbour_offsets s

/-- The `while(q != NULL)` loop of `_compute_cluster_energy` for the member `p`, started
at `q`; the accumulator holds `res` and the system (whose `overlap` flag the pair
energy may set). -/
def energy_chain (env : Env) (vm : vmmc_d) (p : Nat) :
    Nat → Option Nat → ℚ × System → Except Stop (ℚ × System)
  | _, none, acc => Except.ok acc
  | 0, some _, _ => Except.error Stop.out_of_fuel
  | fuel + 1, some q, acc =>
    let acc1 : ℚ × System :=
      if vm.is_in_cluster (acc.2.particles q).index = 0 then
        (acc.1 + (_pair_energy env acc.2 p q).1, (_pair_energy env acc.2 p q).2)
      else acc
    energy_chain env vm p fuel (acc1.2.cells.next (acc1.2.particles q).index) acc1

/-- The 27-cell loop of `_compute_cluster_energy` over the remaining offsets. -/
def energy_cells (env : Env) (vm : vmmc_d) (fuel : Nat) (p : Nat) (ind : Fin 3 → Int) :
    List (Int × Int × Int) → ℚ × System → Except Stop (ℚ × System)
  | [], acc => Except.ok acc
  | o :: os, acc =>
    match energy_chain env vm p fuel (acc.2.cells.heads (loop_index acc.2 ind o)) acc with
    | Except.error e => Except.error e
    | Except.ok acc1 => energy_cells env vm fuel p ind os acc1

/-- The outer loop of `_compute_cluster_energy` over the remaining positions `i` of
`clust`. -/
def energy_members (env : Env) (vm : vmmc_d) (fuel : Nat) :
    List Nat → ℚ × System → Except Stop (ℚ × System)
  | [], acc => Except.ok acc
  | i :: is, acc =>
    let p := vm.clust i
    if env.NDEBUG = false ∧ vm.is_in_cluster (acc.2.particles p).index ≠ 1 then
      Except.error Stop.assertion
    else
      match energy_cells env vm fuel p (cells_fill_and_get_idx_from_particle acc.2 p).2
          neighbour_offsets acc with
      | Except.error e => Except.error e
      | Except.ok acc1 => energy_members env vm fuel is acc1

/-- The function `_compute_cluster_energy`: the value returned and the system after the
call. -/
def _compute_cluster_energy (env : Env) (fuel : Nat) (s : State) : Except Stop (ℚ × System) :=
  energy_members env s.vmmcdata fuel (List.range s.vmmcdata.n_clust) (0, s.syst)

/-- Modelled from the spec: the linear scan of `MC_change_cell` (file `MC.c`, not among
the sources) that unlinks `p` from the chain of `p.cell_old`; `previous` and `current`
are the two cursors of the scan. A chain that ends before `p` is met is left as it is. -/
def change_cell_unlink (syst : System) (p : Nat) :
    Nat → Option Nat → Option Nat → Except Stop Cells
  | _, _, none => Except.ok syst.cells
  | 0, _, some _ => Except.error Stop.out_of_fuel
  | fuel + 1, previous, some current =>
    if (syst.particles current).index = (syst.particles p).index then
      match previous with
      | none => Except.ok { syst.cells with
          heads := Function.update syst.cells.heads (syst.particles p).cell_old
            (syst.cells.next (syst.particles p).index) }
      | some prev => Except.ok { syst.cells with
          next := Function.update syst.cells.next (syst.particles prev).index
            (syst.cells.next (syst.particles p).index) }
    else
      change_cell_unlink syst p fuel (some current)
        (syst.cells.next (syst.particles current).index)

/-- Modelled from the spec: the function `MC_change_cell` of `MC.c` (not among the
sources). It recomputes the owning cell of `p`; if unchanged it does nothing; otherwise it
unlinks `p` from the chain of `p.cell_old`, prepends it to the chain of the new cell, and
updates both `p.cell` and `p.cell_old`. -/
def MC_change_cell (fuel : Nat) (syst : System) (p : Nat) : Except Stop System :=
  let P := syst.particles p
  let cell_index := (cells_fill_and_get_idx_from_particle syst p).1
  if cell_index = P.cell then Except.ok syst
  else
    match change_cell_unlink syst p fuel none (syst.cells.heads P.cell_old) with
    | Except.error e => Except.error e
    | Except.ok cells1 =>
      Except.ok { syst with
        cells := { cells1 with
          next := Function.update cells1.next P.index (cells1.heads cell_index)
          heads := Function.update cells1.heads cell_index (some p) }
        particles := Function.update syst.particles p
          { P with cell := cell_index, cell_old := cell_index } }

/-- The locals `move` and `angle` of `VMMC_dynamics`. -/
structure Proposal where
  move : vector
  angle : ℚ

/-- The call `_store_dof(p)` on the particle behind the pointer `p`. -/
def State.store_dof (s : State) (p : Nat) : State :=
  { s with syst := s.syst.set_particle p (_store_dof (s.syst.particles p)) }

/-- The call `_restore_dof(p)` on the particle behind the pointer `p`. -/
def State.restore_dof (s : State) (p : Nat) : State :=
  { s with syst := s.syst.set_particle p (_restore_dof (s.syst.particles p)) }

/-- The call `_move_particle(syst, p, move, angle)`. -/
def State.move_particle (s : State) (pr : Proposal) (p : Nat) : State :=
  { s with syst := _move_particle s.syst s.vmmcdata p pr.move pr.angle }

/-- Lines 56-82 of `VMMC_dynamics`: the counters are reset, the seed is drawn and put
into the cluster, and the random move is built. -/
def vmmc_start (env : Env) (s : State) : State × Proposal :=
  let seedp : Nat := (int_cast (env.drand48 s.draws * (s.syst.N : ℚ))).toNat
  let syst : System := { s.syst with tries := s.syst.tries + 1 }
  let vm : vmmc_d :=
    { s.vmmcdata with
      n_possible_links := 0
      n_clust := 1
      n_prelinked_particles := 0
      is_in_cluster := Function.update s.vmmcdata.is_in_cluster (s.syst.particles seedp).index 1
      clust := Function.update s.vmmcdata.clust 0 seedp }
  if env.drand48 (s.draws + 1) < 1 / 2 then
    ({ syst := syst
       vmmcdata := { vm with which_move := MoveKind.VMMC_TRANSLATION }
       draws := s.draws + 5 },
     { move := fun d => (env.drand48 (s.draws + 2 + d.val) - 1 / 2) * s.syst.disp_max
       angle := -1 })
  else
    let mv := env.random_vector_on_sphere (s.draws + 2)
    let ang := env.biased_angle s.syst.theta_max mv.2
    ({ syst := syst
       vmmcdata := { vm with
         which_move := MoveKind.VMMC_ROTATION
         rotation := env.get_rotation_matrix mv.1 ang.1 }
       draws := ang.2 },
     { move := mv.1, angle := ang.1 })

/-- Lines 85-89 and 156-160 of `VMMC_dynamics`: the links of `p` before and after its
trial move. -/
def vmmc_links_around (env : Env) (fuel : Nat) (pr : Proposal) (s : State) (p : Nat) :
    Except Stop State :=
  match _populate_possible_links env fuel (s.store_dof p) p with
  | Except.error e => Except.error e
  | Except.ok s1 =>
    match _populate_possible_links env fuel (s1.move_particle pr p) p with
    | Except.error e => Except.error e
    | Except.ok s2 => Except.ok (s2.restore_dof p)

/-- Lines 105-107 and 169-171 of `VMMC_dynamics`: the link at `link_index` is replaced by
the last one and the list shortened. -/
def drop_link (s : State) (link_index : Nat) : State :=
  let n := s.vmmcdata.n_possible_links
  let l := s.vmmcdata.possible_links
  let l1 := Function.update l (2 * link_index + 0) (l (2 * (n - 1) + 0))
  let l2 := Function.update l1 (2 * link_index + 1) (l1 (2 * (n - 1) + 1))
  { s with vmmcdata := { s.vmmcdata with possible_links := l2, n_possible_links := n - 1 } }

/-- Lines 123-129 and 136-142 of `VMMC_dynamics`: the particle `x` (one of `p`, `q`) is
saved, moved alone, the pair energy of `p` and `q` is taken, and `x` is put back; the
result is that energy, the value of `syst->overlap` it left, and the state with the flag
cleared. -/
def vmmc_virtual_move (env : Env) (pr : Proposal) (s : State) (p q x : Nat) :
    ℚ × Int × State :=
  let sx := (s.store_dof x).move_particle pr x
  let E := _pair_energy env sx.syst p q
  let s1 : State := ({ sx with syst := E.2 }).restore_dof x
  (E.1, s1.syst.overlap, { s1 with syst := { s1.syst with overlap := 0 } })

/-- The tests `force == 1 || prob > drand48()` at lines 134 and 148: the outcome and the
state after it; `drand48()` is called only when `force` is not 1. -/
def vmmc_decide (env : Env) (force : Int) (prob : ℚ) (s : State) : Bool × State :=
  if force = 1 then (true, s)
  else (decide (prob > env.drand48 s.draws), { s with draws := s.draws + 1 })

/-- Lines 151-153 of `VMMC_dynamics`: `q` is recruited. -/
def vmmc_recruit (s : State) (q : Nat) : State :=
  { s with vmmcdata := { s.vmmcdata with
      is_in_cluster := Function.update s.vmmcdata.is_in_cluster (s.syst.particles q).index 1
      clust := Function.update s.vmmcdata.clust s.vmmcdata.n_clust q
      n_clust := s.vmmcdata.n_clust + 1 } }

/-- Lines 164-165 of `VMMC_dynamics`: `q` becomes a prelinked particle. -/
def vmmc_prelink (s : State) (q : Nat) : State :=
  { s with vmmcdata := { s.vmmcdata with
      prelinked_particles :=
        Function.update s.vmmcdata.prelinked_particles s.vmmcdata.n_prelinked_particles q
      n_prelinked_particles := s.vmmcdata.n_prelinked_particles + 1 } }

/-- Lines 136-166 of `VMMC_dynamics`: `p` wants to recruit `q`; `q` is asked, and either
joins the cluster or becomes a prelinked particle. `s` is the state after the test of
line 134. -/
def vmmc_offer (env : Env) (fuel : Nat) (pr : Proposal) (s : State) (p q : Nat)
    (E_old p1 : ℚ) : Except Stop State :=
  let vq := vmmc_virtual_move env pr s p q q
  let E_q_moved := vq.1
  let force_link := vq.2.1
  let p2' := 1 - env.exp ((1 / vq.2.2.syst.T) * (E_old - E_q_moved))
  let p2 := if p2' > 1 then 1 else p2'
  let d := vmmc_decide env force_link (p2 / p1) vq.2.2
  if d.1 then vmmc_links_around env fuel pr (vmmc_recruit d.2 q) q
  else Except.ok (vmmc_prelink d.2 q)

/-- Lines 120-171 of `VMMC_dynamics`: the link at `link_index`, oriented so that `p` is
the member of the cluster and `q` is not, is tried and then dropped. -/
def vmmc_try_link (env : Env) (fuel : Nat) (pr : Proposal) (s0 : State)
    (link_index p q : Nat) : Except Stop State :=
  let Eo := _pair_energy env s0.syst p q
  let E_old := Eo.1
  let s1 : State := { s0 with syst := Eo.2 }
  if env.NDEBUG = false ∧ s1.syst.overlap ≠ 0 then Except.error Stop.assertion
  else
    let vp := vmmc_virtual_move env pr s1 p q p
    let E_p_moved := vp.1
    let force_prelink := vp.2.1
    let p1 := 1 - env.exp ((1 / vp.2.2.syst.T) * (E_old - E_p_moved))
    let d := vmmc_decide env force_prelink p1 vp.2.2
    if d.1 then
      match vmmc_offer env fuel pr d.2 p q E_old p1 with
      | Except.error e => Except.error e
      | Except.ok s5 => Except.ok (drop_link s5 link_index)
    else Except.ok (drop_link d.2 link_index)

/-- One pass of the recruitment loop of `VMMC_dynamics` (lines 94-171). -/
def vmmc_recruit_body (env : Env) (fuel : Nat) (pr : Proposal) (s : State) :
    Except Stop State :=
  let link_index : Nat :=
    (int_cast (env.drand48 s.draws * (s.vmmcdata.n_possible_links : ℚ))).toNat
  let s0 : State := { s with draws := s.draws + 1 }
  let p0 := s0.vmmcdata.possible_links (2 * link_index + 0)
  let q0 := s0.vmmcdata.possible_links (2 * link_index + 1)
  let inp := s0.vmmcdata.is_in_cluster (s0.syst.particles p0).index
  let inq := s0.vmmcdata.is_in_cluster (s0.syst.particles q0).index
  if env.NDEBUG = false ∧ ¬ (inp = 1 ∨ inq = 1) then Except.error Stop.assertion
  else if inp = 1 ∧ inq = 1 then Except.ok (drop_link s0 link_index)
  else if inp = 0 then vmmc_try_link env fuel pr s0 link_index q0 p0
  else vmmc_try_link env fuel pr s0 link_index p0 q0

/-- The condition of the `while` at line 92. -/
def recruit_guard (s : State) : Prop :=
  s.vmmcdata.n_possible_links > 0 ∧ (s.vmmcdata.n_clust : Int) < s.vmmcdata.max_cluster

instance (s : State) : Decidable (recruit_guard s) := by
  unfold recruit_guard; infer_instance

/-- The recruitment loop of `VMMC_dynamics` (lines 92-172), at most `k` passes. -/
def vmmc_recruit_loop (env : Env) (fuel : Nat) (pr : Proposal) :
    Nat → State → Except Stop State
  | 0, s => if recruit_guard s then Except.error Stop.out_of_fuel else Except.ok s
  | k + 1, s =>
    if recruit_guard s then
      match vmmc_recruit_body env fuel pr s with
      | Except.error e => Except.error e
      | Except.ok s1 => vmmc_recruit_loop env fuel pr k s1
    else Except.ok s

/-- Lines 56-172 of `VMMC_dynamics`: the state and the proposal when the recruitment
loop has ended. -/
def vmmc_build (env : Env) (fuel : Nat) (s : State) : Except Stop (State × Proposal) :=
  let a := vmmc_start env s
  match vmmc_links_around env fuel a.2 a.1 (a.1.vmmcdata.clust 0) with
  | Except.error e => Except.error e
  | Except.ok s1 =>
    match vmmc_recruit_loop env fuel a.2 fuel s1 with
    | Except.error e => Except.error e
    | Except.ok s2 => Except.ok (s2, a.2)

/-- Lines 175-188 of `VMMC_dynamics`: the value of `force_reject` after the two global
constraints. -/
def vmmc_constraints (s : State) : Int :=
  let vm := s.vmmcdata
  let force_reject : Int := if (vm.n_clust : Int) = vm.max_cluster then 1 else 0
  if (List.range vm.n_prelinked_particles).any (fun i =>
      decide (vm.is_in_cluster (s.syst.particles (vm.prelinked_particles i)).index = 0))
  then 1
  else force_reject

/-- The loop at lines 200-211 of `VMMC_dynamics` from position `i` on, with `todo`
positions left: the state after the loop and whether it ended by the `break` that sets
`force_reject`. -/
def vmmc_apply (fuel : Nat) (pr : Proposal) : Nat → Nat → State → Except Stop (State × Bool)
  | 0, _, s => Except.ok (s, false)
  | todo + 1, i, s =>
    let p := s.vmmcdata.clust i
    let s1 := (s.store_dof p).move_particle pr p
    match MC_change_cell fuel s1.syst p with
    | Except.error e => Except.error e
    | Except.ok syst2 =>
      let dist := normalized_diff_vector syst2
        (syst2.particles (s1.vmmcdata.clust 0)).r (syst2.particles p).r
      let dist2 := SCALAR dist dist
      if dist2 > s1.vmmcdata.max_move * s1.vmmcdata.max_move then
        Except.ok ({ s1 with syst := syst2 }, true)
      else vmmc_apply fuel pr todo (i + 1) { s1 with syst := syst2 }

/-- The value of `force_reject` after the loop at lines 200-211: set when the loop ended
by its `break`, else as the constraints left it. -/
def force_reject_after (broke : Bool) (force_reject : Int) : Int :=
  if broke then 1 else force_reject

/-- The outcome of lines 175-215 of `VMMC_dynamics`: the state, `force_reject` and
`deltaE` when the commit decision is taken. -/
structure Trial where
  s : State
  force_reject : Int
  deltaE : ℚ

/-- Lines 191-193 of `VMMC_dynamics`: `deltaE` and the state after the first energy
sum, which is skipped when `force_reject` is already set. -/
def vmmc_energy_before (env : Env) (fuel : Nat) (s : State) : Except Stop (ℚ × State) :=
  if vmmc_constraints s = 0 then
    match _compute_cluster_energy env fuel s with
    | Except.error e => Except.error e
    | Except.ok r =>
      if env.NDEBUG = false ∧ r.2.overlap ≠ 0 then Except.error Stop.assertion
      else Except.ok (0 - r.1, { s with syst := r.2 })
  else
    if env.NDEBUG = false ∧ s.syst.overlap ≠ 0 then Except.error Stop.assertion
    else Except.ok (0, s)

/-- Lines 175-215 of `VMMC_dynamics`: the constraints, the first energy sum, the move of
the cluster and the second energy sum. -/
def vmmc_trial (env : Env) (fuel : Nat) (pr : Proposal) (s : State) : Except Stop Trial :=
  match vmmc_energy_before env fuel s with
  | Except.error e => Except.error e
  | Except.ok b =>
    match vmmc_apply fuel pr b.2.vmmcdata.n_clust 0 b.2 with
    | Except.error e => Except.error e
    | Except.ok m =>
      let force_reject : Int := force_reject_after m.2 (vmmc_constraints s)
      if force_reject = 0 then
        match _compute_cluster_energy env fuel m.1 with
        | Except.error e => Except.error e
        | Except.ok r =>
          if env.NDEBUG = false ∧ r.2.overlap ≠ 0 then Except.error Stop.assertion
          else Except.ok
            { s := { m.1 with syst := r.2 }, force_reject := force_reject, deltaE := b.1 + r.1 }
      else
        if env.NDEBUG = false ∧ m.1.syst.overlap ≠ 0 then Except.error Stop.assertion
        else Except.ok { s := m.1, force_reject := force_reject, deltaE := b.1 }

/-- Lines 218-230 of `VMMC_dynamics`: the cluster is put back when `force_reject` is
set, and the counters are updated when it is not. -/
def vmmc_commit (t : Trial) : State :=
  let s1 : State :=
    if t.force_reject = 1 then
      for_loop t.s.vmmcdata.n_clust (fun i s => s.restore_dof (s.vmmcdata.clust i)) t.s
    else t.s
  if t.force_reject = 0 then
    { s1 with syst := { s1.syst with
        accepted := s1.syst.accepted + 1
        energy := s1.syst.energy + t.deltaE } }
  else s1

/-- The loop at lines 234-238 of `VMMC_dynamics` over the remaining positions of
`clust`. -/
def vmmc_cleanup (fuel : Nat) : List Nat → State → Except Stop State
  | [], s => Except.ok s
  | i :: is, s =>
    let p := s.vmmcdata.clust i
    match MC_change_cell fuel s.syst p with
    | Except.error e => Except.error e
    | Except.ok syst1 =>
      vmmc_cleanup fuel is
        { s with
          syst := syst1
          vmmcdata := { s.vmmcdata with
            is_in_cluster :=
              Function.update s.vmmcdata.is_in_cluster (syst1.particles p).index 0 } }

/-- The function `VMMC_dynamics`. Every loop of the model that follows a chain or repeats
the recruitment makes at most `fuel` passes. -/
def VMMC_dynamics (env : Env) (fuel : Nat) (s : State) : Except Stop State :=
  match vmmc_build env fuel s with
  | Except.error e => Except.error e
  | Except.ok b =>
    match vmmc_trial env fuel b.2 b.1 with
    | Except.error e => Except.error e
    | Except.ok t =>
      vmmc_cleanup fuel (List.range (vmmc_commit t).vmmcdata.n_clust) (vmmc_commit t)

/-! ## Predicates on states -/

/-- The second system has the particle indices, the running energy and the accepted
counter of the first. -/
def KeptSys (a b : System) : Prop :=
  (∀ i, (b.particles i).index = (a.particles i).index) ∧
    b.energy = a.energy ∧ b.accepted = a.accepted

/-- The second state has the cluster (`is_in_cluster`, `clust`, `n_clust`) and the two
bounds of the first, and its system is related to the first by `KeptSys`. -/
def Related (s s' : State) : Prop :=
  s'.vmmcdata.is_in_cluster = s.vmmcdata.is_in_cluster ∧
    s'.vmmcdata.clust = s.vmmcdata.clust ∧
    s'.vmmcdata.n_clust = s.vmmcdata.n_clust ∧
    KeptSys s.syst s'.syst

/-- The bookkeeping of the cluster with seed `seed`: `clust[0]` is the seed,
`is_in_cluster` holds only 0 and 1, it holds 1 exactly at the indices of the particles in
`clust[0 .. n_clust)`, and these indices (hence the particles) are pairwise distinct. -/
def ClusterInv (seed : Nat) (s : State) : Prop :=
  1 ≤ s.vmmcdata.n_clust ∧
    s.vmmcdata.clust 0 = seed ∧
    (∀ i, s.vmmcdata.is_in_cluster i = 0 ∨ s.vmmcdata.is_in_cluster i = 1) ∧
    (∀ i, s.vmmcdata.is_in_cluster i = 1 ↔
      ∃ k, k < s.vmmcdata.n_clust ∧ (s.syst.particles (s.vmmcdata.clust k)).index = i) ∧
    (∀ k k', k < s.vmmcdata.n_clust → k' < s.vmmcdata.n_clust →
      (s.syst.particles (s.vmmcdata.clust k)).index
        = (s.syst.particles (s.vmmcdata.clust k')).index → k = k')

/-- The states in which `VMMC_dynamics`, started in `s0`, evaluates the condition of the
recruitment loop (line 92). -/
inductive LoopHead (env : Env) (fuel : Nat) (s0 : State) : State → Prop where
  | first (s : State) :
      vmmc_links_around env fuel (vmmc_start env s0).2 (vmmc_start env s0).1
          ((vmmc_start env s0).1.vmmcdata.clust 0) = Except.ok s →
      LoopHead env fuel s0 s
  | next (s s' : State) :
      LoopHead env fuel s0 s → recruit_guard s →
      vmmc_recruit_body env fuel (vmmc_start env s0).2 s = Except.ok s' →
      LoopHead env fuel s0 s'

/-- The value a run returned, or `d` when it did not return. -/
def returned {α : Type} (d : α) : Except Stop α → α
  | Except.ok a => a
  | Except.error _ => d

/-- The function `VMMC_init`: `max_move` and `max_cluster` are the two values read from
the input file, `raw` is the content of the freshly allocated memory; `is_in_cluster` comes
from `calloc` and is zero. The arrays `possible_links`, `clust` and
`prelinked_particles` are allocated with `16 * N_max`, `N_max` and `N_max` entries. The
line the function writes to the log is left out. -/
def VMMC_init (max_move : ℚ) (max_cluster : Int) (raw : vmmc_d) : vmmc_d :=
  { raw with
    max_move := max_move
    max_cluster := max_cluster
    n_possible_links := 0
    n_clust := 0
    n_prelinked_particles := 0
    is_in_cluster := fun _ => 0 }

/-! ## Concrete configurations -/

/-- A particle without patches at position `r`. -/
def point_particle (i : Nat) (r : vector) : PatchyParticle :=
  { index := i, r := r, r_old := r, patches := fun _ => r, patches_old := fun _ => r,
    n_patches := 0, cell := 0, cell_old := 0 }

/-- A grid of `n` cells per side with every entry of `heads` and `next` clear. -/
def clear_cells (n : Int) : Cells :=
  { N_side := fun _ => n, N := n * n * n, heads := fun _ => none, next := fun _ => none }

/-- Two particles at `a` and `b` in a cubic box of side `side`, with cutoff `rcut`. -/
def two_particles (side rcut : ℚ) (a b : vector) : System :=
  { N := 2, N_max := 2, box := fun _ => side
    particles := fun i => if i = 0 then point_particle 0 a else point_particle 1 b
    cells := clear_cells 3
    n_patches := 0, sqr_rcut := rcut * rcut, T := 1, K := fun _ => 0, e := fun _ => 0
    disp_max := 1, theta_max := 1, energy := 0, overlap := 0, tries := 0, accepted := 0 }

/-- The second boundary scenario of the specification: a box of side 10 with particles
at `(0.1, 0, 0)` and `(9.9, 0, 0)`. -/
def wrap_pair : System := two_particles 10 3 ![1 / 10, 0, 0] ![99 / 10, 0, 0]

/-- The cell index of `wrap_pair` as `cells_init` with `rcut = 3` builds it. -/
def wrap_pair_init : System := (cells_init wrap_pair [] 3 wrap_pair.cells).1

/-- A box of side 6 with cutoff 3, the second boundary scenario of the specification. -/
def small_box : System := two_particles 6 3 ![0, 0, 0] ![3, 3, 3]

/-- Some content of the memory that `VMMC_init` allocates. -/
def raw_vmmc : vmmc_d :=
  { max_move := 0, max_cluster := 0, n_possible_links := 7, possible_links := fun _ => 0,
    clust := fun _ => 0, n_clust := 3, prelinked_particles := fun _ => 0,
    n_prelinked_particles := 5, is_in_cluster := fun _ => 2,
    which_move := MoveKind.VMMC_ROTATION, rotation := fun _ _ => 0 }

/-- The state before a move of `wrap_pair` with its cell index filled, `max_move = 1` and
`max_cluster = 10`. -/
def wrap_pair_state : State :=
  { syst := cells_fill wrap_pair_init, vmmcdata := VMMC_init 1 10 raw_vmmc, draws := 0 }

/-- Collaborators that never disturb a move: asserts are on, every draw is 0, the pair
oracle sees no interaction. -/
def quiet_env : Env :=
  { NDEBUG := false, drand48 := fun _ => 0, random_vector_on_sphere := fun n => (![1, 0, 0], n),
    biased_angle := fun _ n => (0, n), get_rotation_matrix := fun _ _ i j => if i = j then 1 else 0,
    MC_interact := fun _ _ _ => (Interaction.NONE, fun _ => 0), exp := fun _ => 1 }

/-- A box of side 12 with cutoff 3 and particles at `(0, 0, 0)` and `(9, 0, 0)`, whose
minimum-image distance is the cutoff. -/
def edge_pair : System := two_particles 12 3 ![0, 0, 0] ![9, 0, 0]

/-- The state of `edge_pair` after `cells_init` with `rcut = 3` and `cells_fill`, with
the particle `k` as the only member of the cluster. -/
def edge_pair_state (k : Nat) : State :=
  { syst := cells_fill (cells_init edge_pair [] 3 edge_pair.cells).1
    vmmcdata :=
      { VMMC_init 1 10 raw_vmmc with
        n_clust := 1
        clust := fun _ => k
        is_in_cluster := fun i => if i = k then 1 else 0 }
    draws := 0 }

/-- The state `wrap_pair_state` with the particle `k` as the only member of the
cluster. -/
def wrap_pair_seeded (k : Nat) : State :=
  { wrap_pair_state with
    vmmcdata :=
      { wrap_pair_state.vmmcdata with
        n_clust := 1
        clust := fun _ => k
        is_in_cluster := fun i => if i = k then 1 else 0 } }

/-- Collaborators with a short-ranged bond: the pair oracle reports a bond, with
`O = (1, 0, 0)`, when the minimum-image squared distance of the two particles is at most
`1/4`; every draw is 0 except the seventh, which is `9/10`; `exp` is a rational function
that is 1 at 0, increasing and positive. -/
def bond_env : Env :=
  { quiet_env with
    drand48 := fun k => if k = 6 then 9 / 10 else 0
    exp := fun x => if x ≤ 0 then 1 / (1 - x) else 1 + x
    MC_interact := fun syst p q =>
      if SCALAR (normalized_diff_vector syst (syst.particles p).r (syst.particles q).r)
          (normalized_diff_vector syst (syst.particles p).r (syst.particles q).r) ≤ 1 / 4
      then (Interaction.BOND, ![1, 0, 0]) else (Interaction.NONE, fun _ => 0) }

/-- The state `wrap_pair_state` with bond energy `-1` (`e = (-1, 0, 0)`) and the given
`max_cluster`. -/
def bonded_state (max_cluster : Int) : State :=
  { syst := { wrap_pair_state.syst with e := ![-1, 0, 0] }
    vmmcdata := VMMC_init 1 max_cluster raw_vmmc
    draws := 0 }

/-- The state `wrap_pair_state` with two patches on every particle and a translation as
the current move. -/
def patchy_state : State :=
  { wrap_pair_state with
    syst := { wrap_pair_state.syst with
      n_patches := 2
      particles := fun i =>
        { wrap_pair_state.syst.particles i with
          n_patches := 2
          patches := fun j => ![(j : ℚ), 1, 0] } }
    vmmcdata := { wrap_pair_state.vmmcdata with which_move := MoveKind.VMMC_TRANSLATION } }

/-- The matrix is orthogonal: its columns are orthonormal. -/
def Orthogonal (R : matrix) : Prop :=
  ∀ i j : Fin 3, R 0 i * R 0 j + R 1 i * R 1 j + R 2 i * R 2 j = if i = j then 1 else 0

/-- The rotation by a quarter turn about the third axis. -/
def quarter_turn : matrix := ![![0, -1, 0], ![1, 0, 0], ![0, 0, 1]]

/-- The state `patchy_state` with the quarter turn about the first particle as the
current move. -/
def turn_state : State :=
  { patchy_state with
    vmmcdata := { patchy_state.vmmcdata with
      which_move := MoveKind.VMMC_ROTATION
      rotation := quarter_turn
      clust := fun _ => 0 } }

/-- The number of pointer slots that `VMMC_init` allocates for `possible_links`
(line 30). -/
def possible_links_slots (syst : System) : Nat := 16 * syst.N_max

/-- The state `wrap_pair_state` with `max_move = 1/2`. -/
def tight_state : State :=
  { wrap_pair_state with vmmcdata := VMMC_init (1 / 2) 10 raw_vmmc }

/-- The pairs `(a, b)` with `a < b < n`, in lexicographic order. -/
def ordered_pairs (n : Nat) : List (Nat × Nat) :=
  (List.range n).flatMap (fun a =>
    (List.range n).filterMap (fun b => if a < b then some (a, b) else none))

/-- Twenty particles in a box of side 10 with cutoff 3: the last two at `(0.1, 0, 0)` and
`(9.9, 0, 0)`, the others at the centre of the box. -/
def crowd : System :=
  { wrap_pair with
    N := 20
    N_max := 20
    particles := fun i =>
      if i = 18 then point_particle 18 ![1 / 10, 0, 0]
      else if i = 19 then point_particle 19 ![99 / 10, 0, 0]
      else point_particle i ![5, 5, 5] }

/-- A state of `crowd` in the middle of a recruitment: the cell index is filled, the
cluster holds the particles 0 to 18, and `possible_links` holds the first 160 of the 190
pairs, which leaves out the pair `(18, 19)`. -/
def crowd_state : State :=
  { syst := cells_fill (cells_init crowd [] 3 crowd.cells).1
    vmmcdata :=
      { VMMC_init 1 100 raw_vmmc with
        n_clust := 19
        clust := fun k => k
        is_in_cluster := fun i => if i < 19 then 1 else 0
        n_possible_links := 160
        possible_links := fun k =>
          if k % 2 = 0 then ((ordered_pairs 20).getD (k / 2) (0, 0)).1
          else ((ordered_pairs 20).getD (k / 2) (0, 0)).2 }
    draws := 0 }

/-- The second system has the parameters of the first (`N`, `N_max`, `box`, `n_patches`,
`sqr_rcut`, `T`), and its particles have the same `index` and `n_patches`. -/
def Static (a b : System) : Prop :=
  b.N = a.N ∧ b.N_max = a.N_max ∧ b.box = a.box ∧ b.n_patches = a.n_patches ∧
    b.sqr_rcut = a.sqr_rcut ∧ b.T = a.T ∧
    ∀ i, (b.particles i).index = (a.particles i).index ∧
      (b.particles i).n_patches = (a.particles i).n_patches

/-- What no step of the recruitment changes: the parameters of the system, the cell
index, and the fields `max_move`, `max_cluster`, `which_move`, `rotation` of
`vmmcdata`. -/
def Calm (s s' : State) : Prop :=
  Static s.syst s'.syst ∧ s'.syst.cells = s.syst.cells ∧
    s'.vmmcdata.max_move = s.vmmcdata.max_move ∧
    s'.vmmcdata.max_cluster = s.vmmcdata.max_cluster ∧
    s'.vmmcdata.which_move = s.vmmcdata.which_move ∧
    s'.vmmcdata.rotation = s.vmmcdata.rotation

/-- The second system differs from the first in the flag `overlap` at most. -/
def OnlyOverlap (a b : System) : Prop := ∃ ov : Int, b = { a with overlap := ov }

/-- The value of `link_index` that line 95 of `VMMC_dynamics` draws in the state `s`. -/
def drawn_link (env : Env) (s : State) : Nat :=
  (int_cast (env.drand48 s.draws * (s.vmmcdata.n_possible_links : ℚ))).toNat

/-- The pointers `p` and `q` after lines 97-118 of `VMMC_dynamics`: the two ends of the
drawn link, swapped when the first one is not in the cluster. -/
def oriented_link (env : Env) (s : State) : Nat × Nat :=
  let p0 := s.vmmcdata.possible_links (2 * drawn_link env s + 0)
  let q0 := s.vmmcdata.possible_links (2 * drawn_link env s + 1)
  if s.vmmcdata.is_in_cluster (s.syst.particles p0).index = 0 then (q0, p0) else (p0, q0)

/-- The state after line 120 of `VMMC_dynamics`: the link is drawn and `E_old` is
computed. -/
def after_E_old (env : Env) (s : State) : State :=
  { s with
    draws := s.draws + 1
    syst := (_pair_energy env s.syst (oriented_link env s).1 (oriented_link env s).2).2 }

/-- The state `wrap_pair_state` with bond energy `+1` (`e = (1, 0, 0)`) in the middle of a
recruitment by translation: the cluster holds the first particle and `possible_links`
holds the one pair. -/
def repelled_state : State :=
  { syst := { wrap_pair_state.syst with e := ![1, 0, 0] }
    vmmcdata :=
      { VMMC_init 1 10 raw_vmmc with
        n_clust := 1
        clust := fun _ => 0
        is_in_cluster := fun i => if i = 0 then 1 else 0
        n_possible_links := 1
        possible_links := fun k => k % 2
        which_move := MoveKind.VMMC_TRANSLATION }
    draws := 0 }

/-- The cell index holds each particle once: the chain of every cell in `[0, N)` ends
within `fuel` particles and lists no particle twice, and no particle is listed in the
chains of two cells. -/
def ChainsOnce (syst : System) (fuel : Nat) : Prop :=
  ∀ c, 0 ≤ c → c < syst.cells.N →
    ∃ L, cell_chain syst fuel c = some L ∧ L.Nodup ∧
      ∀ c', 0 ≤ c' → c' < syst.cells.N → c' ≠ c →
        ∀ L', cell_chain syst fuel c' = some L' → ∀ q ∈ L, q ∉ L'

/-- The particles that the three nested loops over the neighbouring cells of `ind` meet,
in the order of the loops, for the remaining offsets; `none` when a chain does not end
within `fuel` particles. -/
def neighbour_chain (syst : System) (fuel : Nat) (ind : Fin 3 → Int) :
    List (Int × Int × Int) → Option (List Nat)
  | [] => some []
  | o :: os =>
    match cell_chain syst fuel (loop_index syst ind o), neighbour_chain syst fuel ind os with
    | some L, some R => some (L ++ R)
    | _, _ => none

/-- The body of the `while(q != NULL)` loop of `_populate_possible_links` for the anchor
`p`, run for the particles of the list in turn. -/
def populate_list (p : Nat) : List Nat → State → Except Stop State
  | [], s => Except.ok s
  | q :: qs, s =>
    match populate_visit s p q with
    | Except.error e => Except.error e
    | Except.ok s1 => populate_list p qs s1

/-- The body of the `while(q != NULL)` loop of `_compute_cluster_energy` (lines 389-397)
for the member `p` and the chain member `q`. -/
def energy_visit (env : Env) (vm : vmmc_d) (p : Nat) (acc : ℚ × System) (q : Nat) : ℚ × System :=
  if vm.is_in_cluster (acc.2.particles q).index = 0 then
    (acc.1 + (_pair_energy env acc.2 p q).1, (_pair_energy env acc.2 p q).2)
  else acc

/-- The body of the `while(q != NULL)` loop of `_compute_cluster_energy` for the member
`p`, run for the particles of the list in turn. -/
def energy_list (env : Env) (vm : vmmc_d) (p : Nat) (L : List Nat) (acc : ℚ × System) :
    ℚ × System :=
  L.foldl (energy_visit env vm p) acc

/-- The sum of `_compute_cluster_energy` over the remaining positions of `clust`, when
the member `p` meets the particles `nb p`. -/
def energy_sum (env : Env) (vm : vmmc_d) (nb : Nat → List Nat) :
    List Nat → ℚ × System → ℚ × System
  | [], acc => acc
  | i :: is, acc => energy_sum env vm nb is (energy_list env vm (vm.clust i) (nb (vm.clust i)) acc)

/-- The squared minimum-image distance that `_populate_possible_links` computes for the
anchor `p` and the chain member `q` (lines 279-283). -/
def link_dist2 (s : State) (p q : Nat) : ℚ :=
  let dist : vector := fun d =>
    ((s.syst.particles q).r d - (s.syst.particles p).r d)
      - s.syst.box d * (rint (((s.syst.particles q).r d - (s.syst.particles p).r d)
          / s.syst.box d) : ℚ)
  SCALAR dist dist

/-- The particle `Q` after lines 294-302 of `_populate_possible_links`: its position and
its patches are moved to the image that is closest to `P.r_old`. -/
def nearest_image (syst : System) (P Q : PatchyParticle) : PatchyParticle :=
  { Q with
    patches := for_loop syst.n_patches
      (fun h pt => Function.update pt h
        (fun d => (P.r_old d + normalized_diff_vector syst P.r_old Q.r d) + (pt h d - Q.r d)))
      Q.patches
    r := fun d => P.r_old d + normalized_diff_vector syst P.r_old Q.r d }

/-- The array `possible_links` after lines 288-289 of `_populate_possible_links`. -/
def links_with (s : State) (p q : Nat) : Nat → Nat :=
  Function.update
    (Function.update s.vmmcdata.possible_links (2 * s.vmmcdata.n_possible_links + 0)
      (if (s.syst.particles p).index < (s.syst.particles q).index then p else q))
    (2 * s.vmmcdata.n_possible_links + 1)
    (if (s.syst.particles p).index < (s.syst.particles q).index then q else p)

/-- Whether the scan of lines 304-309 of `_populate_possible_links` finds the pair just
written among the pairs before it. -/
def link_known (s : State) (p q : Nat) : Bool :=
  (List.range s.vmmcdata.n_possible_links).any
    (fun m => decide (_mycomp
      (s.syst.set_particle q (nearest_image s.syst (s.syst.particles p) (s.syst.particles q)))
      (links_with s p q) (2 * m) (2 * s.vmmcdata.n_possible_links) = 0))

/-- The pair `(r, pt)` of a position and patches is a periodic image of `(r0, pt0)`:
`r` is `r0` plus an integer multiple of `box[d]` in each dimension `d`, and the first `n`
patches have the same offsets from the position. -/
def ImageOf (box : vector) (n : Nat) (r0 : vector) (pt0 : Nat → vector)
    (r : vector) (pt : Nat → vector) : Prop :=
  (∀ d, ∃ k : Int, r d = r0 d + (k : ℚ) * box d) ∧
    ∀ j, j < n → ∀ d, pt j d - r d = pt0 j d - r0 d

/-- The current degrees of freedom of particle `i` in `syst` are a periodic image of those
it has in `ref`. -/
def CurrentImage (ref syst : System) (i : Nat) : Prop :=
  ImageOf ref.box ref.n_patches (ref.particles i).r (ref.particles i).patches
    (syst.particles i).r (syst.particles i).patches

/-- The snapshot (`r_old`, `patches_old`) of particle `i` in `syst` is a periodic image of
the degrees of freedom it has in `ref`. -/
def SnapshotImage (ref syst : System) (i : Nat) : Prop :=
  ImageOf ref.box ref.n_patches (ref.particles i).r (ref.particles i).patches
    (syst.particles i).r_old (syst.particles i).patches_old

/-- The state can be rolled back to `ref`: it has the parameters of `ref`, every
particle is at a periodic image of its place in `ref`, and so is the snapshot of every
member of the cluster. -/
def Rollable (ref : System) (s : State) : Prop :=
  Static ref s.syst ∧ (∀ i, CurrentImage ref s.syst i) ∧
    ∀ k, k < s.vmmcdata.n_clust → SnapshotImage ref s.syst (s.vmmcdata.clust k)

/-- The collaborators `bond_env` with every draw equal to 0, so that every offer of a
bonded pair is taken. -/
def eager_env : Env := { bond_env with drand48 := fun _ => 0 }

/-- The state `bonded_state 10` with `max_move = 1/10`, less than the distance `0.2` of
the two particles. -/
def bonded_tight_state : State :=
  { bonded_state 10 with vmmcdata := VMMC_init (1 / 10) 10 raw_vmmc }

/-- The test that a run from `bonded_tight_state` is rejected and leaves the particle
that was at `(9.9, 0, 0)` at `(-0.1, 0, 0)`. -/
def tight_run_check (s' : State) : Bool :=
  decide (s'.syst.accepted = bonded_tight_state.syst.accepted) &&
    decide ((s'.syst.particles 1).r 0 = -(1 / 10))

/-- Whether a run returned with a state that passes the test `P`. -/
def holds_after {α : Type} (x : Except Stop α) (P : α → Bool) : Bool :=
  match x with
  | Except.ok a => P a
  | Except.error _ => false

/-- Lines 201-203 of `VMMC_dynamics` for the member at position `i` of `clust`:
`_store_dof(p); _move_particle(p)`, without the update of the cell index. -/
def move_member (pr : Proposal) (i : Nat) (s : State) : State :=
  (s.store_dof (s.vmmcdata.clust i)).move_particle pr (s.vmmcdata.clust i)

/-- The state after the trial move has been applied to every member of the cluster: the
loop at lines 200-211 without the update of the cell index and without the `break`. -/
def cluster_moved (pr : Proposal) (s : State) : State :=
  for_loop s.vmmcdata.n_clust (move_member pr) s

/-- The squared minimum-image distance from `clust[0].r` to the position of the member at
position `k` of `clust`, as line 204-205 computes it. -/
def member_dist2 (s : State) (k : Nat) : ℚ :=
  SCALAR
    (normalized_diff_vector s.syst (s.syst.particles (s.vmmcdata.clust 0)).r
      (s.syst.particles (s.vmmcdata.clust k)).r)
    (normalized_diff_vector s.syst (s.syst.particles (s.vmmcdata.clust 0)).r
      (s.syst.particles (s.vmmcdata.clust k)).r)

/-- The two states have the same `vmmcdata`, the same box and every particle at the same
position. -/
def SamePlaces (a b : State) : Prop :=
  a.vmmcdata = b.vmmcdata ∧ a.syst.box = b.syst.box ∧
    ∀ x, (a.syst.particles x).r = (b.syst.particles x).r

/-- The seed that line 60 of `VMMC_dynamics` draws in the state `s`. -/
def vmmc_seed (env : Env) (s : State) : Nat := (vmmc_start env s).1.vmmcdata.clust 0

/-- No other particle in the 27 neighbouring cells of `p` is within `sqr_rcut` of `p`:
every particle that the neighbour loops around `p` meet either has the index of `p` or
is farther than the cutoff. -/
def Isolated (s : State) (fuel : Nat) (p : Nat) : Prop :=
  ∀ L, neighbour_chain s.syst fuel (cells_fill_and_get_idx_from_particle s.syst p).2
      neighbour_offsets = some L →
    ∀ q ∈ L, (s.syst.particles q).index ≠ (s.syst.particles p).index →
      s.syst.sqr_rcut < link_dist2 s p q

/-- The state before a move of `small_box` with its cell index filled, `max_move = 1` and
`max_cluster = 10`. -/
def small_box_state : State :=
  { syst := cells_fill (cells_init small_box [] 3 small_box.cells).1
    vmmcdata := VMMC_init 1 10 raw_vmmc
    draws := 0 }

/-- The cell index is as `cells_init` and `cells_fill` leave it: every side of the grid
is at least 3, `N` is the number of cells, and the chains hold each particle once and end
within `fuel` particles. -/
def GoodCells (syst : System) (fuel : Nat) : Prop :=
  (∀ d, 3 ≤ syst.cells.N_side d) ∧
    syst.cells.N = syst.cells.N_side 0 * syst.cells.N_side 1 * syst.cells.N_side 2 ∧
    ChainsOnce syst fuel

/-- The list of possible links is within the bound that `_populate_possible_links`
enforces (line 286). -/
def LinksCapped (s : State) : Prop := s.vmmcdata.n_possible_links ≤ 16 * s.syst.N_max

/-- The outcome of one pass of the recruitment loop from `s` to `s'`: either a particle
was recruited (`n_clust` is one more, at most `max_cluster` and at most `N`), or
`n_clust` is as before and the list of possible links is one shorter. -/
def RecruitedOrDropped (s s' : State) : Prop :=
  (s'.vmmcdata.n_clust = s.vmmcdata.n_clust + 1 ∧
      (s'.vmmcdata.n_clust : Int) ≤ s'.vmmcdata.max_cluster ∧
      s'.vmmcdata.n_clust ≤ s'.syst.N) ∨
    (s'.vmmcdata.n_clust = s.vmmcdata.n_clust ∧
      s'.vmmcdata.n_possible_links + 1 = s.vmmcdata.n_possible_links)

/-- The number of passes that the recruitment loop can still make from `s`, for a run
that started in `s0`. -/
def recruit_budget (s0 s : State) : Nat :=
  (s0.vmmcdata.max_cluster.toNat - s.vmmcdata.n_clust) * (16 * s0.syst.N_max + 1)
    + s.vmmcdata.n_possible_links

/-- The number of entries that `VMMC_init` allocates for `prelinked_particles`
(line 35). -/
def prelinked_slots (syst : System) : Nat := syst.N_max

/-- Five particles (`N = N_max = 5`) in a box of side 10 with cutoff 3 and bond energy
`-1`: the first two at `(5, 5, 5)` and `(5, 5.1, 5)`, the other three a quarter further
along the first axis, at `(5.25, 5, 5)`, `(5.25, 5.1, 5)` and `(5.25, 5.05, 5)`. -/
def star : System :=
  { wrap_pair with
    N := 5
    N_max := 5
    e := ![-1, 0, 0]
    particles := fun i =>
      if i = 0 then point_particle 0 ![5, 5, 5]
      else if i = 1 then point_particle 1 ![5, 51 / 10, 5]
      else if i = 2 then point_particle 2 ![21 / 4, 5, 5]
      else if i = 3 then point_particle 3 ![21 / 4, 51 / 10, 5]
      else point_particle 4 ![21 / 4, 101 / 20, 5] }

/-- The state before a move of `star` with its cell index built by `cells_init` with
`rcut = 3` and `cells_fill`, `max_move = 1` and `max_cluster = 10`. -/
def star_state : State :=
  { syst := cells_fill (cells_init star [] 3 star.cells).1
    vmmcdata := VMMC_init 1 10 raw_vmmc
    draws := 0 }

/-- The collaborators `bond_env` with the draws that make the move the translation
`(-1/2, 0, 0)`: the fourth and the fifth value of `drand48()` are `1/2`, every other
one is 0. -/
def axis_env : Env := { bond_env with drand48 := fun k => if k = 3 ∨ k = 4 then 1 / 2 else 0 }

/-- The state in which the run of `VMMC_dynamics` from `star_state` evaluates the
condition of the recruitment loop for the time `k + 1`. -/
def star_head : Nat → State
  | 0 => returned star_state (vmmc_links_around axis_env 7 (vmmc_start axis_env star_state).2
      (vmmc_start axis_env star_state).1 ((vmmc_start axis_env star_state).1.vmmcdata.clust 0))
  | k + 1 => returned star_state
      (vmmc_recruit_body axis_env 7 (vmmc_start axis_env star_state).2 (star_head k))

/-- The test that a run from `star_state` returned rejected with six prelinked
particles. -/
def star_run_check (s : State) : Bool :=
  decide (s.vmmcdata.n_prelinked_particles = 6) &&
    (decide (s.vmmcdata.prelinked_particles 5 = 3) &&
      decide (s.syst.accepted = star_state.syst.accepted))

/-! ## Lemmas on the arithmetic of the cell lookup -/

theorem DBL_EPSILON_pos : 0 < DBL_EPSILON := by
  unfold DBL_EPSILON; norm_num

theorem DBL_EPSILON_lt_one : DBL_EPSILON < 1 := by
  unfold DBL_EPSILON; norm_num

theorem int_cast_of_nonneg {x : ℚ} (h : 0 ≤ x) : int_cast x = ⌊x⌋ := by
  unfold int_cast; rw [if_pos h]

/-- The scaled fractional coordinate that the cell lookup truncates lies in `[0, n)`. -/
theorem scaled_fract_bounds (x : ℚ) (n : Int) (hn : 1 ≤ n) :
    0 ≤ (x - (⌊x⌋ : ℚ)) * (1 - DBL_EPSILON) * (n : ℚ) ∧
      (x - (⌊x⌋ : ℚ)) * (1 - DBL_EPSILON) * (n : ℚ) < (n : ℚ) := by
  have h0 : 0 ≤ x - (⌊x⌋ : ℚ) := Int.fract_nonneg x
  have h1 : x - (⌊x⌋ : ℚ) < 1 := Int.fract_lt_one x
  have he0 := DBL_EPSILON_pos
  have he1 := DBL_EPSILON_lt_one
  have hn' : (1 : ℚ) ≤ (n : ℚ) := by exact_mod_cast hn
  have hm : 0 ≤ (x - (⌊x⌋ : ℚ)) * (1 - DBL_EPSILON) := mul_nonneg h0 (by linarith)
  have hm1 : (x - (⌊x⌋ : ℚ)) * (1 - DBL_EPSILON) < 1 := by nlinarith
  constructor
  · exact mul_nonneg hm (by linarith)
  · nlinarith

/-- The component `d` of the triple of the cell lookup is a valid coordinate. -/
theorem idx_component_bounds (syst : System) (r : vector) (d : Fin 3)
    (hside : 1 ≤ syst.cells.N_side d) :
    0 ≤ (cells_fill_and_get_idx_from_vector syst r).2 d ∧
      (cells_fill_and_get_idx_from_vector syst r).2 d < syst.cells.N_side d := by
  have hb := scaled_fract_bounds (r d / syst.box d) (syst.cells.N_side d) hside
  simp only [cells_fill_and_get_idx_from_vector]
  rw [int_cast_of_nonneg hb.1]
  exact ⟨Int.floor_nonneg.mpr hb.1, Int.floor_lt.mpr hb.2⟩

/-- A triple of valid coordinates flattens to a valid cell index. -/
theorem flat_index_bounds (a b c n1 n2 n3 : Int) (ha : 0 ≤ a ∧ a < n1) (hb : 0 ≤ b ∧ b < n2)
    (hc : 0 ≤ c ∧ c < n3) :
    0 ≤ (a * n2 + b) * n3 + c ∧ (a * n2 + b) * n3 + c < n1 * n2 * n3 := by
  obtain ⟨ha0, ha1⟩ := ha
  obtain ⟨hb0, hb1⟩ := hb
  obtain ⟨hc0, hc1⟩ := hc
  have hn2 : 0 < n2 := by omega
  have hn3 : 0 < n3 := by omega
  have h1 : 0 ≤ a * n2 + b := by positivity
  have h2 : a * n2 + b + 1 ≤ n1 * n2 := by nlinarith
  constructor
  · positivity
  · nlinarith

theorem cell_index_bounds (syst : System) (r : vector)
    (hside : ∀ d, 1 ≤ syst.cells.N_side d) :
    0 ≤ (cells_fill_and_get_idx_from_vector syst r).1 ∧
      (cells_fill_and_get_idx_from_vector syst r).1
        < syst.cells.N_side 0 * syst.cells.N_side 1 * syst.cells.N_side 2 :=
  flat_index_bounds _ _ _ _ _ _ (idx_component_bounds syst r 0 (hside 0))
    (idx_component_bounds syst r 1 (hside 1)) (idx_component_bounds syst r 2 (hside 2))

/-- The intermediate values of the flattening stay below the number of cells, so the
computation does not leave the range of `int` when the number of cells is in it. -/
theorem flat_index_steps (a b c n1 n2 n3 : Int) (ha : 0 ≤ a ∧ a < n1) (hb : 0 ≤ b ∧ b < n2)
    (hc : 0 ≤ c ∧ c < n3) :
    0 ≤ a * n2 ∧ a * n2 ≤ a * n2 + b ∧ a * n2 + b < n1 * n2 ∧ n1 * n2 ≤ n1 * n2 * n3 ∧
      0 ≤ (a * n2 + b) * n3 ∧ (a * n2 + b) * n3 ≤ (a * n2 + b) * n3 + c := by
  obtain ⟨ha0, ha1⟩ := ha
  obtain ⟨hb0, hb1⟩ := hb
  obtain ⟨hc0, hc1⟩ := hc
  have hn1 : 0 < n1 := by omega
  have hn2 : 0 < n2 := by omega
  have hn3 : 1 ≤ n3 := by omega
  have h1 : 0 ≤ a * n2 := by positivity
  have h2 : a * n2 + b + 1 ≤ n1 * n2 := by nlinarith
  have h3 : 0 ≤ n1 * n2 := by positivity
  refine ⟨h1, by omega, by omega, by nlinarith, ?_, by omega⟩
  have : 0 ≤ a * n2 + b := by omega
  positivity

/-- C3: for every position, every box with positive sides and every grid with at least
one cell per side, `cells_fill_and_get_idx_from_vector` writes a triple of valid
coordinates and returns their flattened index, which is a valid cell index; the
intermediate values of the flattening are non-negative and below the number of cells. -/
theorem cells_idx_in_range (syst : System) (r : vector) (_hbox : ∀ d, 0 < syst.box d)
    (hside : ∀ d, 1 ≤ syst.cells.N_side d) :
    (∀ d, 0 ≤ (cells_fill_and_get_idx_from_vector syst r).2 d ∧
        (cells_fill_and_get_idx_from_vector syst r).2 d < syst.cells.N_side d) ∧
    (cells_fill_and_get_idx_from_vector syst r).1 =
      ((cells_fill_and_get_idx_from_vector syst r).2 0 * syst.cells.N_side 1
          + (cells_fill_and_get_idx_from_vector syst r).2 1) * syst.cells.N_side 2
        + (cells_fill_and_get_idx_from_vector syst r).2 2 ∧
    0 ≤ (cells_fill_and_get_idx_from_vector syst r).1 ∧
    (cells_fill_and_get_idx_from_vector syst r).1
      < syst.cells.N_side 0 * syst.cells.N_side 1 * syst.cells.N_side 2 ∧
    (0 ≤ (cells_fill_and_get_idx_from_vector syst r).2 0 * syst.cells.N_side 1 ∧
      (cells_fill_and_get_idx_from_vector syst r).2 0 * syst.cells.N_side 1
          + (cells_fill_and_get_idx_from_vector syst r).2 1
        < syst.cells.N_side 0 * syst.cells.N_side 1 ∧
      syst.cells.N_side 0 * syst.cells.N_side 1
        ≤ syst.cells.N_side 0 * syst.cells.N_side 1 * syst.cells.N_side 2 ∧
      0 ≤ ((cells_fill_and_get_idx_from_vector syst r).2 0 * syst.cells.N_side 1
          + (cells_fill_and_get_idx_from_vector syst r).2 1) * syst.cells.N_side 2) := by
  have h0 := idx_component_bounds syst r 0 (hside 0)
  have h1 := idx_component_bounds syst r 1 (hside 1)
  have h2 := idx_component_bounds syst r 2 (hside 2)
  have hb := cell_index_bounds syst r hside
  obtain ⟨s1, _, s3, s4, s5, _⟩ := flat_index_steps _ _ _ _ _ _ h0 h1 h2
  exact ⟨fun d => idx_component_bounds syst r d (hside d), rfl, hb.1, hb.2, s1, s3, s4, s5⟩

/-- The fractional coordinate does not see a shift by whole boxes. -/
theorem fract_shift (x b : ℚ) (k : Int) (hb : 0 < b) :
    (x + (k : ℚ) * b) / b - (⌊(x + (k : ℚ) * b) / b⌋ : ℚ) = x / b - (⌊x / b⌋ : ℚ) := by
  have h : (x + (k : ℚ) * b) / b = x / b + (k : ℚ) := by
    field_simp
  rw [h, Int.floor_add_int]
  push_cast
  ring

/-- C4: the cell lookup is periodic: replacing `r[d]` by `r[d] + k * box[d]` changes
neither the triple nor the flattened index. -/
theorem cells_idx_periodic (syst : System) (r : vector) (hbox : ∀ d, 0 < syst.box d)
    (d : Fin 3) (k : Int) :
    cells_fill_and_get_idx_from_vector syst
        (Function.update r d (r d + (k : ℚ) * syst.box d))
      = cells_fill_and_get_idx_from_vector syst r := by
  have key : ∀ d', (Function.update r d (r d + (k : ℚ) * syst.box d)) d' / syst.box d'
        - (⌊(Function.update r d (r d + (k : ℚ) * syst.box d)) d' / syst.box d'⌋ : ℚ)
      = r d' / syst.box d' - (⌊r d' / syst.box d'⌋ : ℚ) := by
    intro d'
    by_cases h : d' = d
    · subst h
      rw [Function.update_same]
      exact fract_shift _ _ k (hbox d')
    · rw [Function.update_noteq h]
  simp only [cells_fill_and_get_idx_from_vector, key]

/-! ## Lemmas on `for_loop` -/

theorem for_loop_zero {σ : Type} (body : Nat → σ → σ) (s : σ) : for_loop 0 body s = s := rfl

theorem for_loop_succ {σ : Type} (n : Nat) (body : Nat → σ → σ) (s : σ) :
    for_loop (n + 1) body s = body n (for_loop n body s) := by
  simp [for_loop, List.range_succ, List.foldl_append]

/-- A loop that overwrites entry `i` in pass `i` changes exactly the first `n` entries. -/
theorem for_loop_update_apply {α : Type} (n : Nat) (f : Nat → (Nat → α) → α) (a : Nat → α)
    (j : Nat) :
    for_loop n (fun i acc => Function.update acc i (f i acc)) a j
      = if j < n then f j (for_loop j (fun i acc => Function.update acc i (f i acc)) a)
        else a j := by
  induction n with
  | zero => simp [for_loop_zero]
  | succ n ih =>
    rw [for_loop_succ]
    by_cases hj : j = n
    · subst hj
      simp
    · rw [Function.update_noteq hj, ih]
      by_cases hlt : j < n
      · simp [hlt, Nat.lt_succ_of_lt hlt]
      · have : ¬ j < n + 1 := by omega
        simp [hlt, this]

/-- A loop that copies entry `i` of `src` in pass `i`. -/
theorem for_loop_copy_apply {α : Type} (n : Nat) (src : Nat → α) (a : Nat → α) (j : Nat) :
    for_loop n (fun i acc => Function.update acc i (src i)) a j
      = if j < n then src j else a j :=
  for_loop_update_apply n (fun i _ => src i) a j

/-- The loop that clears the first `n` heads. -/
theorem for_loop_clear_heads (n : Nat) (h0 : Int → Option Nat) (c : Int) :
    for_loop n (fun i h => Function.update h (i : Int) none) h0 c
      = if 0 ≤ c ∧ c < (n : Int) then none else h0 c := by
  induction n with
  | zero =>
    rw [for_loop_zero, if_neg]
    simp only [Nat.cast_zero]
    omega
  | succ n ih =>
    rw [for_loop_succ]
    by_cases hc : c = (n : Int)
    · subst hc
      simp
    · rw [Function.update_noteq hc, ih]
      by_cases hlt : 0 ≤ c ∧ c < (n : Int)
      · have : 0 ≤ c ∧ c < ((n + 1 : Nat) : Int) := by push_cast; omega
        rw [if_pos hlt, if_pos this]
      · have : ¬ (0 ≤ c ∧ c < ((n + 1 : Nat) : Int)) := by push_cast; omega
        rw [if_neg hlt, if_neg this]

/-! ## cells_init -/

/-- The three passes of the first loop of `cells_init`. -/
theorem cells_init_sides (box : vector) (rcut : ℚ) (N0 : Fin 3 → Int) (out : Output) :
    [(0 : Fin 3), 1, 2].foldl (fun acc i => cells_init_side box rcut i acc) (N0, out)
      = (fun d => max 3 ⌊box d / rcut⌋,
         out ++ ([(0 : Fin 3), 1, 2].filter (fun d => decide (⌊box d / rcut⌋ < 3))).map
           LogMsg.box_too_small) := by
  simp only [List.foldl, cells_init_side]
  by_cases h0 : ⌊box 0 / rcut⌋ < 3 <;> by_cases h1 : ⌊box 1 / rcut⌋ < 3 <;>
    by_cases h2 : ⌊box 2 / rcut⌋ < 3 <;>
    · simp only [h0, h1, h2, if_true, if_false, List.filter, decide_True, decide_False,
        List.map, List.append_assoc, List.append_nil, List.singleton_append, List.nil_append]
      refine Prod.ext ?_ rfl
      funext d
      fin_cases d <;> simp <;> omega

/-- The value of `rint` is within one half of its argument. -/
theorem rint_close (x : ℚ) : -(1 / 2) ≤ x - (rint x : ℚ) ∧ x - (rint x : ℚ) ≤ 1 / 2 := by
  have h0 : 0 ≤ x - (⌊x⌋ : ℚ) := Int.fract_nonneg x
  have h1 : x - (⌊x⌋ : ℚ) < 1 := Int.fract_lt_one x
  unfold rint
  split_ifs with ha hb hc
  · constructor <;> linarith
  · push_cast
    constructor <;> linarith
  · constructor <;> linarith
  · push_cast
    constructor <;> linarith

/-- Each component of the minimum-image difference is the plain difference less a whole
number of boxes, and is at most half a box long. -/
theorem normalized_diff_component (syst : System) (a b : vector) (d : Fin 3)
    (hbox : 0 < syst.box d) :
    normalized_diff_vector syst a b d
        = (b d - a d) - ((rint ((b d - a d) / syst.box d) : Int) : ℚ) * syst.box d ∧
      -(syst.box d / 2) ≤ normalized_diff_vector syst a b d ∧
      normalized_diff_vector syst a b d ≤ syst.box d / 2 := by
  have hr := rint_close ((b d - a d) / syst.box d)
  have hne : syst.box d ≠ 0 := ne_of_gt hbox
  have hc : normalized_diff_vector syst a b d
      = syst.box d * ((b d - a d) / syst.box d - (rint ((b d - a d) / syst.box d) : ℚ)) := by
    simp only [normalized_diff_vector]
    field_simp
  refine ⟨by simp only [normalized_diff_vector]; ring, ?_, ?_⟩
  · rw [hc]
    nlinarith [hr.1]
  · rw [hc]
    nlinarith [hr.2]

theorem rint_49_50 : rint (49 / 50) = 1 := by decide!

theorem rint_zero : rint 0 = 0 := by decide!

/-- C7: every component of `normalized_diff_vector(a, b)` is `b[d] - a[d]` less an integer
multiple of `box[d]` and lies in `[-box[d]/2, box[d]/2]`; in a box of side 10 the
difference from `(0.1, 0, 0)` to `(9.9, 0, 0)` is `(-0.2, 0, 0)`, of squared length
`0.2^2`. -/
theorem normalized_diff_vector_spec (syst : System) (a b : vector)
    (hbox : ∀ d, 0 < syst.box d) :
    (∀ d, (∃ k : Int, normalized_diff_vector syst a b d = (b d - a d) - (k : ℚ) * syst.box d) ∧
      -(syst.box d / 2) ≤ normalized_diff_vector syst a b d ∧
      normalized_diff_vector syst a b d ≤ syst.box d / 2) ∧
    (syst.box = (fun _ => 10) →
      normalized_diff_vector syst ![1 / 10, 0, 0] ![99 / 10, 0, 0] = ![-(1 / 5), 0, 0] ∧
      SCALAR (normalized_diff_vector syst ![1 / 10, 0, 0] ![99 / 10, 0, 0])
          (normalized_diff_vector syst ![1 / 10, 0, 0] ![99 / 10, 0, 0]) = (1 / 5) ^ 2) := by
  constructor
  · intro d
    have h := normalized_diff_component syst a b d (hbox d)
    exact ⟨⟨_, h.1⟩, h.2⟩
  · intro hb
    have hv : normalized_diff_vector syst ![1 / 10, 0, 0] ![99 / 10, 0, 0]
        = ![-(1 / 5), 0, 0] := by
      funext d
      have e1 : ((99 : ℚ) / 10 - 1 / 10) / 10 = 49 / 50 := by norm_num
      fin_cases d
      · show ((99 : ℚ) / 10 - 1 / 10)
            - syst.box 0 * (rint (((99 : ℚ) / 10 - 1 / 10) / syst.box 0) : ℚ) = -(1 / 5)
        rw [hb, e1, rint_49_50]
        norm_num
      · simp [normalized_diff_vector, hb, rint_zero]
      · simp [normalized_diff_vector, hb, rint_zero]
    rw [hv]
    refine ⟨rfl, ?_⟩
    simp [SCALAR]
    norm_num

/-! ## cells_fill -/

/-- The traversal of a chain reads `next` only at the particles it visits. -/
theorem chain_walk_congr (particles particles' : Nat → PatchyParticle)
    (next next' : Nat → Option Nat) :
    ∀ (fuel : Nat) (q : Option Nat) (L : List Nat),
      chain_walk particles next fuel q = some L →
      (∀ x ∈ L, next' (particles' x).index = next (particles x).index) →
      chain_walk particles' next' fuel q = some L := by
  intro fuel
  induction fuel with
  | zero =>
    intro q L h _
    cases q with
    | none => simpa [chain_walk] using h
    | some a => simp [chain_walk] at h
  | succ n ih =>
    intro q L h hL
    cases q with
    | none => simpa [chain_walk] using h
    | some a =>
      simp only [chain_walk, Option.map_eq_some'] at h ⊢
      obtain ⟨l, hl, rfl⟩ := h
      refine ⟨l, ?_, rfl⟩
      rw [hL a (List.mem_cons_self _ _)]
      exact ih _ l hl (fun x hx => hL x (List.mem_cons_of_mem _ hx))

/-- The first `k` passes of the loop of `cells_fill` keep the geometry, the positions and
the indices. -/
theorem cells_fill_loop_frame (syst : System) (k : Nat) :
    (for_loop k cells_fill_body syst).box = syst.box ∧
    (for_loop k cells_fill_body syst).N = syst.N ∧
    (for_loop k cells_fill_body syst).cells.N_side = syst.cells.N_side ∧
    (for_loop k cells_fill_body syst).cells.N = syst.cells.N ∧
    (∀ j, ((for_loop k cells_fill_body syst).particles j).r = (syst.particles j).r) ∧
    (∀ j, ((for_loop k cells_fill_body syst).particles j).index = (syst.particles j).index) := by
  induction k with
  | zero => simp [for_loop_zero]
  | succ k ih =>
    rw [for_loop_succ]
    obtain ⟨h1, h2, h3, h4, h5, h6⟩ := ih
    refine ⟨h1, h2, h3, h4, ?_, ?_⟩
    · intro j
      rw [← h5 j]
      by_cases hj : j = k
      · subst hj; simp [cells_fill_body]
      · simp [cells_fill_body, Function.update_noteq hj]
    · intro j
      rw [← h6 j]
      by_cases hj : j = k
      · subst hj; simp [cells_fill_body]
      · simp [cells_fill_body, Function.update_noteq hj]

/-- The cell lookup of a particle depends on the box, the grid and the position only. -/
theorem idx_from_particle_congr (s s' : System) (j : Nat) (hb : s'.box = s.box)
    (hs : s'.cells.N_side = s.cells.N_side) (hr : (s'.particles j).r = (s.particles j).r) :
    cells_fill_and_get_idx_from_particle s' j = cells_fill_and_get_idx_from_particle s j := by
  simp only [cells_fill_and_get_idx_from_particle, cells_fill_and_get_idx_from_vector, hb, hs, hr]

theorem cells_fill_loop_idx (syst : System) (k j : Nat) :
    cells_fill_and_get_idx_from_particle (for_loop k cells_fill_body syst) j
      = cells_fill_and_get_idx_from_particle syst j := by
  obtain ⟨h1, _, h3, _, h5, _⟩ := cells_fill_loop_frame syst k
  exact idx_from_particle_congr _ _ j h1 h3 (h5 j)

/-- The particles below `k` whose owning cell is `c`, last one first. -/
theorem owners_succ (f : Nat → Int) (c : Int) (k : Nat) :
    ((List.range (k + 1)).filter (fun i => decide (f i = c))).reverse
      = if f k = c then k :: ((List.range k).filter (fun i => decide (f i = c))).reverse
        else ((List.range k).filter (fun i => decide (f i = c))).reverse := by
  rw [List.range_succ, List.filter_append]
  by_cases h : f k = c
  · simp [h]
  · simp [h]

/-- The loop invariant of `cells_fill`: when the heads of the valid cells are clear at
the start, after `k` passes the chain of every valid cell `c` holds the particles below
`k` that the lookup sends to `c`, and these carry `cell = cell_old = c`. -/
theorem cells_fill_loop_chains (syst : System)
    (hidx : ∀ i, i < syst.N → (syst.particles i).index = i)
    (hclear : ∀ c, 0 ≤ c →
      c < syst.cells.N_side 0 * syst.cells.N_side 1 * syst.cells.N_side 2 →
      syst.cells.heads c = none) :
    ∀ k, k ≤ syst.N →
      (∀ c, 0 ≤ c → c < syst.cells.N_side 0 * syst.cells.N_side 1 * syst.cells.N_side 2 →
        ∀ fuel, k ≤ fuel →
          chain_walk (for_loop k cells_fill_body syst).particles
              (for_loop k cells_fill_body syst).cells.next fuel
              ((for_loop k cells_fill_body syst).cells.heads c)
            = some (((List.range k).filter
                (fun i => decide ((cells_fill_and_get_idx_from_particle syst i).1 = c))).reverse)) ∧
      (∀ j, j < k →
        ((for_loop k cells_fill_body syst).particles j).cell
            = (cells_fill_and_get_idx_from_particle syst j).1 ∧
        ((for_loop k cells_fill_body syst).particles j).cell_old
            = (cells_fill_and_get_idx_from_particle syst j).1) := by
  intro k
  induction k with
  | zero =>
    intro _
    refine ⟨?_, fun j hj => absurd hj (Nat.not_lt_zero j)⟩
    intro c hc0 hc1 fuel _
    rw [for_loop_zero, hclear c hc0 hc1]
    cases fuel <;> simp [chain_walk]
  | succ k ih =>
    intro hk
    obtain ⟨ihc, ihp⟩ := ih (Nat.le_of_succ_le hk)
    obtain ⟨_, _, _, _, _, hfi⟩ := cells_fill_loop_frame syst k
    have hik : ((for_loop k cells_fill_body syst).particles k).index = k := by
      rw [hfi k]; exact hidx k hk
    have hck := cells_fill_loop_idx syst k k
    have hnext : ∀ x, x < k →
        (for_loop (k + 1) cells_fill_body syst).cells.next
            (((for_loop (k + 1) cells_fill_body syst).particles x).index)
          = (for_loop k cells_fill_body syst).cells.next
              (((for_loop k cells_fill_body syst).particles x).index) := by
      intro x hx
      have hxk : x ≠ k := Nat.ne_of_lt hx
      have hix : ((for_loop k cells_fill_body syst).particles x).index = x := by
        rw [hfi x]; exact hidx x (by omega)
      rw [for_loop_succ]
      simp only [cells_fill_body, Function.update_noteq hxk, hik, hix]
    constructor
    · intro c hc0 hc1 fuel hfuel
      rw [owners_succ]
      have hold := ihc c hc0 hc1
      have hmem : ∀ x ∈ ((List.range k).filter
          (fun i => decide ((cells_fill_and_get_idx_from_particle syst i).1 = c))).reverse,
          x < k := by
        intro x hx
        rw [List.mem_reverse, List.mem_filter, List.mem_range] at hx
        exact hx.1
      by_cases hc : (cells_fill_and_get_idx_from_particle syst k).1 = c
      · rw [if_pos hc]
        obtain ⟨f, rfl⟩ : ∃ f, fuel = f + 1 := ⟨fuel - 1, by omega⟩
        have hhead : (for_loop (k + 1) cells_fill_body syst).cells.heads c = some k := by
          rw [for_loop_succ]
          simp only [cells_fill_body, hck, hc, Function.update_same]
        have hnk : (for_loop (k + 1) cells_fill_body syst).cells.next
              (((for_loop (k + 1) cells_fill_body syst).particles k).index)
            = (for_loop k cells_fill_body syst).cells.heads c := by
          rw [for_loop_succ]
          simp only [cells_fill_body, hck, hc, Function.update_same, hik]
        rw [hhead]
        simp only [chain_walk, Option.map_eq_some']
        refine ⟨_, ?_, rfl⟩
        rw [hnk]
        exact chain_walk_congr _ _ _ _ f _ _ (hold f (by omega))
          (fun x hx => hnext x (hmem x hx))
      · rw [if_neg hc]
        have hhead : (for_loop (k + 1) cells_fill_body syst).cells.heads c
            = (for_loop k cells_fill_body syst).cells.heads c := by
          rw [for_loop_succ]
          have : c ≠ (cells_fill_and_get_idx_from_particle syst k).1 := fun h => hc h.symm
          simp only [cells_fill_body, hck, Function.update_noteq this]
        rw [hhead]
        exact chain_walk_congr _ _ _ _ fuel _ _ (hold fuel (by omega))
          (fun x hx => hnext x (hmem x hx))
    · intro j hj
      by_cases hjk : j = k
      · subst hjk
        rw [for_loop_succ]
        simp [cells_fill_body, hck]
      · have hlt : j < k := by omega
        rw [for_loop_succ]
        simp only [cells_fill_body, Function.update_noteq hjk]
        exact ihp j hlt

/-- The chains that `cells_fill` builds from cleared heads: the chain of every valid cell
ends, holds only particles that the lookup sends to that cell and that carry its index,
and holds each of them once; the owning cell of every particle is valid. -/
theorem cells_fill_chains (syst : System)
    (hidx : ∀ i, i < syst.N → (syst.particles i).index = i)
    (hside : ∀ d, 1 ≤ syst.cells.N_side d)
    (hN : syst.cells.N = syst.cells.N_side 0 * syst.cells.N_side 1 * syst.cells.N_side 2)
    (hclear : ∀ c, 0 ≤ c → c < syst.cells.N → syst.cells.heads c = none) :
    (∀ c, 0 ≤ c → c < (cells_fill syst).cells.N →
      ∃ L, cell_chain (cells_fill syst) syst.N c = some L ∧
        (∀ q ∈ L, q < syst.N ∧
          (cells_fill_and_get_idx_from_particle (cells_fill syst) q).1 = c ∧
          ((cells_fill syst).particles q).cell = c ∧
          ((cells_fill syst).particles q).cell_old = c) ∧
        (∀ i, i < syst.N →
          (cells_fill_and_get_idx_from_particle (cells_fill syst) i).1 = c → L.count i = 1)) ∧
    (∀ i, i < syst.N →
      0 ≤ (cells_fill_and_get_idx_from_particle (cells_fill syst) i).1 ∧
      (cells_fill_and_get_idx_from_particle (cells_fill syst) i).1 < (cells_fill syst).cells.N) := by
  have hclear' : ∀ c, 0 ≤ c →
      c < syst.cells.N_side 0 * syst.cells.N_side 1 * syst.cells.N_side 2 →
      syst.cells.heads c = none := by
    intro c h0 h1
    exact hclear c h0 (by rw [hN]; exact h1)
  obtain ⟨hch, hcell⟩ := cells_fill_loop_chains syst hidx hclear' syst.N (le_refl _)
  obtain ⟨_, _, _, hfN, _, _⟩ := cells_fill_loop_frame syst syst.N
  have hid : ∀ j, cells_fill_and_get_idx_from_particle (cells_fill syst) j
      = cells_fill_and_get_idx_from_particle syst j := cells_fill_loop_idx syst syst.N
  have hNN : (cells_fill syst).cells.N = syst.cells.N := hfN
  constructor
  · intro c hc0 hc1
    rw [hNN, hN] at hc1
    refine ⟨_, hch c hc0 hc1 syst.N (le_refl _), ?_, ?_⟩
    · intro q hq
      rw [List.mem_reverse, List.mem_filter, List.mem_range] at hq
      have hqc : (cells_fill_and_get_idx_from_particle syst q).1 = c := by simpa using hq.2
      refine ⟨hq.1, ?_, ?_, ?_⟩
      · rw [hid q]; exact hqc
      · rw [← hqc]; exact (hcell q hq.1).1
      · rw [← hqc]; exact (hcell q hq.1).2
    · intro i hi hic
      rw [hid i] at hic
      apply List.count_eq_one_of_mem
      · exact List.nodup_reverse.mpr ((List.nodup_range _).filter _)
      · rw [List.mem_reverse, List.mem_filter, List.mem_range]
        exact ⟨hi, by simpa using hic⟩
  · intro i _
    rw [hid i, hNN, hN]
    exact cell_index_bounds syst _ hside

/-- What `cells_init` leaves behind, as far as `cells_fill` relies on it. -/
theorem cells_init_ready (syst : System) (out : Output) (rcut : ℚ) (raw : Cells) :
    (∀ d, (cells_init syst out rcut raw).1.cells.N_side d = max 3 ⌊syst.box d / rcut⌋) ∧
    (cells_init syst out rcut raw).1.cells.N
      = (cells_init syst out rcut raw).1.cells.N_side 0
        * (cells_init syst out rcut raw).1.cells.N_side 1
        * (cells_init syst out rcut raw).1.cells.N_side 2 ∧
    (∀ c, 0 ≤ c → c < (cells_init syst out rcut raw).1.cells.N →
      (cells_init syst out rcut raw).1.cells.heads c = none) ∧
    (∀ i, i < syst.N_max → (cells_init syst out rcut raw).1.cells.next i = none) ∧
    (cells_init syst out rcut raw).2
      = out ++ ([(0 : Fin 3), 1, 2].filter (fun d => decide (⌊syst.box d / rcut⌋ < 3))).map
          LogMsg.box_too_small := by
  have hs := cells_init_sides syst.box rcut raw.N_side out
  refine ⟨?_, rfl, ?_, ?_, ?_⟩
  · intro d
    simp only [cells_init, hs]
  · intro c hc0 hc1
    have hh : (cells_init syst out rcut raw).1.cells.heads c
        = for_loop (cells_init syst out rcut raw).1.cells.N.toNat
            (fun i h => Function.update h (i : Int) none) raw.heads c := rfl
    rw [hh, for_loop_clear_heads, if_pos]
    refine ⟨hc0, ?_⟩
    rw [Int.toNat_of_nonneg (le_trans hc0 (le_of_lt hc1))]
    exact hc1
  · intro i hi
    have hh : (cells_init syst out rcut raw).1.cells.next i
        = for_loop syst.N_max (fun i nx => Function.update nx i none) raw.next i := rfl
    rw [hh, for_loop_copy_apply, if_pos hi]
  · simp only [cells_init, hs]

/-- C1: after `cells_init` and one `cells_fill`, when the particles carry their array
position as index (below `N_max`) and the box sides are positive, the chain of every cell
ends, every particle reached from `heads[c]` is one of the `N` particles, is sent to `c`
by `cells_fill_and_get_idx_from_particle` and has `cell == c` and `cell_old == c`; every
particle occurs exactly once in the chain of the cell the lookup returns for it, which is
a valid cell, and so in no other chain. -/
theorem cells_fill_after_init (syst : System) (out : Output) (rcut : ℚ) (raw : Cells)
    (hidx : ∀ i, i < syst.N → (syst.particles i).index = i ∧ (syst.particles i).index < syst.N_max)
    (_hbox : ∀ d, 0 < syst.box d) :
    (∀ c, 0 ≤ c → c < (cells_fill (cells_init syst out rcut raw).1).cells.N →
      ∃ L, cell_chain (cells_fill (cells_init syst out rcut raw).1) syst.N c = some L ∧
        (∀ q ∈ L, q < syst.N ∧
          (cells_fill_and_get_idx_from_particle
            (cells_fill (cells_init syst out rcut raw).1) q).1 = c ∧
          ((cells_fill (cells_init syst out rcut raw).1).particles q).cell = c ∧
          ((cells_fill (cells_init syst out rcut raw).1).particles q).cell_old = c) ∧
        (∀ i, i < syst.N →
          (cells_fill_and_get_idx_from_particle
            (cells_fill (cells_init syst out rcut raw).1) i).1 = c → L.count i = 1)) ∧
    (∀ i, i < syst.N →
      0 ≤ (cells_fill_and_get_idx_from_particle
            (cells_fill (cells_init syst out rcut raw).1) i).1 ∧
      (cells_fill_and_get_idx_from_particle (cells_fill (cells_init syst out rcut raw).1) i).1
        < (cells_fill (cells_init syst out rcut raw).1).cells.N) := by
  obtain ⟨hside, hN, hheads, _, _⟩ := cells_init_ready syst out rcut raw
  have hs1 : ∀ d, 1 ≤ (cells_init syst out rcut raw).1.cells.N_side d := by
    intro d
    rw [hside d]
    exact le_trans (by norm_num) (le_max_left _ _)
  exact cells_fill_chains (cells_init syst out rcut raw).1 (fun i hi => (hidx i hi).1) hs1 hN hheads

theorem wrap_pair_indexed :
    ∀ i, i < wrap_pair.N →
      (wrap_pair.particles i).index = i ∧ (wrap_pair.particles i).index < wrap_pair.N_max := by
  decide

theorem wrap_pair_box : ∀ d, 0 < wrap_pair.box d := by
  intro d
  show (0 : ℚ) < 10
  norm_num

/-- An instance at `wrap_pair` with `rcut = 3`: the particle at `(9.9, 0, 0)` lies
in the valid cell 18 and occurs once in its chain. -/
theorem cells_fill_after_init_witness :
    (0 ≤ (cells_fill_and_get_idx_from_particle (cells_fill wrap_pair_init) 1).1 ∧
      (cells_fill_and_get_idx_from_particle (cells_fill wrap_pair_init) 1).1
        < (cells_fill wrap_pair_init).cells.N) ∧
    ∃ L, cell_chain (cells_fill wrap_pair_init) 2 18 = some L ∧ L.count 1 = 1 := by
  have h := cells_fill_after_init wrap_pair [] 3 wrap_pair.cells wrap_pair_indexed wrap_pair_box
  refine ⟨h.2 1 (by decide), ?_⟩
  obtain ⟨L, hL, _, hc⟩ := h.1 18 (by decide) (by decide!)
  exact ⟨L, hL, hc 1 (by decide) (by decide!)⟩

/-- A chain whose first particle is its own successor never ends. -/
theorem chain_walk_self_loop (particles : Nat → PatchyParticle) (next : Nat → Option Nat)
    (q : Nat) (h : next (particles q).index = some q) :
    ∀ fuel, chain_walk particles next fuel (some q) = none := by
  intro fuel
  induction fuel with
  | zero => rfl
  | succ n ih => simp [chain_walk, h, ih]

/-- C2, as stated, fails: a second `cells_fill` on the index that a first one populated
makes particle 0 its own successor, so the chain of cell 0 never ends, while the same
call on the cleared index leaves `next[0]` empty. -/
theorem cells_fill_twice_cycle :
    (cells_fill wrap_pair_init).cells.next 0 = none ∧
    (cells_fill (cells_fill wrap_pair_init)).cells.heads 0 = some 0 ∧
    (cells_fill (cells_fill wrap_pair_init)).cells.next 0 = some 0 ∧
    cell_chain (cells_fill (cells_fill wrap_pair_init)) 2 0 = none ∧
    ¬ ∃ fuel L, cell_chain (cells_fill (cells_fill wrap_pair_init)) fuel 0 = some L := by
  have h1 : (cells_fill wrap_pair_init).cells.next 0 = none := by decide!
  have h2 : (cells_fill (cells_fill wrap_pair_init)).cells.heads 0 = some 0 := by decide!
  have h3 : (cells_fill (cells_fill wrap_pair_init)).cells.next
      (((cells_fill (cells_fill wrap_pair_init)).particles 0).index) = some 0 := by decide!
  have h4 : ∀ fuel, cell_chain (cells_fill (cells_fill wrap_pair_init)) fuel 0 = none := by
    intro fuel
    unfold cell_chain
    rw [h2]
    exact chain_walk_self_loop _ _ 0 h3 fuel
  refine ⟨h1, h2, by decide!, h4 2, ?_⟩
  rintro ⟨fuel, L, hL⟩
  rw [h4 fuel] at hL
  exact Option.noConfusion hL

/-- Two runs of the loop of `cells_fill` that start from the same system up to the content
of `next` agree on everything but `next`, and on the entries of `next` written so far. -/
theorem cells_fill_loop_next_free (syst : System) (nx : Nat → Option Nat)
    (hidx : ∀ i, i < syst.N → (syst.particles i).index = i) :
    ∀ k, k ≤ syst.N →
      (for_loop k cells_fill_body { syst with cells := { syst.cells with next := nx } }).box
          = (for_loop k cells_fill_body syst).box ∧
      (for_loop k cells_fill_body { syst with cells := { syst.cells with next := nx } }).particles
          = (for_loop k cells_fill_body syst).particles ∧
      (for_loop k cells_fill_body
            { syst with cells := { syst.cells with next := nx } }).cells.N_side
          = (for_loop k cells_fill_body syst).cells.N_side ∧
      (for_loop k cells_fill_body { syst with cells := { syst.cells with next := nx } }).cells.heads
          = (for_loop k cells_fill_body syst).cells.heads ∧
      (∀ i, i < k →
        (for_loop k cells_fill_body
              { syst with cells := { syst.cells with next := nx } }).cells.next i
          = (for_loop k cells_fill_body syst).cells.next i) := by
  intro k
  induction k with
  | zero =>
    intro _
    simp [for_loop_zero]
  | succ k ih =>
    intro hk
    obtain ⟨hb, hp, hs, hh, hn⟩ := ih (Nat.le_of_succ_le hk)
    obtain ⟨_, _, _, _, _, hfi⟩ := cells_fill_loop_frame syst k
    have hik : ((for_loop k cells_fill_body syst).particles k).index = k := by
      rw [hfi k]; exact hidx k hk
    have hc : cells_fill_and_get_idx_from_particle
          (for_loop k cells_fill_body { syst with cells := { syst.cells with next := nx } }) k
        = cells_fill_and_get_idx_from_particle (for_loop k cells_fill_body syst) k :=
      idx_from_particle_congr _ _ k hb hs (by rw [hp])
    rw [for_loop_succ, for_loop_succ]
    refine ⟨hb, ?_, hs, ?_, ?_⟩
    · simp only [cells_fill_body, hp, hc]
    · simp only [cells_fill_body, hh, hc]
    · intro i hi
      simp only [cells_fill_body, hp, hh, hc, hik]
      by_cases hik' : i = k
      · subst hik'
        simp
      · rw [Function.update_noteq hik', Function.update_noteq hik']
        exact hn i (by omega)

/-- C2, amended: when the heads of all cells are clear before the call (as `cells_init`
leaves them), then for every prior content of `next` the chains that `cells_fill` builds
hold each particle of `[0, N)` in exactly one chain exactly once, every chain ends, and
the resulting `heads` and the `next` entries of the `N` particles do not depend on the
prior content of `next`. -/
theorem cells_fill_from_clear_heads (syst : System)
    (hidx : ∀ i, i < syst.N → (syst.particles i).index = i)
    (_hbox : ∀ d, 0 < syst.box d)
    (hside : ∀ d, 1 ≤ syst.cells.N_side d)
    (hN : syst.cells.N = syst.cells.N_side 0 * syst.cells.N_side 1 * syst.cells.N_side 2)
    (hclear : ∀ c, 0 ≤ c → c < syst.cells.N → syst.cells.heads c = none) :
    ((∀ c, 0 ≤ c → c < (cells_fill syst).cells.N →
      ∃ L, cell_chain (cells_fill syst) syst.N c = some L ∧
        (∀ q ∈ L, q < syst.N ∧
          (cells_fill_and_get_idx_from_particle (cells_fill syst) q).1 = c ∧
          ((cells_fill syst).particles q).cell = c ∧
          ((cells_fill syst).particles q).cell_old = c) ∧
        (∀ i, i < syst.N →
          (cells_fill_and_get_idx_from_particle (cells_fill syst) i).1 = c → L.count i = 1)) ∧
    (∀ i, i < syst.N →
      0 ≤ (cells_fill_and_get_idx_from_particle (cells_fill syst) i).1 ∧
      (cells_fill_and_get_idx_from_particle (cells_fill syst) i).1
        < (cells_fill syst).cells.N)) ∧
    (∀ nx : Nat → Option Nat,
      (cells_fill { syst with cells := { syst.cells with next := nx } }).cells.heads
          = (cells_fill syst).cells.heads ∧
      ∀ i, i < syst.N →
        (cells_fill { syst with cells := { syst.cells with next := nx } }).cells.next i
          = (cells_fill syst).cells.next i) := by
  refine ⟨cells_fill_chains syst hidx hside hN hclear, ?_⟩
  intro nx
  obtain ⟨_, _, _, hh, hn⟩ := cells_fill_loop_next_free syst nx hidx syst.N (le_refl _)
  exact ⟨hh, hn⟩

/-- An instance at the cleared index of `wrap_pair`: the owning cell of the second particle
is valid, and `next[0]` after the call is the same from a `next` filled with pointers. -/
theorem cells_fill_from_clear_heads_witness :
    (0 ≤ (cells_fill_and_get_idx_from_particle (cells_fill wrap_pair) 1).1 ∧
      (cells_fill_and_get_idx_from_particle (cells_fill wrap_pair) 1).1
        < (cells_fill wrap_pair).cells.N) ∧
    (cells_fill { wrap_pair with
        cells := { wrap_pair.cells with next := fun _ => some 1 } }).cells.next 0
      = (cells_fill wrap_pair).cells.next 0 := by
  have h := cells_fill_from_clear_heads wrap_pair (fun i hi => (wrap_pair_indexed i hi).1)
    wrap_pair_box (fun _ => (by decide : (1 : Int) ≤ 3)) (by decide) (fun _ _ _ => rfl)
  exact ⟨h.1.2 1 (by decide), (h.2 (fun _ => some 1)).2 0 (by decide)⟩

/-- An instance at `wrap_pair`: the cell index of the position `(9.9, 0, 0)` is valid. -/
theorem cells_idx_in_range_witness :
    0 ≤ (cells_fill_and_get_idx_from_vector wrap_pair ![99 / 10, 0, 0]).1 ∧
    (cells_fill_and_get_idx_from_vector wrap_pair ![99 / 10, 0, 0]).1
      < wrap_pair.cells.N_side 0 * wrap_pair.cells.N_side 1 * wrap_pair.cells.N_side 2 :=
  ⟨(cells_idx_in_range wrap_pair ![99 / 10, 0, 0] wrap_pair_box
      (fun _ => (by decide : (1 : Int) ≤ 3))).2.2.1,
    (cells_idx_in_range wrap_pair ![99 / 10, 0, 0] wrap_pair_box
      (fun _ => (by decide : (1 : Int) ≤ 3))).2.2.2.1⟩

/-- An instance at `wrap_pair`: the position `(9.9, 0, 0)` and its image five boxes
further along `x` have the same cell. -/
theorem cells_idx_periodic_witness :
    cells_fill_and_get_idx_from_vector wrap_pair
        (Function.update ![99 / 10, 0, 0] 0
          ((![99 / 10, 0, 0] : vector) 0 + ((5 : Int) : ℚ) * wrap_pair.box 0))
      = cells_fill_and_get_idx_from_vector wrap_pair ![99 / 10, 0, 0] :=
  cells_idx_periodic wrap_pair ![99 / 10, 0, 0] wrap_pair_box 0 5

/-- An instance at `wrap_pair`: the minimum-image difference across the boundary. -/
theorem normalized_diff_vector_spec_witness :
    normalized_diff_vector wrap_pair ![1 / 10, 0, 0] ![99 / 10, 0, 0] = ![-(1 / 5), 0, 0] ∧
    SCALAR (normalized_diff_vector wrap_pair ![1 / 10, 0, 0] ![99 / 10, 0, 0])
        (normalized_diff_vector wrap_pair ![1 / 10, 0, 0] ![99 / 10, 0, 0]) = (1 / 5) ^ 2 :=
  (normalized_diff_vector_spec wrap_pair ![1 / 10, 0, 0] ![99 / 10, 0, 0] wrap_pair_box).2 rfl

/-! ## Snapshots -/

/-- The call `_move_particle` on `p` leaves the snapshot, the patch count and the index of
`p` alone, and changes no patch beyond the first `syst->n_patches`. -/
theorem move_particle_own (syst : System) (vm : vmmc_d) (p : Nat) (move : vector) (t : ℚ) :
    ((_move_particle syst vm p move t).particles p).r_old = (syst.particles p).r_old ∧
    ((_move_particle syst vm p move t).particles p).patches_old
      = (syst.particles p).patches_old ∧
    ((_move_particle syst vm p move t).particles p).n_patches = (syst.particles p).n_patches ∧
    ((_move_particle syst vm p move t).particles p).index = (syst.particles p).index ∧
    (∀ j, syst.n_patches ≤ j →
      ((_move_particle syst vm p move t).particles p).patches j = (syst.particles p).patches j) := by
  unfold _move_particle
  cases vm.which_move
  · refine ⟨?_, ?_, ?_, ?_, ?_⟩ <;> simp only [System.set_particle, Function.update_same]
    intro j hj
    rw [for_loop_update_apply, if_neg (by omega)]
  · refine ⟨?_, ?_, ?_, ?_, ?_⟩ <;> simp only [System.set_particle, Function.update_same]
    intro j hj
    rw [for_loop_update_apply, if_neg (by omega)]

/-- The call `_move_particle` on `p` changes no other particle. -/
theorem move_particle_other (syst : System) (vm : vmmc_d) (p : Nat) (move : vector) (t : ℚ)
    (q : Nat) (hq : q ≠ p) :
    (_move_particle syst vm p move t).particles q = syst.particles q := by
  unfold _move_particle
  cases vm.which_move <;> simp only [System.set_particle, Function.update_noteq hq]

/-- C8: `_store_dof(p); _move_particle(p); _restore_dof(p)` leaves `p.r` and every
`p.patches[i]` as they were, for a translation by any vector and a rotation by any matrix
about any seed, when `p.n_patches` is the system's `n_patches`. -/
theorem store_move_restore (s : State) (pr : Proposal) (p : Nat)
    (hn : (s.syst.particles p).n_patches = s.syst.n_patches) :
    ((((s.store_dof p).move_particle pr p).restore_dof p).syst.particles p).r
        = (s.syst.particles p).r ∧
    ∀ i, ((((s.store_dof p).move_particle pr p).restore_dof p).syst.particles p).patches i
        = (s.syst.particles p).patches i := by
  have hstore : (s.store_dof p).syst.particles p = _store_dof (s.syst.particles p) := by
    simp [State.store_dof, System.set_particle]
  have hnp : (s.store_dof p).syst.n_patches = s.syst.n_patches := rfl
  obtain ⟨h1, h2, h3, _, h5⟩ := move_particle_own (s.store_dof p).syst (s.store_dof p).vmmcdata p
    pr.move pr.angle
  rw [hstore] at h1 h2 h3 h5
  have hres : (((s.store_dof p).move_particle pr p).restore_dof p).syst.particles p
      = _restore_dof (((s.store_dof p).move_particle pr p).syst.particles p) := by
    simp [State.restore_dof, System.set_particle]
  have hmv : ((s.store_dof p).move_particle pr p).syst
      = _move_particle (s.store_dof p).syst (s.store_dof p).vmmcdata p pr.move pr.angle := rfl
  rw [hres, hmv]
  constructor
  · simp only [_restore_dof, h1, _store_dof]
  · intro i
    simp only [_restore_dof, h2, h3]
    rw [for_loop_copy_apply]
    simp only [_store_dof]
    by_cases hi : i < (s.syst.particles p).n_patches
    · rw [if_pos hi, for_loop_copy_apply, if_pos hi]
    · rw [if_neg hi]
      rw [h5 i (by rw [hnp, ← hn]; omega)]
      rfl

/-- An instance at `patchy_state`: the translation by `(1, 2, 3)` of the particle at
`(9.9, 0, 0)`, which carries two patches, is undone by the restore. -/
theorem store_move_restore_witness :
    ((((patchy_state.store_dof 1).move_particle ⟨![1, 2, 3], -1⟩ 1).restore_dof 1).syst.particles
        1).r = (patchy_state.syst.particles 1).r ∧
    ((((patchy_state.store_dof 1).move_particle ⟨![1, 2, 3], -1⟩ 1).restore_dof 1).syst.particles
        1).patches 1 = (patchy_state.syst.particles 1).patches 1 :=
  ⟨(store_move_restore patchy_state ⟨![1, 2, 3], -1⟩ 1 rfl).1,
    (store_move_restore patchy_state ⟨![1, 2, 3], -1⟩ 1 rfl).2 1⟩

/-! ## Neighbour enumeration at the two-particle configurations -/

theorem eq_ok_of_toBool {α : Type} (x : Except Stop α) (d : α) (h : x.toBool = true) :
    x = Except.ok (returned d x) := by
  cases x with
  | ok a => rfl
  | error e => simp [Except.toBool] at h

/-- C6 at the input `edge_pair`: the grid has 4 cells per side, the two particles are at
minimum-image squared distance `9 <= sqr_rcut`, their cell triples are `(0, 0, 0)` and
`(2, 0, 0)`, which differ by 2 modulo 4, and `_populate_possible_links` returns from
either particle without recording the pair. In `wrap_pair` (box 10, particles at
`(0.1, 0, 0)` and `(9.9, 0, 0)`) the enumeration from either particle records the pair. -/
theorem populate_misses_pair_at_cutoff :
    ((edge_pair_state 0).syst.cells.N_side 0 = 4 ∧
      SCALAR (normalized_diff_vector (edge_pair_state 0).syst ![0, 0, 0] ![9, 0, 0])
          (normalized_diff_vector (edge_pair_state 0).syst ![0, 0, 0] ![9, 0, 0])
        ≤ (edge_pair_state 0).syst.sqr_rcut ∧
      (cells_fill_and_get_idx_from_particle (edge_pair_state 0).syst 0).2 0 = 0 ∧
      (cells_fill_and_get_idx_from_particle (edge_pair_state 0).syst 1).2 0 = 2 ∧
      (_populate_possible_links quiet_env 2 (edge_pair_state 0) 0).toOption.map
          (fun s => s.vmmcdata.n_possible_links) = some 0 ∧
      (_populate_possible_links quiet_env 2 (edge_pair_state 1) 1).toOption.map
          (fun s => s.vmmcdata.n_possible_links) = some 0) ∧
    ((_populate_possible_links quiet_env 2 (wrap_pair_seeded 0) 0).toOption.map
          (fun s => (s.vmmcdata.n_possible_links, s.vmmcdata.possible_links 0,
            s.vmmcdata.possible_links 1)) = some (1, 0, 1) ∧
      (_populate_possible_links quiet_env 2 (wrap_pair_seeded 1) 1).toOption.map
          (fun s => (s.vmmcdata.n_possible_links, s.vmmcdata.possible_links 0,
            s.vmmcdata.possible_links 1)) = some (1, 0, 1)) := by
  decide!

/-! ## What the steps of the cluster move leave unchanged -/

theorem KeptSys.kept_refl (a : System) : KeptSys a a := ⟨fun _ => rfl, rfl, rfl⟩

theorem KeptSys.kept_trans {a b c : System} (h1 : KeptSys a b) (h2 : KeptSys b c) : KeptSys a c :=
  ⟨fun i => (h2.1 i).trans (h1.1 i), h2.2.1.trans h1.2.1, h2.2.2.trans h1.2.2⟩

theorem Related.rel_refl (s : State) : Related s s := ⟨rfl, rfl, rfl, KeptSys.kept_refl _⟩

theorem Related.rel_trans {a b c : State} (h1 : Related a b) (h2 : Related b c) : Related a c :=
  ⟨h2.1.trans h1.1, h2.2.1.trans h1.2.1, h2.2.2.1.trans h1.2.2.1, h1.2.2.2.kept_trans h2.2.2.2⟩

/-- Overwriting one particle by one of the same index keeps the system. -/
theorem set_particle_kept (syst : System) (p : Nat) (x : PatchyParticle)
    (hx : x.index = (syst.particles p).index) : KeptSys syst (syst.set_particle p x) := by
  refine ⟨?_, rfl, rfl⟩
  intro i
  by_cases hi : i = p
  · subst hi
    simp [System.set_particle, hx]
  · simp [System.set_particle, Function.update_noteq hi]

theorem store_dof_related (s : State) (p : Nat) : Related s (s.store_dof p) :=
  ⟨rfl, rfl, rfl, set_particle_kept _ _ _ rfl⟩

theorem restore_dof_related (s : State) (p : Nat) : Related s (s.restore_dof p) :=
  ⟨rfl, rfl, rfl, set_particle_kept _ _ _ rfl⟩

theorem move_particle_kept (syst : System) (vm : vmmc_d) (p : Nat) (move : vector) (t : ℚ) :
    KeptSys syst (_move_particle syst vm p move t) := by
  unfold _move_particle
  cases vm.which_move <;> exact set_particle_kept _ _ _ rfl

theorem move_particle_related (s : State) (pr : Proposal) (p : Nat) :
    Related s (s.move_particle pr p) :=
  ⟨rfl, rfl, rfl, move_particle_kept s.syst s.vmmcdata p pr.move pr.angle⟩

theorem pair_energy_kept (env : Env) (syst : System) (p q : Nat) :
    KeptSys syst (_pair_energy env syst p q).2 := by
  unfold _pair_energy
  split <;> exact ⟨fun _ => rfl, rfl, rfl⟩

theorem populate_visit_related (s s' : State) (p q : Nat)
    (h : populate_visit s p q = Except.ok s') : Related s s' := by
  simp only [populate_visit] at h
  split_ifs at h <;> cases h <;>
    first
    | exact Related.rel_refl _
    | exact ⟨rfl, rfl, rfl, set_particle_kept _ _ _ rfl⟩

theorem populate_chain_related (p : Nat) :
    ∀ (fuel : Nat) (q : Option Nat) (s s' : State),
      populate_chain p fuel q s = Except.ok s' → Related s s' := by
  intro fuel
  induction fuel with
  | zero =>
    intro q s s' h
    cases q with
    | none =>
      simp only [populate_chain] at h
      cases h
      exact Related.rel_refl _
    | some a => simp [populate_chain] at h
  | succ n ih =>
    intro q s s' h
    cases q with
    | none =>
      simp only [populate_chain] at h
      cases h
      exact Related.rel_refl _
    | some a =>
      simp only [populate_chain] at h
      cases hv : populate_visit s p a with
      | error e => rw [hv] at h; cases h
      | ok s1 =>
        rw [hv] at h
        exact (populate_visit_related _ _ _ _ hv).rel_trans (ih _ _ _ h)

theorem populate_cells_related (fuel p : Nat) (ind : Fin 3 → Int) :
    ∀ (os : List (Int × Int × Int)) (s s' : State),
      populate_cells fuel p ind os s = Except.ok s' → Related s s' := by
  intro os
  induction os with
  | nil =>
    intro s s' h
    simp only [populate_cells] at h
    cases h
    exact Related.rel_refl _
  | cons o os ih =>
    intro s s' h
    simp only [populate_cells] at h
    cases hc : populate_chain p fuel (s.syst.cells.heads (loop_index s.syst ind o)) s with
    | error e => rw [hc] at h; cases h
    | ok s1 =>
      rw [hc] at h
      exact (populate_chain_related _ _ _ _ _ hc).rel_trans (ih _ _ h)

theorem populate_links_related (env : Env) (fuel : Nat) (s s' : State) (p : Nat)
    (h : _populate_possible_links env fuel s p = Except.ok s') : Related s s' := by
  unfold _populate_possible_links at h
  split_ifs at h
  exact populate_cells_related _ _ _ _ _ _ h

theorem links_around_related (env : Env) (fuel : Nat) (pr : Proposal) (s s' : State) (p : Nat)
    (h : vmmc_links_around env fuel pr s p = Except.ok s') : Related s s' := by
  unfold vmmc_links_around at h
  cases h1 : _populate_possible_links env fuel (s.store_dof p) p with
  | error e => rw [h1] at h; cases h
  | ok s1 =>
    rw [h1] at h
    simp only at h
    cases h2 : _populate_possible_links env fuel (s1.move_particle pr p) p with
    | error e => rw [h2] at h; cases h
    | ok s2 =>
      rw [h2] at h
      cases h
      exact (((store_dof_related s p).rel_trans (populate_links_related _ _ _ _ _ h1)).rel_trans
        ((move_particle_related s1 pr p).rel_trans (populate_links_related _ _ _ _ _ h2))).rel_trans
        (restore_dof_related s2 p)

theorem virtual_move_related (env : Env) (pr : Proposal) (s : State) (p q x : Nat) :
    Related s (vmmc_virtual_move env pr s p q x).2.2 := by
  have h1 : Related s ((s.store_dof x).move_particle pr x) :=
    (store_dof_related s x).rel_trans (move_particle_related _ pr x)
  have h2 : Related ((s.store_dof x).move_particle pr x)
      { (s.store_dof x).move_particle pr x with
        syst := (_pair_energy env ((s.store_dof x).move_particle pr x).syst p q).2 } :=
    ⟨rfl, rfl, rfl, pair_energy_kept _ _ _ _⟩
  have h3 := restore_dof_related
    { (s.store_dof x).move_particle pr x with
      syst := (_pair_energy env ((s.store_dof x).move_particle pr x).syst p q).2 } x
  have h4 : Related (({ (s.store_dof x).move_particle pr x with
        syst := (_pair_energy env ((s.store_dof x).move_particle pr x).syst p q).2 } :
        State).restore_dof x) (vmmc_virtual_move env pr s p q x).2.2 :=
    ⟨rfl, rfl, rfl, fun _ => rfl, rfl, rfl⟩
  exact ((h1.rel_trans h2).rel_trans h3).rel_trans h4

theorem decide_related (env : Env) (force : Int) (prob : ℚ) (s : State) :
    Related s (vmmc_decide env force prob s).2 := by
  unfold vmmc_decide
  split_ifs
  · exact Related.rel_refl _
  · exact ⟨rfl, rfl, rfl, KeptSys.kept_refl _⟩

theorem drop_link_related (s : State) (link_index : Nat) : Related s (drop_link s link_index) :=
  ⟨rfl, rfl, rfl, KeptSys.kept_refl _⟩

theorem prelink_related (s : State) (q : Nat) : Related s (vmmc_prelink s q) :=
  ⟨rfl, rfl, rfl, KeptSys.kept_refl _⟩

/-- The bookkeeping of the cluster carries over to a state with the same cluster and the
same particle indices. -/
theorem ClusterInv.of_cluster {seed : Nat} {s s' : State} (h : ClusterInv seed s)
    (r1 : s'.vmmcdata.is_in_cluster = s.vmmcdata.is_in_cluster)
    (r2 : s'.vmmcdata.clust = s.vmmcdata.clust)
    (r3 : s'.vmmcdata.n_clust = s.vmmcdata.n_clust)
    (r4 : ∀ i, (s'.syst.particles i).index = (s.syst.particles i).index) :
    ClusterInv seed s' := by
  obtain ⟨h1, h2, h3, h4, h5⟩ := h
  unfold ClusterInv
  simp only [r1, r2, r3, r4]
  exact ⟨h1, h2, h3, h4, h5⟩

theorem ClusterInv.of_related {seed : Nat} {s s' : State} (h : ClusterInv seed s)
    (hr : Related s s') : ClusterInv seed s' :=
  h.of_cluster hr.1 hr.2.1 hr.2.2.1 hr.2.2.2.1

/-! ## The bookkeeping of the cluster -/

/-- Recruiting a particle whose flag is not set keeps the bookkeeping of the cluster. -/
theorem recruit_inv {seed : Nat} {s : State} (q : Nat) (h : ClusterInv seed s)
    (hq : s.vmmcdata.is_in_cluster (s.syst.particles q).index ≠ 1) :
    ClusterInv seed (vmmc_recruit s q) := by
  obtain ⟨h1, h2, h3, h4, h5⟩ := h
  have hnew : ∀ k, k < s.vmmcdata.n_clust →
      (s.syst.particles (s.vmmcdata.clust k)).index ≠ (s.syst.particles q).index := by
    intro k hk he
    exact hq ((h4 _).mpr ⟨k, hk, he⟩)
  have hcl : ∀ k, k < s.vmmcdata.n_clust →
      Function.update s.vmmcdata.clust s.vmmcdata.n_clust q k = s.vmmcdata.clust k :=
    fun k hk => Function.update_noteq (Nat.ne_of_lt hk) _ _
  have hcn : Function.update s.vmmcdata.clust s.vmmcdata.n_clust q s.vmmcdata.n_clust = q :=
    Function.update_same _ _ _
  refine ⟨?_, ?_, ?_, ?_, ?_⟩
  · show 1 ≤ s.vmmcdata.n_clust + 1
    omega
  · show Function.update s.vmmcdata.clust s.vmmcdata.n_clust q 0 = seed
    rw [hcl 0 (by omega)]
    exact h2
  · intro i
    show Function.update s.vmmcdata.is_in_cluster (s.syst.particles q).index 1 i = 0 ∨
      Function.update s.vmmcdata.is_in_cluster (s.syst.particles q).index 1 i = 1
    by_cases hi : i = (s.syst.particles q).index
    · right
      rw [hi, Function.update_same]
    · rw [Function.update_noteq hi]
      exact h3 i
  · intro i
    show Function.update s.vmmcdata.is_in_cluster (s.syst.particles q).index 1 i = 1 ↔
      ∃ k, k < s.vmmcdata.n_clust + 1 ∧
        (s.syst.particles (Function.update s.vmmcdata.clust s.vmmcdata.n_clust q k)).index = i
    constructor
    · intro hi
      by_cases hiq : i = (s.syst.particles q).index
      · exact ⟨s.vmmcdata.n_clust, by omega, by rw [hcn]; exact hiq.symm⟩
      · rw [Function.update_noteq hiq] at hi
        obtain ⟨k, hk, hke⟩ := (h4 i).mp hi
        exact ⟨k, by omega, by rw [hcl k hk]; exact hke⟩
    · rintro ⟨k, hk, hke⟩
      by_cases hiq : i = (s.syst.particles q).index
      · rw [hiq, Function.update_same]
      · rw [Function.update_noteq hiq]
        have hkn : k < s.vmmcdata.n_clust := by
          rcases Nat.lt_succ_iff_lt_or_eq.mp hk with hlt | heq
          · exact hlt
          · rw [heq, hcn] at hke
            exact absurd hke.symm hiq
        rw [hcl k hkn] at hke
        exact (h4 i).mpr ⟨k, hkn, hke⟩
  · intro k k' hk hk' he
    change k < s.vmmcdata.n_clust + 1 at hk
    change k' < s.vmmcdata.n_clust + 1 at hk'
    change (s.syst.particles (Function.update s.vmmcdata.clust s.vmmcdata.n_clust q k)).index
      = (s.syst.particles (Function.update s.vmmcdata.clust s.vmmcdata.n_clust q k')).index at he
    rcases Nat.lt_succ_iff_lt_or_eq.mp hk with hlt | heq
    · rcases Nat.lt_succ_iff_lt_or_eq.mp hk' with hlt' | heq'
      · rw [hcl k hlt, hcl k' hlt'] at he
        exact h5 k k' hlt hlt' he
      · rw [hcl k hlt, heq', hcn] at he
        exact absurd he (hnew k hlt)
    · rcases Nat.lt_succ_iff_lt_or_eq.mp hk' with hlt' | heq'
      · rw [hcl k' hlt', heq, hcn] at he
        exact absurd he.symm (hnew k' hlt')
      · rw [heq, heq']

/-- The flag of a particle is the same in two related states. -/
theorem Related.flag {s s' : State} (hr : Related s s') (q : Nat) :
    s'.vmmcdata.is_in_cluster (s'.syst.particles q).index
      = s.vmmcdata.is_in_cluster (s.syst.particles q).index := by
  rw [hr.1, hr.2.2.2.1 q]

/-- Lines 136-166 keep the particle indices, the energy and the accepted counter, and
keep the bookkeeping of the cluster when the flag of `q` is not set. -/
theorem offer_inv (env : Env) (fuel : Nat) (pr : Proposal) (s s' : State)
    (p q : Nat) (E_old p1 : ℚ)
    (ho : vmmc_offer env fuel pr s p q E_old p1 = Except.ok s') :
    KeptSys s.syst s'.syst ∧
      ∀ seed, ClusterInv seed s →
        s.vmmcdata.is_in_cluster (s.syst.particles q).index ≠ 1 → ClusterInv seed s' := by
  have key : ∀ d : State, Related s d →
      (vmmc_links_around env fuel pr (vmmc_recruit d q) q = Except.ok s' ∨
        s' = vmmc_prelink d q) →
      KeptSys s.syst s'.syst ∧
        ∀ seed, ClusterInv seed s →
          s.vmmcdata.is_in_cluster (s.syst.particles q).index ≠ 1 → ClusterInv seed s' := by
    intro d hr hcase
    rcases hcase with hl | hp
    · have hr2 := links_around_related _ _ _ _ _ _ hl
      refine ⟨hr.2.2.2.kept_trans hr2.2.2.2, ?_⟩
      intro seed h hq
      have hqd : d.vmmcdata.is_in_cluster (d.syst.particles q).index ≠ 1 := by
        rw [hr.flag q]; exact hq
      exact (recruit_inv q (h.of_related hr) hqd).of_related hr2
    · rw [hp]
      exact ⟨hr.2.2.2.kept_trans (prelink_related d q).2.2.2,
        fun seed h _ => (h.of_related hr).of_related (prelink_related d q)⟩
  simp only [vmmc_offer] at ho
  split_ifs at ho
  all_goals
    first
    | exact key _ ((virtual_move_related env pr s p q q).rel_trans (decide_related env _ _ _))
        (Or.inl ho)
    | exact key _ ((virtual_move_related env pr s p q q).rel_trans (decide_related env _ _ _))
        (Or.inr (Except.ok.inj ho).symm)

/-- Lines 120-171 keep the particle indices, the energy and the accepted counter, and keep
the bookkeeping of the cluster when the flag of `q` is not set. -/
theorem try_link_inv (env : Env) (fuel : Nat) (pr : Proposal) (s s' : State)
    (link_index p q : Nat)
    (ht : vmmc_try_link env fuel pr s link_index p q = Except.ok s') :
    KeptSys s.syst s'.syst ∧
      ∀ seed, ClusterInv seed s →
        s.vmmcdata.is_in_cluster (s.syst.particles q).index ≠ 1 → ClusterInv seed s' := by
  have hr1 : Related s { s with syst := (_pair_energy env s.syst p q).2 } :=
    ⟨rfl, rfl, rfl, pair_energy_kept _ _ _ _⟩
  have hr2 : ∀ force prob, Related s
      (vmmc_decide env force prob
        (vmmc_virtual_move env pr { s with syst := (_pair_energy env s.syst p q).2 } p q p).2.2).2 :=
    fun force prob => (hr1.rel_trans (virtual_move_related env pr _ p q p)).rel_trans
      (decide_related env force prob _)
  have key : ∀ (d : State) (E pp : ℚ) (s5 : State), Related s d →
      vmmc_offer env fuel pr d p q E pp = Except.ok s5 →
      KeptSys s.syst (drop_link s5 link_index).syst ∧
        ∀ seed, ClusterInv seed s →
          s.vmmcdata.is_in_cluster (s.syst.particles q).index ≠ 1 →
          ClusterInv seed (drop_link s5 link_index) := by
    intro d E pp s5 hrd ho
    obtain ⟨hk, hi⟩ := offer_inv env fuel pr d s5 p q E pp ho
    refine ⟨hrd.2.2.2.kept_trans hk, ?_⟩
    intro seed h hq
    exact (hi seed (h.of_related hrd) ((hrd.flag q).trans_ne hq)).of_related
      (drop_link_related s5 link_index)
  simp only [vmmc_try_link] at ht
  split_ifs at ht
  · split at ht
    · cases ht
    · rename_i s5 ho
      cases ht
      exact key _ _ _ s5 (hr2 _ _) ho
  · cases ht
    exact ⟨(hr2 _ _).2.2.2,
      fun seed h _ => (h.of_related (hr2 _ _)).of_related (drop_link_related _ link_index)⟩

/-- One pass of the recruitment loop keeps the particle indices, the energy, the accepted
counter and the bookkeeping of the cluster. -/
theorem recruit_body_inv (env : Env) (fuel : Nat) (pr : Proposal) (s s' : State)
    (hb : vmmc_recruit_body env fuel pr s = Except.ok s') :
    KeptSys s.syst s'.syst ∧ ∀ seed, ClusterInv seed s → ClusterInv seed s' := by
  have hr0 : Related s { s with draws := s.draws + 1 } := ⟨rfl, rfl, rfl, KeptSys.kept_refl _⟩
  simp only [vmmc_recruit_body] at hb
  split_ifs at hb with ha hboth hzero
  · cases hb
    exact ⟨KeptSys.kept_refl _, fun seed h => (h.of_related hr0).of_related (drop_link_related _ _)⟩
  · obtain ⟨hk, hi⟩ := try_link_inv env fuel pr { s with draws := s.draws + 1 } s' _ _ _ hb
    refine ⟨hk, fun seed h => hi seed (h.of_related hr0) ?_⟩
    show s.vmmcdata.is_in_cluster _ ≠ 1
    rw [hzero]
    decide
  · obtain ⟨hk, hi⟩ := try_link_inv env fuel pr { s with draws := s.draws + 1 } s' _ _ _ hb
    refine ⟨hk, fun seed h => hi seed (h.of_related hr0) ?_⟩
    show s.vmmcdata.is_in_cluster _ ≠ 1
    intro hq
    rcases h.2.2.1 (s.syst.particles (s.vmmcdata.possible_links
      (2 * (int_cast (env.drand48 s.draws * (s.vmmcdata.n_possible_links : ℚ))).toNat + 0))).index
      with hp | hp
    · exact hzero hp
    · exact hboth ⟨hp, hq⟩

/-- What lines 56-82 of `VMMC_dynamics` do to the cluster and to the particles. -/
theorem vmmc_start_cluster (env : Env) (s : State) :
    (vmmc_start env s).1.vmmcdata.n_clust = 1 ∧
    (vmmc_start env s).1.vmmcdata.clust
      = Function.update s.vmmcdata.clust 0
          (int_cast (env.drand48 s.draws * (s.syst.N : ℚ))).toNat ∧
    (vmmc_start env s).1.vmmcdata.is_in_cluster
      = Function.update s.vmmcdata.is_in_cluster
          (s.syst.particles (int_cast (env.drand48 s.draws * (s.syst.N : ℚ))).toNat).index 1 ∧
    (vmmc_start env s).1.syst.particles = s.syst.particles ∧
    (vmmc_start env s).1.syst.energy = s.syst.energy ∧
    (vmmc_start env s).1.syst.accepted = s.syst.accepted := by
  unfold vmmc_start
  split_ifs <;> exact ⟨rfl, rfl, rfl, rfl, rfl, rfl⟩

/-- After the seed has been put into a cluster whose flags were all zero, the bookkeeping
of the cluster holds. -/
theorem vmmc_start_inv (env : Env) (s : State) (h0 : ∀ i, s.vmmcdata.is_in_cluster i = 0) :
    ClusterInv ((vmmc_start env s).1.vmmcdata.clust 0) (vmmc_start env s).1 ∧
      KeptSys s.syst (vmmc_start env s).1.syst := by
  obtain ⟨hn, hc, hi, hp, he, ha⟩ := vmmc_start_cluster env s
  refine ⟨⟨?_, rfl, ?_, ?_, ?_⟩, ?_, he, ha⟩
  · rw [hn]
  · intro i
    rw [hi]
    by_cases hx : i = (s.syst.particles (int_cast (env.drand48 s.draws * (s.syst.N : ℚ))).toNat).index
    · right
      rw [hx, Function.update_same]
    · left
      rw [Function.update_noteq hx]
      exact h0 i
  · intro i
    rw [hn, hi, hp, hc]
    constructor
    · intro h1
      refine ⟨0, by omega, ?_⟩
      rw [Function.update_same]
      by_contra hx
      rw [Function.update_noteq (fun h => hx h.symm), h0 i] at h1
      exact absurd h1 (by decide)
    · rintro ⟨k, hk, hke⟩
      have hk0 : k = 0 := by omega
      rw [hk0, Function.update_same] at hke
      rw [← hke, Function.update_same]
  · intro k k' hk hk' _
    rw [hn] at hk hk'
    omega
  · intro i
    rw [hp]

/-- Up to every evaluation of the condition of the recruitment loop the particle indices,
the energy and the accepted counter are kept. -/
theorem loop_head_kept (env : Env) (fuel : Nat) (s0 s : State) (h : LoopHead env fuel s0 s) :
    KeptSys s0.syst s.syst := by
  obtain ⟨_, _, _, hp, he, ha⟩ := vmmc_start_cluster env s0
  have hs : KeptSys s0.syst (vmmc_start env s0).1.syst := ⟨fun i => by rw [hp], he, ha⟩
  induction h with
  | first s hl => exact hs.kept_trans (links_around_related _ _ _ _ _ _ hl).2.2.2
  | next s s' _ _ hb ih => exact ih.kept_trans (recruit_body_inv env fuel _ s s' hb).1

/-- At every evaluation of the condition of the recruitment loop the bookkeeping of the
cluster holds. -/
theorem loop_head_inv (env : Env) (fuel : Nat) (s0 : State)
    (h0 : ∀ i, s0.vmmcdata.is_in_cluster i = 0) (s : State) (h : LoopHead env fuel s0 s) :
    ClusterInv ((vmmc_start env s0).1.vmmcdata.clust 0) s := by
  induction h with
  | first s hl =>
    exact (vmmc_start_inv env s0 h0).1.of_related (links_around_related _ _ _ _ _ _ hl)
  | next s s' _ _ hb ih => exact (recruit_body_inv env fuel _ s s' hb).2 _ ih

/-- The recruitment loop goes from one evaluation of its condition to the next. -/
theorem recruit_loop_head (env : Env) (fuel : Nat) (s0 : State) :
    ∀ (k : Nat) (s s' : State), LoopHead env fuel s0 s →
      vmmc_recruit_loop env fuel (vmmc_start env s0).2 k s = Except.ok s' →
      LoopHead env fuel s0 s' ∧ ¬ recruit_guard s' := by
  intro k
  induction k with
  | zero =>
    intro s s' hs h
    simp only [vmmc_recruit_loop] at h
    split_ifs at h with hg
    cases h
    exact ⟨hs, hg⟩
  | succ k ih =>
    intro s s' hs h
    simp only [vmmc_recruit_loop] at h
    split_ifs at h with hg
    · split at h
      · cases h
      · rename_i s1 hb
        exact ih s1 s' (LoopHead.next s s1 hs hg hb) h
    · cases h
      exact ⟨hs, hg⟩

/-- The state in which the recruitment loop ends is one in which its condition was
evaluated, and there it was false. -/
theorem vmmc_build_head (env : Env) (fuel : Nat) (s0 : State) (b : State × Proposal)
    (h : vmmc_build env fuel s0 = Except.ok b) :
    LoopHead env fuel s0 b.1 ∧ ¬ recruit_guard b.1 ∧ b.2 = (vmmc_start env s0).2 := by
  simp only [vmmc_build] at h
  split at h
  · cases h
  · rename_i s1 hl
    split at h
    · cases h
    · rename_i s2 hloop
      cases h
      obtain ⟨h1, h2⟩ := recruit_loop_head env fuel s0 fuel s1 s2 (LoopHead.first s1 hl) hloop
      exact ⟨h1, h2, rfl⟩

/-! ## The commit stage -/

theorem energy_chain_kept (env : Env) (vm : vmmc_d) (p : Nat) :
    ∀ (fuel : Nat) (q : Option Nat) (acc acc' : ℚ × System),
      energy_chain env vm p fuel q acc = Except.ok acc' → KeptSys acc.2 acc'.2 := by
  intro fuel
  induction fuel with
  | zero =>
    intro q acc acc' h
    cases q with
    | none =>
      simp only [energy_chain] at h
      cases h
      exact KeptSys.kept_refl _
    | some a => simp [energy_chain] at h
  | succ n ih =>
    intro q acc acc' h
    cases q with
    | none =>
      simp only [energy_chain] at h
      cases h
      exact KeptSys.kept_refl _
    | some a =>
      simp only [energy_chain] at h
      refine KeptSys.kept_trans ?_ (ih _ _ _ h)
      split_ifs
      · exact pair_energy_kept _ _ _ _
      · exact KeptSys.kept_refl _

theorem energy_cells_kept (env : Env) (vm : vmmc_d) (fuel p : Nat) (ind : Fin 3 → Int) :
    ∀ (os : List (Int × Int × Int)) (acc acc' : ℚ × System),
      energy_cells env vm fuel p ind os acc = Except.ok acc' → KeptSys acc.2 acc'.2 := by
  intro os
  induction os with
  | nil =>
    intro acc acc' h
    simp only [energy_cells] at h
    cases h
    exact KeptSys.kept_refl _
  | cons o os ih =>
    intro acc acc' h
    simp only [energy_cells] at h
    split at h
    · cases h
    · rename_i acc1 hc
      exact (energy_chain_kept _ _ _ _ _ _ _ hc).kept_trans (ih _ _ h)

theorem energy_members_kept (env : Env) (vm : vmmc_d) (fuel : Nat) :
    ∀ (is : List Nat) (acc acc' : ℚ × System),
      energy_members env vm fuel is acc = Except.ok acc' → KeptSys acc.2 acc'.2 := by
  intro is
  induction is with
  | nil =>
    intro acc acc' h
    simp only [energy_members] at h
    cases h
    exact KeptSys.kept_refl _
  | cons i is ih =>
    intro acc acc' h
    simp only [energy_members] at h
    split_ifs at h
    split at h
    · cases h
    · rename_i acc1 hc
      exact (energy_cells_kept _ _ _ _ _ _ _ _ hc).kept_trans (ih _ _ h)

theorem compute_cluster_energy_kept (env : Env) (fuel : Nat) (s : State) (r : ℚ × System)
    (h : _compute_cluster_energy env fuel s = Except.ok r) : KeptSys s.syst r.2 :=
  energy_members_kept env _ fuel _ _ _ h

theorem change_cell_kept (fuel : Nat) (syst syst' : System) (p : Nat)
    (h : MC_change_cell fuel syst p = Except.ok syst') : KeptSys syst syst' := by
  simp only [MC_change_cell] at h
  split_ifs at h
  · cases h
    exact KeptSys.kept_refl _
  · split at h
    · cases h
    · cases h
      refine ⟨?_, rfl, rfl⟩
      intro i
      by_cases hi : i = p
      · rw [hi]
        simp
      · simp [Function.update_noteq hi]

theorem vmmc_apply_related (fuel : Nat) (pr : Proposal) :
    ∀ (todo i : Nat) (s : State) (r : State × Bool),
      vmmc_apply fuel pr todo i s = Except.ok r → Related s r.1 := by
  intro todo
  induction todo with
  | zero =>
    intro i s r h
    simp only [vmmc_apply] at h
    cases h
    exact Related.rel_refl _
  | succ n ih =>
    intro i s r h
    simp only [vmmc_apply] at h
    split at h
    · cases h
    · rename_i syst2 hc
      have h1 : Related s ((s.store_dof (s.vmmcdata.clust i)).move_particle pr (s.vmmcdata.clust i)) :=
        (store_dof_related _ _).rel_trans (move_particle_related _ _ _)
      have h2 : Related
          ((s.store_dof (s.vmmcdata.clust i)).move_particle pr (s.vmmcdata.clust i))
          { (s.store_dof (s.vmmcdata.clust i)).move_particle pr (s.vmmcdata.clust i) with
            syst := syst2 } :=
        ⟨rfl, rfl, rfl, change_cell_kept _ _ _ _ hc⟩
      split_ifs at h
      · cases h
        exact h1.rel_trans h2
      · exact (h1.rel_trans h2).rel_trans (ih _ _ _ h)

theorem vmmc_constraints_values (s : State) :
    vmmc_constraints s = 0 ∨ vmmc_constraints s = 1 := by
  simp only [vmmc_constraints]
  split_ifs <;> simp

theorem vmmc_energy_before_related (env : Env) (fuel : Nat) (s : State) (b : ℚ × State)
    (h : vmmc_energy_before env fuel s = Except.ok b) : Related s b.2 := by
  simp only [vmmc_energy_before] at h
  split_ifs at h
  · split at h
    · cases h
    · rename_i r hr
      split_ifs at h
      cases h
      exact ⟨rfl, rfl, rfl, compute_cluster_energy_kept _ _ _ _ hr⟩
  · cases h
    exact Related.rel_refl _

theorem force_reject_after_values (broke : Bool) (s : State) :
    force_reject_after broke (vmmc_constraints s) = 0 ∨
      force_reject_after broke (vmmc_constraints s) = 1 := by
  unfold force_reject_after
  split_ifs
  · exact Or.inr rfl
  · exact vmmc_constraints_values s

theorem force_reject_after_zero (broke : Bool) (fr : Int)
    (h : force_reject_after broke fr = 0) : broke = false ∧ fr = 0 := by
  unfold force_reject_after at h
  split_ifs at h with hb
  · exact absurd h (by decide)
  · exact ⟨by simpa using hb, h⟩

/-- The state in which the commit decision is taken has the cluster, the particle
indices, the energy and the accepted counter of the state in which the recruitment loop
ended, and `force_reject` is 0 or 1. -/
theorem vmmc_trial_related (env : Env) (fuel : Nat) (pr : Proposal) (s : State) (t : Trial)
    (h : vmmc_trial env fuel pr s = Except.ok t) :
    Related s t.s ∧ (t.force_reject = 0 ∨ t.force_reject = 1) := by
  simp only [vmmc_trial] at h
  split at h
  · cases h
  · rename_i b hb
    have hrb := vmmc_energy_before_related _ _ _ _ hb
    split at h
    · cases h
    · rename_i m hm
      have hrm := vmmc_apply_related _ _ _ _ _ _ hm
      split_ifs at h with hfr
      · split at h
        · cases h
        · rename_i r hr
          split_ifs at h
          cases h
          exact ⟨(hrb.rel_trans hrm).rel_trans ⟨rfl, rfl, rfl, compute_cluster_energy_kept _ _ _ _ hr⟩,
            Or.inl hfr⟩
      · cases h
        exact ⟨hrb.rel_trans hrm, force_reject_after_values _ _⟩

/-- An accepted trial took both energy sums, and `deltaE` is their difference. -/
theorem vmmc_trial_accept (env : Env) (fuel : Nat) (pr : Proposal) (s : State) (t : Trial)
    (h : vmmc_trial env fuel pr s = Except.ok t) (hacc : t.force_reject = 0) :
    ∃ (before : ℚ × System) (m : State) (after : ℚ × System),
      _compute_cluster_energy env fuel s = Except.ok before ∧
      vmmc_apply fuel pr s.vmmcdata.n_clust 0 { s with syst := before.2 } = Except.ok (m, false) ∧
      _compute_cluster_energy env fuel m = Except.ok after ∧
      t.deltaE = after.1 - before.1 := by
  simp only [vmmc_trial] at h
  split at h
  · cases h
  · rename_i b hb
    split at h
    · cases h
    · rename_i m hm
      split_ifs at h with hfr
      · split at h
        · cases h
        · rename_i r hr
          split_ifs at h
          cases h
          obtain ⟨hm2, hc0⟩ := force_reject_after_zero _ _ hfr
          simp only [vmmc_energy_before, hc0, if_true] at hb
          split at hb
          · cases hb
          · rename_i r0 hr0
            split_ifs at hb
            cases hb
            refine ⟨r0, m.1, r, hr0, ?_, hr, ?_⟩
            · rw [hm]
              cases m with
              | mk m1 m2 =>
                simp only at hm2
                rw [hm2]
            · show 0 - r0.1 + r.1 = r.1 - r0.1
              ring
      · cases h
        exact absurd hacc hfr

theorem restore_loop_related (n : Nat) (s : State) :
    Related s (for_loop n (fun i s => s.restore_dof (s.vmmcdata.clust i)) s) := by
  induction n with
  | zero => exact Related.rel_refl _
  | succ n ih =>
    rw [for_loop_succ]
    exact ih.rel_trans (restore_dof_related _ _)

/-- What the commit does: the cluster and the particle indices stay; a rejected move
leaves the energy and the accepted counter, an accepted one adds `deltaE` and one. -/
theorem vmmc_commit_effect (t : Trial) :
    (vmmc_commit t).vmmcdata.is_in_cluster = t.s.vmmcdata.is_in_cluster ∧
    (vmmc_commit t).vmmcdata.clust = t.s.vmmcdata.clust ∧
    (vmmc_commit t).vmmcdata.n_clust = t.s.vmmcdata.n_clust ∧
    (∀ i, ((vmmc_commit t).syst.particles i).index = (t.s.syst.particles i).index) ∧
    (t.force_reject = 1 →
      (vmmc_commit t).syst.energy = t.s.syst.energy ∧
      (vmmc_commit t).syst.accepted = t.s.syst.accepted) ∧
    (t.force_reject = 0 →
      (vmmc_commit t).syst.energy = t.s.syst.energy + t.deltaE ∧
      (vmmc_commit t).syst.accepted = t.s.syst.accepted + 1) := by
  have hl := restore_loop_related t.s.vmmcdata.n_clust t.s
  by_cases h1 : t.force_reject = 1
  · have h0 : ¬ t.force_reject = 0 := by rw [h1]; decide
    have hc : vmmc_commit t
        = for_loop t.s.vmmcdata.n_clust (fun i s => s.restore_dof (s.vmmcdata.clust i)) t.s := by
      simp only [vmmc_commit, if_pos h1, if_neg h0]
    rw [hc]
    exact ⟨hl.1, hl.2.1, hl.2.2.1, hl.2.2.2.1, fun _ => ⟨hl.2.2.2.2.1, hl.2.2.2.2.2⟩,
      fun h => absurd h h0⟩
  · by_cases h0 : t.force_reject = 0
    · have hc : vmmc_commit t = { t.s with syst := { t.s.syst with
          accepted := t.s.syst.accepted + 1
          energy := t.s.syst.energy + t.deltaE } } := by
        simp only [vmmc_commit, if_neg h1, if_pos h0]
      rw [hc]
      exact ⟨rfl, rfl, rfl, fun _ => rfl, fun h => absurd h h1, fun _ => ⟨rfl, rfl⟩⟩
    · have hc : vmmc_commit t = t.s := by
        simp only [vmmc_commit, if_neg h1, if_neg h0]
      rw [hc]
      exact ⟨rfl, rfl, rfl, fun _ => rfl, fun h => absurd h h1, fun h => absurd h h0⟩

/-- The loop at lines 234-238 clears the flags of the positions it visits and keeps the
energy and the accepted counter. -/
theorem vmmc_cleanup_effect (fuel : Nat) :
    ∀ (is : List Nat) (s s' : State), vmmc_cleanup fuel is s = Except.ok s' →
      KeptSys s.syst s'.syst ∧
      s'.vmmcdata.clust = s.vmmcdata.clust ∧
      (∀ j, s'.vmmcdata.is_in_cluster j
        = if ∃ k, k ∈ is ∧ (s.syst.particles (s.vmmcdata.clust k)).index = j then 0
          else s.vmmcdata.is_in_cluster j) := by
  intro is
  induction is with
  | nil =>
    intro s s' h
    simp only [vmmc_cleanup] at h
    cases h
    refine ⟨KeptSys.kept_refl _, rfl, ?_⟩
    intro j
    simp
  | cons i is ih =>
    intro s s' h
    simp only [vmmc_cleanup] at h
    split at h
    · cases h
    · rename_i syst1 hc
      have hk := change_cell_kept _ _ _ _ hc
      obtain ⟨ih1, ih2, ih3⟩ := ih _ _ h
      refine ⟨hk.kept_trans ih1, ih2, ?_⟩
      intro j
      have ih3' : s'.vmmcdata.is_in_cluster j
          = if ∃ k, k ∈ is ∧ (s.syst.particles (s.vmmcdata.clust k)).index = j then 0
            else Function.update s.vmmcdata.is_in_cluster
              (s.syst.particles (s.vmmcdata.clust i)).index 0 j := by
        have h3 := ih3 j
        simp only [hk.1] at h3
        rw [hk.1 (s.vmmcdata.clust i)] at h3
        exact h3
      rw [ih3']
      by_cases hj : ∃ k, k ∈ is ∧ (s.syst.particles (s.vmmcdata.clust k)).index = j
      · rw [if_pos hj, if_pos]
        obtain ⟨k, hk1, hk2⟩ := hj
        exact ⟨k, List.mem_cons_of_mem _ hk1, hk2⟩
      · rw [if_neg hj]
        by_cases hji : j = (s.syst.particles (s.vmmcdata.clust i)).index
        · rw [hji, Function.update_same, if_pos]
          exact ⟨i, List.mem_cons_self _ _, rfl⟩
        · rw [Function.update_noteq hji, if_neg]
          rintro ⟨k, hk1, hk2⟩
          rcases List.mem_cons.mp hk1 with hki | hki
          · rw [hki] at hk2
            exact hji hk2.symm
          · exact hj ⟨k, hki, hk2⟩

/-! ## The two invariants of a whole move -/

/-- The three stages of a move that returned. -/
theorem vmmc_dynamics_stages (env : Env) (fuel : Nat) (s0 s' : State)
    (h : VMMC_dynamics env fuel s0 = Except.ok s') :
    ∃ b t, vmmc_build env fuel s0 = Except.ok b ∧ vmmc_trial env fuel b.2 b.1 = Except.ok t ∧
      vmmc_cleanup fuel (List.range (vmmc_commit t).vmmcdata.n_clust) (vmmc_commit t)
        = Except.ok s' := by
  simp only [VMMC_dynamics] at h
  split at h
  · cases h
  · rename_i b hb
    split at h
    · cases h
    · rename_i t ht
      exact ⟨b, t, hb, ht, h⟩

/-- C9: when `VMMC_dynamics` starts with `is_in_cluster` identically zero, then for all
draws and all outcomes of the pair oracle: after the seed insertion, at every evaluation
of the condition of the recruitment loop, when the commit decision is taken and after the
commit, `is_in_cluster[i] = 1` holds exactly for the indices of the particles in
`clust[0 .. n_clust)`, these are pairwise distinct and `clust[0]` is the seed; and on
return `is_in_cluster` is identically zero. -/
theorem vmmc_cluster_flags (env : Env) (fuel : Nat) (s0 : State)
    (h0 : ∀ i, s0.vmmcdata.is_in_cluster i = 0) :
    (vmmc_start env s0).1.vmmcdata.clust 0
        = (int_cast (env.drand48 s0.draws * (s0.syst.N : ℚ))).toNat ∧
    ClusterInv ((vmmc_start env s0).1.vmmcdata.clust 0) (vmmc_start env s0).1 ∧
    (∀ s, LoopHead env fuel s0 s → ClusterInv ((vmmc_start env s0).1.vmmcdata.clust 0) s) ∧
    (∀ b t, vmmc_build env fuel s0 = Except.ok b → vmmc_trial env fuel b.2 b.1 = Except.ok t →
      ClusterInv ((vmmc_start env s0).1.vmmcdata.clust 0) t.s ∧
      ClusterInv ((vmmc_start env s0).1.vmmcdata.clust 0) (vmmc_commit t)) ∧
    (∀ s', VMMC_dynamics env fuel s0 = Except.ok s' → ∀ i, s'.vmmcdata.is_in_cluster i = 0) := by
  have hstages : ∀ b t, vmmc_build env fuel s0 = Except.ok b →
      vmmc_trial env fuel b.2 b.1 = Except.ok t →
      ClusterInv ((vmmc_start env s0).1.vmmcdata.clust 0) t.s ∧
      ClusterInv ((vmmc_start env s0).1.vmmcdata.clust 0) (vmmc_commit t) := by
    intro b t hb ht
    obtain ⟨hh, _, _⟩ := vmmc_build_head env fuel s0 b hb
    have hi := loop_head_inv env fuel s0 h0 b.1 hh
    have hts := hi.of_related (vmmc_trial_related env fuel b.2 b.1 t ht).1
    obtain ⟨c1, c2, c3, c4, _, _⟩ := vmmc_commit_effect t
    exact ⟨hts, hts.of_cluster c1 c2 c3 c4⟩
  refine ⟨?_, (vmmc_start_inv env s0 h0).1, loop_head_inv env fuel s0 h0, hstages, ?_⟩
  · rw [(vmmc_start_cluster env s0).2.1, Function.update_same]
  · intro s' h i
    obtain ⟨b, t, hb, ht, hc⟩ := vmmc_dynamics_stages env fuel s0 s' h
    obtain ⟨_, _, h3, h4, _⟩ := (hstages b t hb ht).2
    obtain ⟨_, _, hflags⟩ := vmmc_cleanup_effect fuel _ _ _ hc
    rw [hflags i]
    split_ifs with hex
    · rfl
    · rcases h3 i with hz | ho
      · exact hz
      · exfalso
        obtain ⟨k, hk, hke⟩ := (h4 i).mp ho
        exact hex ⟨k, List.mem_range.mpr hk, hke⟩

/-- C10: a rejected move (`force_reject = 1` at the commit) leaves the running energy and
the accepted counter at their values before the call; an accepted one (`force_reject = 0`)
adds to the energy exactly the cluster energy after the move of the cluster less the
cluster energy before it, and one to the accepted counter; so the energy changes only on
an accepted move. -/
theorem vmmc_energy_accounting (env : Env) (fuel : Nat) (s0 s' : State)
    (h : VMMC_dynamics env fuel s0 = Except.ok s') :
    ∃ b t, vmmc_build env fuel s0 = Except.ok b ∧ vmmc_trial env fuel b.2 b.1 = Except.ok t ∧
      (t.force_reject = 0 ∨ t.force_reject = 1) ∧
      (t.force_reject = 1 →
        s'.syst.energy = s0.syst.energy ∧ s'.syst.accepted = s0.syst.accepted) ∧
      (t.force_reject = 0 →
        (∃ (before : ℚ × System) (m : State) (after : ℚ × System),
          _compute_cluster_energy env fuel b.1 = Except.ok before ∧
          vmmc_apply fuel b.2 b.1.vmmcdata.n_clust 0 { b.1 with syst := before.2 }
            = Except.ok (m, false) ∧
          _compute_cluster_energy env fuel m = Except.ok after ∧
          s'.syst.energy = s0.syst.energy + (after.1 - before.1)) ∧
        s'.syst.accepted = s0.syst.accepted + 1) ∧
      (s'.syst.energy ≠ s0.syst.energy → t.force_reject = 0) := by
  obtain ⟨b, t, hb, ht, hc⟩ := vmmc_dynamics_stages env fuel s0 s' h
  obtain ⟨hh, _, _⟩ := vmmc_build_head env fuel s0 b hb
  have hk0 := loop_head_kept env fuel s0 b.1 hh
  obtain ⟨hrt, hval⟩ := vmmc_trial_related env fuel b.2 b.1 t ht
  obtain ⟨_, _, _, _, hrej, hacc⟩ := vmmc_commit_effect t
  obtain ⟨hkc, _, _⟩ := vmmc_cleanup_effect fuel _ _ _ hc
  have hte : t.s.syst.energy = s0.syst.energy := hrt.2.2.2.2.1.trans hk0.2.1
  have hta : t.s.syst.accepted = s0.syst.accepted := hrt.2.2.2.2.2.trans hk0.2.2
  have hreject : t.force_reject = 1 →
      s'.syst.energy = s0.syst.energy ∧ s'.syst.accepted = s0.syst.accepted := by
    intro h1
    obtain ⟨e1, a1⟩ := hrej h1
    exact ⟨(hkc.2.1.trans e1).trans hte, (hkc.2.2.trans a1).trans hta⟩
  refine ⟨b, t, hb, ht, hval, hreject, ?_, ?_⟩
  · intro h0
    obtain ⟨e1, a1⟩ := hacc h0
    obtain ⟨before, m, after, hbe, hm, haf, hd⟩ := vmmc_trial_accept env fuel b.2 b.1 t ht h0
    refine ⟨⟨before, m, after, hbe, hm, haf, ?_⟩, ?_⟩
    · rw [hkc.2.1, e1, hte, hd]
    · rw [hkc.2.2, a1, hta]
  · intro hne
    rcases hval with h0 | h1
    · exact h0
    · exact absurd (hreject h1).1 hne

/-- An instance at `wrap_pair_state`: the move returns and leaves the flags of both
particles at zero. -/
theorem vmmc_cluster_flags_witness :
    (VMMC_dynamics quiet_env 5 wrap_pair_state).toBool = true ∧
    (returned wrap_pair_state
      (VMMC_dynamics quiet_env 5 wrap_pair_state)).vmmcdata.is_in_cluster 0 = 0 ∧
    (returned wrap_pair_state
      (VMMC_dynamics quiet_env 5 wrap_pair_state)).vmmcdata.is_in_cluster 1 = 0 :=
  ⟨by decide!,
    (vmmc_cluster_flags quiet_env 5 wrap_pair_state (fun _ => rfl)).2.2.2.2 _
      (eq_ok_of_toBool _ _ (by decide!)) 0,
    (vmmc_cluster_flags quiet_env 5 wrap_pair_state (fun _ => rfl)).2.2.2.2 _
      (eq_ok_of_toBool _ _ (by decide!)) 1⟩


/-- Two instances at the bonded pair. With
`max_cluster = 10` the seed moves alone and breaks the bond: the move is accepted, the
energy goes from 0 to 1 and the accepted counter to 1. With `max_cluster = 1` the move is
rejected and both stay at 0. -/
theorem vmmc_energy_accounting_witness :
    ((VMMC_dynamics bond_env 5 (bonded_state 10)).toBool = true ∧
      (returned (bonded_state 10) (VMMC_dynamics bond_env 5 (bonded_state 10))).syst.energy = 1 ∧
      (returned (bonded_state 10) (VMMC_dynamics bond_env 5 (bonded_state 10))).syst.accepted = 1 ∧
      ∃ b t, vmmc_build bond_env 5 (bonded_state 10) = Except.ok b ∧
        vmmc_trial bond_env 5 b.2 b.1 = Except.ok t ∧
        (t.force_reject = 0 ∨ t.force_reject = 1)) ∧
    ((VMMC_dynamics bond_env 5 (bonded_state 1)).toBool = true ∧
      (returned (bonded_state 1) (VMMC_dynamics bond_env 5 (bonded_state 1))).syst.energy = 0 ∧
      (returned (bonded_state 1) (VMMC_dynamics bond_env 5 (bonded_state 1))).syst.accepted = 0 ∧
      ∃ b t, vmmc_build bond_env 5 (bonded_state 1) = Except.ok b ∧
        vmmc_trial bond_env 5 b.2 b.1 = Except.ok t ∧
        (t.force_reject = 0 ∨ t.force_reject = 1)) := by
  have h10 := vmmc_energy_accounting bond_env 5 (bonded_state 10) _
    (eq_ok_of_toBool _ (bonded_state 10) (by decide!))
  have h1 := vmmc_energy_accounting bond_env 5 (bonded_state 1) _
    (eq_ok_of_toBool _ (bonded_state 1) (by decide!))
  obtain ⟨b, t, hb, ht, hv, _⟩ := h10
  obtain ⟨b', t', hb', ht', hv', _⟩ := h1
  exact ⟨⟨by decide!, by decide!, by decide!, b, t, hb, ht, hv⟩,
    ⟨by decide!, by decide!, by decide!, b', t', hb', ht', hv'⟩⟩

/-! ## Rotations -/

/-- An orthogonal matrix keeps the squared length of a vector. -/
theorem orthogonal_norm (R : matrix) (h : Orthogonal R) (v : vector) :
    SCALAR (MATRIX_VECTOR_MULTIPLICATION R v) (MATRIX_VECTOR_MULTIPLICATION R v)
      = SCALAR v v := by
  have h00 := h 0 0
  have h11 := h 1 1
  have h22 := h 2 2
  have h01 := h 0 1
  have h02 := h 0 2
  have h12 := h 1 2
  simp at h00 h11 h22 h01 h02 h12
  simp only [SCALAR, MATRIX_VECTOR_MULTIPLICATION]
  linear_combination v 0 * v 0 * h00 + v 1 * v 1 * h11 + v 2 * v 2 * h22
    + 2 * v 0 * v 1 * h01 + 2 * v 0 * v 2 * h02 + 2 * v 1 * v 2 * h12

theorem matrix_vector_sub (R : matrix) (a b : vector) (d : Fin 3) :
    MATRIX_VECTOR_MULTIPLICATION R a d - MATRIX_VECTOR_MULTIPLICATION R b d
      = MATRIX_VECTOR_MULTIPLICATION R (fun e => a e - b e) d := by
  simp only [MATRIX_VECTOR_MULTIPLICATION]
  ring

theorem matrix_vector_zero (R : matrix) (d : Fin 3) :
    MATRIX_VECTOR_MULTIPLICATION R (fun _ => 0) d = 0 := by
  simp [MATRIX_VECTOR_MULTIPLICATION]

/-- What `_move_particle` does to `p` in rotation mode. -/
theorem move_particle_rotation (syst : System) (vm : vmmc_d) (p : Nat) (move : vector) (t : ℚ)
    (hrot : vm.which_move = MoveKind.VMMC_ROTATION) :
    (∀ d, ((_move_particle syst vm p move t).particles p).r d
      = (syst.particles (vm.clust 0)).r d
        + MATRIX_VECTOR_MULTIPLICATION vm.rotation
            (fun e => (syst.particles p).r e - (syst.particles (vm.clust 0)).r e) d) ∧
    (∀ i, i < syst.n_patches → ∀ d,
      ((_move_particle syst vm p move t).particles p).patches i d
        = (syst.particles (vm.clust 0)).r d
          + MATRIX_VECTOR_MULTIPLICATION vm.rotation
              (fun e => (syst.particles p).r e - (syst.particles (vm.clust 0)).r e) d
          + MATRIX_VECTOR_MULTIPLICATION vm.rotation
              (normalized_diff_vector syst (syst.particles p).r ((syst.particles p).patches i)) d) := by
  unfold _move_particle
  rw [hrot]
  constructor
  · intro d
    simp only [System.set_particle, Function.update_same]
  · intro i hi d
    simp only [System.set_particle, Function.update_same]
    rw [for_loop_update_apply, if_pos hi, for_loop_update_apply, if_neg (lt_irrefl i)]

/-- C16: in rotation mode with an orthogonal matrix, `_move_particle` applied to two
particles `p` and `q` keeps the squared distance of `p.r` and `q.r` (the seed has the same
`r` at both calls), leaves the `r` of the seed as it is when applied to the seed, and sets
every patch so that `p.patches[i] - p.r` is the matrix applied to the minimum-image
difference from the old `p.r` to the old `p.patches[i]`, of the same squared length. -/
theorem rotation_rigid (s : State) (pr : Proposal) (p q : Nat)
    (hrot : s.vmmcdata.which_move = MoveKind.VMMC_ROTATION)
    (horth : Orthogonal s.vmmcdata.rotation) (hpq : p ≠ q) :
    ((s.move_particle pr p).syst.particles (s.vmmcdata.clust 0)).r
        = (s.syst.particles (s.vmmcdata.clust 0)).r ∧
    SCALAR
        (fun d => (((s.move_particle pr p).move_particle pr q).syst.particles p).r d
          - (((s.move_particle pr p).move_particle pr q).syst.particles q).r d)
        (fun d => (((s.move_particle pr p).move_particle pr q).syst.particles p).r d
          - (((s.move_particle pr p).move_particle pr q).syst.particles q).r d)
      = SCALAR (fun d => (s.syst.particles p).r d - (s.syst.particles q).r d)
          (fun d => (s.syst.particles p).r d - (s.syst.particles q).r d) ∧
    ((s.move_particle pr (s.vmmcdata.clust 0)).syst.particles (s.vmmcdata.clust 0)).r
        = (s.syst.particles (s.vmmcdata.clust 0)).r ∧
    (∀ i, i < s.syst.n_patches →
      (∀ d, ((s.move_particle pr p).syst.particles p).patches i d
          - ((s.move_particle pr p).syst.particles p).r d
        = MATRIX_VECTOR_MULTIPLICATION s.vmmcdata.rotation
            (normalized_diff_vector s.syst (s.syst.particles p).r
              ((s.syst.particles p).patches i)) d) ∧
      SCALAR
          (fun d => ((s.move_particle pr p).syst.particles p).patches i d
            - ((s.move_particle pr p).syst.particles p).r d)
          (fun d => ((s.move_particle pr p).syst.particles p).patches i d
            - ((s.move_particle pr p).syst.particles p).r d)
        = SCALAR
            (normalized_diff_vector s.syst (s.syst.particles p).r ((s.syst.particles p).patches i))
            (normalized_diff_vector s.syst (s.syst.particles p).r
              ((s.syst.particles p).patches i))) := by
  have hseedfix : ∀ (st : State), st.vmmcdata.which_move = MoveKind.VMMC_ROTATION →
      ((st.move_particle pr (st.vmmcdata.clust 0)).syst.particles (st.vmmcdata.clust 0)).r
        = (st.syst.particles (st.vmmcdata.clust 0)).r := by
    intro st hst
    funext d
    have h := (move_particle_rotation st.syst st.vmmcdata (st.vmmcdata.clust 0) pr.move pr.angle
      hst).1 d
    show ((_move_particle st.syst st.vmmcdata (st.vmmcdata.clust 0) pr.move
      pr.angle).particles (st.vmmcdata.clust 0)).r d = _
    rw [h]
    have hz : (fun e => (st.syst.particles (st.vmmcdata.clust 0)).r e
        - (st.syst.particles (st.vmmcdata.clust 0)).r e) = fun _ => (0 : ℚ) := by
      funext e; ring
    rw [hz, matrix_vector_zero]
    ring
  have hseed1 : ((s.move_particle pr p).syst.particles (s.vmmcdata.clust 0)).r
      = (s.syst.particles (s.vmmcdata.clust 0)).r := by
    by_cases hp : s.vmmcdata.clust 0 = p
    · rw [← hp]
      exact hseedfix s hrot
    · exact congrArg PatchyParticle.r
        (move_particle_other s.syst s.vmmcdata p pr.move pr.angle _ hp)
  have hp1 := move_particle_rotation s.syst s.vmmcdata p pr.move pr.angle hrot
  have hq2 := move_particle_rotation (s.move_particle pr p).syst (s.move_particle pr p).vmmcdata q
    pr.move pr.angle hrot
  have hpkeep : (((s.move_particle pr p).move_particle pr q).syst.particles p)
      = ((s.move_particle pr p).syst.particles p) :=
    move_particle_other (s.move_particle pr p).syst (s.move_particle pr p).vmmcdata q pr.move
      pr.angle p hpq
  have hqold : ((s.move_particle pr p).syst.particles q) = s.syst.particles q :=
    move_particle_other s.syst s.vmmcdata p pr.move pr.angle q (Ne.symm hpq)
  refine ⟨hseed1, ?_, hseedfix s hrot, ?_⟩
  · have hdiff : (fun d => (((s.move_particle pr p).move_particle pr q).syst.particles p).r d
          - (((s.move_particle pr p).move_particle pr q).syst.particles q).r d)
        = MATRIX_VECTOR_MULTIPLICATION s.vmmcdata.rotation
            (fun d => (s.syst.particles p).r d - (s.syst.particles q).r d) := by
      funext d
      rw [hpkeep]
      have e1 := hp1.1 d
      have e2 := hq2.1 d
      change ((s.move_particle pr p).syst.particles p).r d = _ at e1
      change (((s.move_particle pr p).move_particle pr q).syst.particles q).r d = _ at e2
      rw [e1, e2]
      change _ - (((s.move_particle pr p).syst.particles (s.vmmcdata.clust 0)).r d
        + MATRIX_VECTOR_MULTIPLICATION s.vmmcdata.rotation
            (fun e => ((s.move_particle pr p).syst.particles q).r e
              - ((s.move_particle pr p).syst.particles (s.vmmcdata.clust 0)).r e) d) = _
      rw [hseed1, hqold]
      simp only [MATRIX_VECTOR_MULTIPLICATION]
      ring
    rw [hdiff]
    exact orthogonal_norm _ horth _
  · intro i hi
    have hoff : (fun d => ((s.move_particle pr p).syst.particles p).patches i d
          - ((s.move_particle pr p).syst.particles p).r d)
        = MATRIX_VECTOR_MULTIPLICATION s.vmmcdata.rotation
            (normalized_diff_vector s.syst (s.syst.particles p).r
              ((s.syst.particles p).patches i)) := by
      funext d
      have e1 := hp1.1 d
      have e2 := hp1.2 i hi d
      change ((s.move_particle pr p).syst.particles p).r d = _ at e1
      change ((s.move_particle pr p).syst.particles p).patches i d = _ at e2
      rw [e1, e2]
      ring
    refine ⟨fun d => congrFun hoff d, ?_⟩
    rw [hoff]
    exact orthogonal_norm _ horth _

theorem quarter_turn_orthogonal : Orthogonal quarter_turn := by
  unfold Orthogonal
  decide!

/-- An instance at `turn_state`: a quarter turn about the first particle keeps the squared
distance of the two particles. -/
theorem rotation_rigid_witness :
    SCALAR
        (fun d => (((turn_state.move_particle ⟨![0, 0, 1], 1⟩ 0).move_particle
            ⟨![0, 0, 1], 1⟩ 1).syst.particles 0).r d
          - (((turn_state.move_particle ⟨![0, 0, 1], 1⟩ 0).move_particle
            ⟨![0, 0, 1], 1⟩ 1).syst.particles 1).r d)
        (fun d => (((turn_state.move_particle ⟨![0, 0, 1], 1⟩ 0).move_particle
            ⟨![0, 0, 1], 1⟩ 1).syst.particles 0).r d
          - (((turn_state.move_particle ⟨![0, 0, 1], 1⟩ 0).move_particle
            ⟨![0, 0, 1], 1⟩ 1).syst.particles 1).r d)
      = SCALAR (fun d => (turn_state.syst.particles 0).r d - (turn_state.syst.particles 1).r d)
          (fun d => (turn_state.syst.particles 0).r d - (turn_state.syst.particles 1).r d) ∧
    (((turn_state.move_particle ⟨![0, 0, 1], 1⟩ 0).move_particle
        ⟨![0, 0, 1], 1⟩ 1).syst.particles 1).r = ![1 / 10, 49 / 5, 0] :=
  ⟨(rotation_rigid turn_state ⟨![0, 0, 1], 1⟩ 0 1 rfl quarter_turn_orthogonal (by decide)).2.1,
    by decide!⟩

/-! ## The bound on the displacement and the bound on the links -/

/-- C13 at the input `tight_state` (`max_move = 1/2`): the seed, alone in its cluster, is
moved by `(-1/2, -1/2, -1/2)`, a displacement of squared length `3/4 > max_move^2`, and
the move is accepted: the test at lines 205-207 measures the distance from `clust[0]->r`
to `p->r` after the move, which is 0 for the seed, not the displacement. -/
theorem displacement_beyond_max_move_accepted :
    (VMMC_dynamics quiet_env 5 tight_state).toBool = true ∧
    tight_state.vmmcdata.max_move * tight_state.vmmcdata.max_move = 1 / 4 ∧
    (fun d => ((returned tight_state (VMMC_dynamics quiet_env 5 tight_state)).syst.particles 0).r d
        - (tight_state.syst.particles 0).r d) = ![-(1 / 2), -(1 / 2), -(1 / 2)] ∧
    SCALAR
      (fun d => ((returned tight_state (VMMC_dynamics quiet_env 5 tight_state)).syst.particles 0).r d
        - (tight_state.syst.particles 0).r d)
      (fun d => ((returned tight_state (VMMC_dynamics quiet_env 5 tight_state)).syst.particles 0).r d
        - (tight_state.syst.particles 0).r d) = 3 / 4 ∧
    (returned tight_state (VMMC_dynamics quiet_env 5 tight_state)).syst.accepted
      = tight_state.syst.accepted + 1 := by
  decide!

/-- C15 at the input `crowd_state`: the list holds 160 pairs, all different, the array has
`16 * N_max = 320` slots, the cap test `n_possible_links >= 16 * N_max` lets the call go
on, and `_populate_possible_links(18)` records the pair `(18, 19)` in the slots 320 and
321, beyond the allocation. -/
theorem links_written_beyond_allocation :
    crowd_state.vmmcdata.n_possible_links = 160 ∧
    ((ordered_pairs 20).take 160).Nodup ∧
    possible_links_slots crowd_state.syst = 320 ∧
    (_populate_possible_links quiet_env 25 crowd_state 18).toOption.map
        (fun s => (s.vmmcdata.n_possible_links, s.vmmcdata.possible_links (2 * 160 + 0),
          s.vmmcdata.possible_links (2 * 160 + 1))) = some (161, 18, 19) ∧
    possible_links_slots crowd_state.syst ≤ 2 * 160 + 0 := by
  decide!

/-! ## The parameters that a move leaves alone -/

theorem Static.st_refl (a : System) : Static a a :=
  ⟨rfl, rfl, rfl, rfl, rfl, rfl, fun _ => ⟨rfl, rfl⟩⟩

theorem Static.st_trans {a b c : System} (h1 : Static a b) (h2 : Static b c) : Static a c :=
  ⟨h2.1.trans h1.1, h2.2.1.trans h1.2.1, h2.2.2.1.trans h1.2.2.1,
    h2.2.2.2.1.trans h1.2.2.2.1, h2.2.2.2.2.1.trans h1.2.2.2.2.1,
    h2.2.2.2.2.2.1.trans h1.2.2.2.2.2.1,
    fun i => ⟨((h2.2.2.2.2.2.2 i).1).trans ((h1.2.2.2.2.2.2 i).1),
      ((h2.2.2.2.2.2.2 i).2).trans ((h1.2.2.2.2.2.2 i).2)⟩⟩

theorem Calm.calm_refl (s : State) : Calm s s := ⟨Static.st_refl _, rfl, rfl, rfl, rfl, rfl⟩

theorem Calm.calm_trans {a b c : State} (h1 : Calm a b) (h2 : Calm b c) : Calm a c :=
  ⟨h1.1.st_trans h2.1, h2.2.1.trans h1.2.1, h2.2.2.1.trans h1.2.2.1,
    h2.2.2.2.1.trans h1.2.2.2.1, h2.2.2.2.2.1.trans h1.2.2.2.2.1,
    h2.2.2.2.2.2.trans h1.2.2.2.2.2⟩

theorem OnlyOverlap.oo_refl (a : System) : OnlyOverlap a a := ⟨a.overlap, rfl⟩

theorem OnlyOverlap.oo_trans {a b c : System} (h1 : OnlyOverlap a b) (h2 : OnlyOverlap b c) :
    OnlyOverlap a c := by
  obtain ⟨o1, rfl⟩ := h1
  obtain ⟨o2, rfl⟩ := h2
  exact ⟨o2, rfl⟩

theorem OnlyOverlap.static {a b : System} (h : OnlyOverlap a b) : Static a b := by
  obtain ⟨o, rfl⟩ := h
  exact ⟨rfl, rfl, rfl, rfl, rfl, rfl, fun _ => ⟨rfl, rfl⟩⟩

theorem OnlyOverlap.same_particles {a b : System} (h : OnlyOverlap a b) :
    b.particles = a.particles ∧ b.cells = a.cells := by
  obtain ⟨o, rfl⟩ := h
  exact ⟨rfl, rfl⟩

theorem set_particle_static (syst : System) (p : Nat) (x : PatchyParticle)
    (hx : x.index = (syst.particles p).index)
    (hn : x.n_patches = (syst.particles p).n_patches) :
    Static syst (syst.set_particle p x) := by
  refine ⟨rfl, rfl, rfl, rfl, rfl, rfl, ?_⟩
  intro i
  by_cases hi : i = p
  · subst hi
    simp [System.set_particle, hx, hn]
  · simp [System.set_particle, Function.update_noteq hi]

theorem store_dof_calm (s : State) (p : Nat) : Calm s (s.store_dof p) :=
  ⟨set_particle_static _ _ _ rfl rfl, rfl, rfl, rfl, rfl, rfl⟩

theorem restore_dof_calm (s : State) (p : Nat) : Calm s (s.restore_dof p) :=
  ⟨set_particle_static _ _ _ rfl rfl, rfl, rfl, rfl, rfl, rfl⟩

theorem move_particle_static (syst : System) (vm : vmmc_d) (p : Nat) (move : vector) (t : ℚ) :
    Static syst (_move_particle syst vm p move t) ∧
      (_move_particle syst vm p move t).cells = syst.cells := by
  unfold _move_particle
  cases vm.which_move <;> exact ⟨set_particle_static _ _ _ rfl rfl, rfl⟩

theorem move_particle_calm (s : State) (pr : Proposal) (p : Nat) :
    Calm s (s.move_particle pr p) :=
  ⟨(move_particle_static s.syst s.vmmcdata p pr.move pr.angle).1,
    (move_particle_static s.syst s.vmmcdata p pr.move pr.angle).2, rfl, rfl, rfl, rfl⟩

theorem pair_energy_only_overlap (env : Env) (syst : System) (p q : Nat) :
    OnlyOverlap syst (_pair_energy env syst p q).2 := by
  unfold _pair_energy
  split
  · exact OnlyOverlap.oo_refl _
  · exact ⟨1, rfl⟩
  · exact OnlyOverlap.oo_refl _

theorem only_overlap_calm (s : State) (syst' : System) (h : OnlyOverlap s.syst syst') :
    Calm s { s with syst := syst' } :=
  ⟨h.static, h.same_particles.2, rfl, rfl, rfl, rfl⟩

theorem populate_visit_calm (s s' : State) (p q : Nat)
    (h : populate_visit s p q = Except.ok s') : Calm s s' := by
  simp only [populate_visit] at h
  split_ifs at h <;> cases h <;>
    first
    | exact Calm.calm_refl _
    | exact ⟨set_particle_static _ _ _ rfl rfl, rfl, rfl, rfl, rfl, rfl⟩

theorem populate_chain_calm (p : Nat) :
    ∀ (fuel : Nat) (q : Option Nat) (s s' : State),
      populate_chain p fuel q s = Except.ok s' → Calm s s' := by
  intro fuel
  induction fuel with
  | zero =>
    intro q s s' h
    cases q with
    | none =>
      simp only [populate_chain] at h
      cases h
      exact Calm.calm_refl _
    | some a => simp [populate_chain] at h
  | succ n ih =>
    intro q s s' h
    cases q with
    | none =>
      simp only [populate_chain] at h
      cases h
      exact Calm.calm_refl _
    | some a =>
      simp only [populate_chain] at h
      split at h
      · cases h
      · rename_i s1 hv
        exact (populate_visit_calm _ _ _ _ hv).calm_trans (ih _ _ _ h)

theorem populate_cells_calm (fuel p : Nat) (ind : Fin 3 → Int) :
    ∀ (os : List (Int × Int × Int)) (s s' : State),
      populate_cells fuel p ind os s = Except.ok s' → Calm s s' := by
  intro os
  induction os with
  | nil =>
    intro s s' h
    simp only [populate_cells] at h
    cases h
    exact Calm.calm_refl _
  | cons o os ih =>
    intro s s' h
    simp only [populate_cells] at h
    split at h
    · cases h
    · rename_i s1 hc
      exact (populate_chain_calm _ _ _ _ _ hc).calm_trans (ih _ _ h)

theorem populate_links_calm (env : Env) (fuel : Nat) (s s' : State) (p : Nat)
    (h : _populate_possible_links env fuel s p = Except.ok s') : Calm s s' := by
  unfold _populate_possible_links at h
  split_ifs at h
  exact populate_cells_calm _ _ _ _ _ _ h

/-- The three steps of `vmmc_links_around` that returned. -/
theorem links_around_steps (env : Env) (fuel : Nat) (pr : Proposal) (s s' : State) (p : Nat)
    (h : vmmc_links_around env fuel pr s p = Except.ok s') :
    ∃ s1 s2, _populate_possible_links env fuel (s.store_dof p) p = Except.ok s1 ∧
      _populate_possible_links env fuel (s1.move_particle pr p) p = Except.ok s2 ∧
      s' = s2.restore_dof p := by
  unfold vmmc_links_around at h
  split at h
  · cases h
  · rename_i s1 h1
    split at h
    · cases h
    · rename_i s2 h2
      cases h
      exact ⟨s1, s2, h1, h2, rfl⟩

theorem links_around_calm (env : Env) (fuel : Nat) (pr : Proposal) (s s' : State) (p : Nat)
    (h : vmmc_links_around env fuel pr s p = Except.ok s') : Calm s s' := by
  obtain ⟨s1, s2, h1, h2, rfl⟩ := links_around_steps env fuel pr s s' p h
  exact (((store_dof_calm s p).calm_trans (populate_links_calm _ _ _ _ _ h1)).calm_trans
    ((move_particle_calm s1 pr p).calm_trans (populate_links_calm _ _ _ _ _ h2))).calm_trans
    (restore_dof_calm s2 p)

theorem virtual_move_calm (env : Env) (pr : Proposal) (s : State) (p q x : Nat) :
    Calm s (vmmc_virtual_move env pr s p q x).2.2 := by
  have h1 : Calm s ((s.store_dof x).move_particle pr x) :=
    (store_dof_calm s x).calm_trans (move_particle_calm _ pr x)
  have h2 := only_overlap_calm ((s.store_dof x).move_particle pr x) _
    (pair_energy_only_overlap env ((s.store_dof x).move_particle pr x).syst p q)
  have h3 := restore_dof_calm
    { (s.store_dof x).move_particle pr x with
      syst := (_pair_energy env ((s.store_dof x).move_particle pr x).syst p q).2 } x
  have h4 := only_overlap_calm (({ (s.store_dof x).move_particle pr x with
        syst := (_pair_energy env ((s.store_dof x).move_particle pr x).syst p q).2 } :
        State).restore_dof x) _ ⟨0, rfl⟩
  exact ((h1.calm_trans h2).calm_trans h3).calm_trans h4

theorem virtual_move_working_set (env : Env) (pr : Proposal) (s : State) (p q x : Nat) :
    (vmmc_virtual_move env pr s p q x).2.2.vmmcdata = s.vmmcdata ∧
      (vmmc_virtual_move env pr s p q x).2.2.draws = s.draws :=
  ⟨rfl, rfl⟩

theorem decide_calm (env : Env) (force : Int) (prob : ℚ) (s : State) :
    Calm s (vmmc_decide env force prob s).2 ∧
      (vmmc_decide env force prob s).2.vmmcdata = s.vmmcdata ∧
      (vmmc_decide env force prob s).2.syst = s.syst := by
  unfold vmmc_decide
  split_ifs
  · exact ⟨Calm.calm_refl _, rfl, rfl⟩
  · exact ⟨Calm.calm_refl _, rfl, rfl⟩

theorem drop_link_calm (s : State) (link_index : Nat) : Calm s (drop_link s link_index) :=
  ⟨Static.st_refl _, rfl, rfl, rfl, rfl, rfl⟩

theorem prelink_calm (s : State) (q : Nat) : Calm s (vmmc_prelink s q) :=
  ⟨Static.st_refl _, rfl, rfl, rfl, rfl, rfl⟩

theorem recruit_calm (s : State) (q : Nat) : Calm s (vmmc_recruit s q) :=
  ⟨Static.st_refl _, rfl, rfl, rfl, rfl, rfl⟩

/-- The two ways in which lines 136-166 return. -/
theorem offer_cases (env : Env) (fuel : Nat) (pr : Proposal) (s s' : State) (p q : Nat)
    (E_old p1 : ℚ) (h : vmmc_offer env fuel pr s p q E_old p1 = Except.ok s') :
    ∃ (force : Int) (prob : ℚ),
      (vmmc_links_around env fuel pr
          (vmmc_recruit (vmmc_decide env force prob (vmmc_virtual_move env pr s p q q).2.2).2 q) q
        = Except.ok s') ∨
      s' = vmmc_prelink (vmmc_decide env force prob (vmmc_virtual_move env pr s p q q).2.2).2 q := by
  simp only [vmmc_offer] at h
  split_ifs at h
  all_goals
    first
    | exact ⟨_, _, Or.inl h⟩
    | exact ⟨_, _, Or.inr (Except.ok.inj h).symm⟩

theorem offer_calm (env : Env) (fuel : Nat) (pr : Proposal) (s s' : State) (p q : Nat)
    (E_old p1 : ℚ) (h : vmmc_offer env fuel pr s p q E_old p1 = Except.ok s') : Calm s s' := by
  obtain ⟨force, prob, hc⟩ := offer_cases env fuel pr s s' p q E_old p1 h
  have hd := (virtual_move_calm env pr s p q q).calm_trans
    (decide_calm env force prob (vmmc_virtual_move env pr s p q q).2.2).1
  rcases hc with hl | hp
  · exact (hd.calm_trans (recruit_calm _ q)).calm_trans (links_around_calm _ _ _ _ _ _ hl)
  · rw [hp]
    exact hd.calm_trans (prelink_calm _ q)

/-- The two ways in which lines 120-171 return. -/
theorem try_link_cases (env : Env) (fuel : Nat) (pr : Proposal) (s s' : State)
    (link_index p q : Nat) (h : vmmc_try_link env fuel pr s link_index p q = Except.ok s') :
    ∃ (force : Int) (prob : ℚ),
      (∃ E pp s5, vmmc_offer env fuel pr
          (vmmc_decide env force prob
            (vmmc_virtual_move env pr { s with syst := (_pair_energy env s.syst p q).2 }
              p q p).2.2).2 p q E pp = Except.ok s5 ∧ s' = drop_link s5 link_index) ∨
      s' = drop_link
        (vmmc_decide env force prob
          (vmmc_virtual_move env pr { s with syst := (_pair_energy env s.syst p q).2 }
            p q p).2.2).2 link_index := by
  simp only [vmmc_try_link] at h
  split_ifs at h
  · split at h
    · cases h
    · rename_i s5 ho
      cases h
      exact ⟨_, _, Or.inl ⟨_, _, s5, ho, rfl⟩⟩
  · cases h
    exact ⟨_, _, Or.inr rfl⟩

theorem try_link_calm (env : Env) (fuel : Nat) (pr : Proposal) (s s' : State)
    (link_index p q : Nat) (h : vmmc_try_link env fuel pr s link_index p q = Except.ok s') :
    Calm s s' := by
  obtain ⟨force, prob, hc⟩ := try_link_cases env fuel pr s s' link_index p q h
  have h1 := only_overlap_calm s _ (pair_energy_only_overlap env s.syst p q)
  have hd := (h1.calm_trans (virtual_move_calm env pr _ p q p)).calm_trans
    (decide_calm env force prob _).1
  rcases hc with ⟨E, pp, s5, ho, rfl⟩ | rfl
  · exact (hd.calm_trans (offer_calm _ _ _ _ _ _ _ _ _ ho)).calm_trans (drop_link_calm _ _)
  · exact hd.calm_trans (drop_link_calm _ _)

/-- The three ways in which one pass of the recruitment loop returns. -/
theorem recruit_body_cases (env : Env) (fuel : Nat) (pr : Proposal) (s s' : State)
    (h : vmmc_recruit_body env fuel pr s = Except.ok s') :
    s' = drop_link { s with draws := s.draws + 1 }
        (int_cast (env.drand48 s.draws * (s.vmmcdata.n_possible_links : ℚ))).toNat ∨
    ∃ p q, vmmc_try_link env fuel pr { s with draws := s.draws + 1 }
        (int_cast (env.drand48 s.draws * (s.vmmcdata.n_possible_links : ℚ))).toNat p q
      = Except.ok s' := by
  simp only [vmmc_recruit_body] at h
  split_ifs at h
  · cases h
    exact Or.inl rfl
  · exact Or.inr ⟨_, _, h⟩
  · exact Or.inr ⟨_, _, h⟩

theorem recruit_body_calm (env : Env) (fuel : Nat) (pr : Proposal) (s s' : State)
    (h : vmmc_recruit_body env fuel pr s = Except.ok s') : Calm s s' := by
  have h0 : Calm s { s with draws := s.draws + 1 } := Calm.calm_refl _
  rcases recruit_body_cases env fuel pr s s' h with rfl | ⟨p, q, ht⟩
  · exact h0.calm_trans (drop_link_calm _ _)
  · exact h0.calm_trans (try_link_calm _ _ _ _ _ _ _ _ ht)

/-- What lines 56-82 of `VMMC_dynamics` leave alone. -/
theorem vmmc_start_static (env : Env) (s : State) :
    Static s.syst (vmmc_start env s).1.syst ∧
    (vmmc_start env s).1.syst.cells = s.syst.cells ∧
    (vmmc_start env s).1.syst.particles = s.syst.particles ∧
    (vmmc_start env s).1.vmmcdata.max_move = s.vmmcdata.max_move ∧
    (vmmc_start env s).1.vmmcdata.max_cluster = s.vmmcdata.max_cluster ∧
    (vmmc_start env s).1.vmmcdata.n_possible_links = 0 ∧
    (vmmc_start env s).1.vmmcdata.n_prelinked_particles = 0 := by
  unfold vmmc_start
  split_ifs <;> exact ⟨Static.st_refl _, rfl, rfl, rfl, rfl, rfl, rfl⟩

/-- Up to every evaluation of the condition of the recruitment loop the parameters, the
cell index and the proposal are those that lines 56-82 left. -/
theorem loop_head_calm (env : Env) (fuel : Nat) (s0 s : State) (h : LoopHead env fuel s0 s) :
    Calm (vmmc_start env s0).1 s := by
  induction h with
  | first s hl => exact links_around_calm _ _ _ _ _ _ hl
  | next s s' _ _ hb ih => exact ih.calm_trans (recruit_body_calm _ _ _ _ _ hb)

/-! ## One pass of the recruitment loop that declines the link -/

/-- When the drawn link has an end outside the cluster, one pass of the loop is lines
120-171 for the oriented link. -/
theorem recruit_body_oriented (env : Env) (fuel : Nat) (pr : Proposal) (s : State)
    (hends : ¬ (s.vmmcdata.is_in_cluster (s.syst.particles
        (s.vmmcdata.possible_links (2 * drawn_link env s + 0))).index = 1 ∧
      s.vmmcdata.is_in_cluster (s.syst.particles
        (s.vmmcdata.possible_links (2 * drawn_link env s + 1))).index = 1))
    (hassert : env.NDEBUG = true ∨
      (s.vmmcdata.is_in_cluster (s.syst.particles
        (s.vmmcdata.possible_links (2 * drawn_link env s + 0))).index = 1 ∨
      s.vmmcdata.is_in_cluster (s.syst.particles
        (s.vmmcdata.possible_links (2 * drawn_link env s + 1))).index = 1)) :
    vmmc_recruit_body env fuel pr s =
      vmmc_try_link env fuel pr { s with draws := s.draws + 1 } (drawn_link env s)
        (oriented_link env s).1 (oriented_link env s).2 := by
  have h1 : ¬ (env.NDEBUG = false ∧
      ¬ (s.vmmcdata.is_in_cluster (s.syst.particles
        (s.vmmcdata.possible_links (2 * drawn_link env s + 0))).index = 1 ∨
      s.vmmcdata.is_in_cluster (s.syst.particles
        (s.vmmcdata.possible_links (2 * drawn_link env s + 1))).index = 1)) := by
    rintro ⟨hn, hc⟩
    rcases hassert with h | h
    · rw [hn] at h
      cases h
    · exact hc h
  unfold vmmc_recruit_body oriented_link
  simp only [drawn_link] at h1 hends ⊢
  rw [if_neg h1, if_neg hends]
  split_ifs <;> rfl

/-- Lines 120-171 when `p1` loses against the draw: the link is dropped and nothing
else of `vmmcdata` changes. -/
theorem try_link_declined (env : Env) (fuel : Nat) (pr : Proposal) (s0 : State)
    (link_index p q : Nat)
    (hassert : env.NDEBUG = true ∨ (_pair_energy env s0.syst p q).2.overlap = 0)
    (hforce : (vmmc_virtual_move env pr
      { s0 with syst := (_pair_energy env s0.syst p q).2 } p q p).2.1 ≠ 1)
    (hlose : ¬ (1 - env.exp ((1 / s0.syst.T) * ((_pair_energy env s0.syst p q).1 -
        (vmmc_virtual_move env pr
          { s0 with syst := (_pair_energy env s0.syst p q).2 } p q p).1))
      > env.drand48 s0.draws)) :
    ∃ s', vmmc_try_link env fuel pr s0 link_index p q = Except.ok s' ∧
      s'.vmmcdata = (drop_link s0 link_index).vmmcdata ∧ s'.draws = s0.draws + 1 := by
  have hT : (vmmc_virtual_move env pr
      { s0 with syst := (_pair_energy env s0.syst p q).2 } p q p).2.2.syst.T = s0.syst.T := by
    have h1 := (virtual_move_calm env pr
      { s0 with syst := (_pair_energy env s0.syst p q).2 } p q p).1.2.2.2.2.2.1
    have h2 := (pair_energy_only_overlap env s0.syst p q).static.2.2.2.2.2.1
    exact h1.trans h2
  have h1 : ¬ (env.NDEBUG = false ∧ (_pair_energy env s0.syst p q).2.overlap ≠ 0) := by
    rintro ⟨hn, hc⟩
    rcases hassert with h | h
    · rw [hn] at h
      cases h
    · exact hc h
  unfold vmmc_try_link
  simp only []
  rw [if_neg h1, hT]
  have hd : vmmc_decide env
      (vmmc_virtual_move env pr { s0 with syst := (_pair_energy env s0.syst p q).2 } p q p).2.1
      (1 - env.exp ((1 / s0.syst.T) * ((_pair_energy env s0.syst p q).1 -
        (vmmc_virtual_move env pr
          { s0 with syst := (_pair_energy env s0.syst p q).2 } p q p).1)))
      (vmmc_virtual_move env pr { s0 with syst := (_pair_energy env s0.syst p q).2 } p q p).2.2
      = (false, { (vmmc_virtual_move env pr
          { s0 with syst := (_pair_energy env s0.syst p q).2 } p q p).2.2 with
          draws := s0.draws + 1 }) := by
    unfold vmmc_decide
    rw [if_neg hforce]
    have hdr : (vmmc_virtual_move env pr
      { s0 with syst := (_pair_energy env s0.syst p q).2 } p q p).2.2.draws = s0.draws := rfl
    rw [hdr, decide_eq_false hlose]
  rw [hd]
  exact ⟨_, rfl, rfl, rfl⟩

/-- C17. In one pass of the recruitment loop with `T > 0` (and `exp x > 1` for `x > 0`),
for a drawn link with one end `q` outside the cluster: if the move of `p` alone sets no
overlap and `E_p_moved < E_old`, then `p1 < 0`, and for every draw in `[0, 1)` the pass
returns with `q` neither recruited nor prelinked: `vmmcdata` is what the swap-with-last
removal of the drawn link makes of it, so `n_possible_links` is one less and the cluster,
its flags and the prelinked list are as before. -/
theorem no_recruit_when_energy_lowers (env : Env) (fuel : Nat) (pr : Proposal) (s : State)
    (hguard : recruit_guard s)
    (hends : ¬ (s.vmmcdata.is_in_cluster (s.syst.particles
        (s.vmmcdata.possible_links (2 * drawn_link env s + 0))).index = 1 ∧
      s.vmmcdata.is_in_cluster (s.syst.particles
        (s.vmmcdata.possible_links (2 * drawn_link env s + 1))).index = 1))
    (hassert : env.NDEBUG = true ∨
      ((s.vmmcdata.is_in_cluster (s.syst.particles
        (s.vmmcdata.possible_links (2 * drawn_link env s + 0))).index = 1 ∨
      s.vmmcdata.is_in_cluster (s.syst.particles
        (s.vmmcdata.possible_links (2 * drawn_link env s + 1))).index = 1) ∧
      (after_E_old env s).syst.overlap = 0))
    (hT : 0 < s.syst.T)
    (hexp : ∀ x : ℚ, 0 < x → 1 < env.exp x)
    (hforce : (vmmc_virtual_move env pr (after_E_old env s)
      (oriented_link env s).1 (oriented_link env s).2 (oriented_link env s).1).2.1 ≠ 1)
    (hE : (vmmc_virtual_move env pr (after_E_old env s)
        (oriented_link env s).1 (oriented_link env s).2 (oriented_link env s).1).1
      < (_pair_energy env s.syst (oriented_link env s).1 (oriented_link env s).2).1)
    (hdraw : 0 ≤ env.drand48 (s.draws + 1) ∧ env.drand48 (s.draws + 1) < 1) :
    1 - env.exp ((1 / s.syst.T) *
        ((_pair_energy env s.syst (oriented_link env s).1 (oriented_link env s).2).1 -
          (vmmc_virtual_move env pr (after_E_old env s)
            (oriented_link env s).1 (oriented_link env s).2 (oriented_link env s).1).1)) < 0 ∧
    ∃ s', vmmc_recruit_body env fuel pr s = Except.ok s' ∧
      s'.vmmcdata = (drop_link s (drawn_link env s)).vmmcdata ∧
      s'.vmmcdata.n_possible_links + 1 = s.vmmcdata.n_possible_links ∧
      s'.vmmcdata.n_clust = s.vmmcdata.n_clust ∧
      s'.vmmcdata.clust = s.vmmcdata.clust ∧
      s'.vmmcdata.is_in_cluster = s.vmmcdata.is_in_cluster ∧
      s'.vmmcdata.n_prelinked_particles = s.vmmcdata.n_prelinked_particles ∧
      s'.vmmcdata.prelinked_particles = s.vmmcdata.prelinked_particles := by
  have hp1 : 1 - env.exp ((1 / s.syst.T) *
        ((_pair_energy env s.syst (oriented_link env s).1 (oriented_link env s).2).1 -
          (vmmc_virtual_move env pr (after_E_old env s)
            (oriented_link env s).1 (oriented_link env s).2 (oriented_link env s).1).1)) < 0 := by
    have hpos : 0 < (1 / s.syst.T) *
        ((_pair_energy env s.syst (oriented_link env s).1 (oriented_link env s).2).1 -
          (vmmc_virtual_move env pr (after_E_old env s)
            (oriented_link env s).1 (oriented_link env s).2 (oriented_link env s).1).1) :=
      mul_pos (one_div_pos.mpr hT) (sub_pos.mpr hE)
    have := hexp _ hpos
    linarith
  refine ⟨hp1, ?_⟩
  have hbody := recruit_body_oriented env fuel pr s hends
    (hassert.elim Or.inl (fun h => Or.inr h.1))
  obtain ⟨s', hs', hvm, _⟩ := try_link_declined env fuel pr { s with draws := s.draws + 1 }
    (drawn_link env s) (oriented_link env s).1 (oriented_link env s).2
    (hassert.elim Or.inl (fun h => Or.inr h.2)) hforce
    (by
      intro hgt
      have h2 : env.drand48 (s.draws + 1) < 0 := lt_trans hgt hp1
      exact absurd hdraw.1 (not_le.mpr h2))
  refine ⟨s', hbody.trans hs', hvm, ?_, ?_, ?_, ?_, ?_, ?_⟩
  · rw [hvm]
    have hn : 0 < s.vmmcdata.n_possible_links := hguard.1
    show s.vmmcdata.n_possible_links - 1 + 1 = s.vmmcdata.n_possible_links
    omega
  all_goals rw [hvm]; rfl

/-- C17 at `repelled_state`: the pair is bonded with energy `+1`, the translation by
`(1, 0, 0)` of the member breaks the bond, and the pass only drops the link. -/
theorem no_recruit_when_energy_lowers_witness :
    1 - bond_env.exp ((1 / repelled_state.syst.T) *
        ((_pair_energy bond_env repelled_state.syst (oriented_link bond_env repelled_state).1
            (oriented_link bond_env repelled_state).2).1 -
          (vmmc_virtual_move bond_env ⟨![1, 0, 0], -1⟩ (after_E_old bond_env repelled_state)
            (oriented_link bond_env repelled_state).1 (oriented_link bond_env repelled_state).2
            (oriented_link bond_env repelled_state).1).1)) < 0 ∧
    ∃ s', vmmc_recruit_body bond_env 5 ⟨![1, 0, 0], -1⟩ repelled_state = Except.ok s' ∧
      s'.vmmcdata = (drop_link repelled_state (drawn_link bond_env repelled_state)).vmmcdata ∧
      s'.vmmcdata.n_possible_links + 1 = repelled_state.vmmcdata.n_possible_links ∧
      s'.vmmcdata.n_clust = repelled_state.vmmcdata.n_clust ∧
      s'.vmmcdata.clust = repelled_state.vmmcdata.clust ∧
      s'.vmmcdata.is_in_cluster = repelled_state.vmmcdata.is_in_cluster ∧
      s'.vmmcdata.n_prelinked_particles = repelled_state.vmmcdata.n_prelinked_particles ∧
      s'.vmmcdata.prelinked_particles = repelled_state.vmmcdata.prelinked_particles :=
  no_recruit_when_energy_lowers bond_env 5 ⟨![1, 0, 0], -1⟩ repelled_state
    (by decide!) (by decide!) (by decide!) (by decide!)
    (by
      intro x hx
      show 1 < (if x ≤ 0 then 1 / (1 - x) else 1 + x)
      rw [if_neg (not_le.mpr hx)]
      linarith)
    (by decide!) (by decide!) (by decide!)

/-! ## The 27 neighbouring cells -/

theorem neighbour_offsets_values :
    ∀ o ∈ neighbour_offsets,
      (o.1 = -1 ∨ o.1 = 0 ∨ o.1 = 1) ∧ (o.2.1 = -1 ∨ o.2.1 = 0 ∨ o.2.1 = 1) ∧
        (o.2.2 = -1 ∨ o.2.2 = 0 ∨ o.2.2 = 1) := by
  decide

theorem neighbour_offsets_nodup : neighbour_offsets.Nodup := by decide

/-- The remainder of C at a neighbouring coordinate: for a side of at least 3 and a valid
coordinate `a`, `(a + j + n) % n` is the mathematical remainder of `a + j`. -/
theorem neighbour_coordinate (a j n : Int) (hn : 3 ≤ n) (ha : 0 ≤ a ∧ a < n)
    (hj : j = -1 ∨ j = 0 ∨ j = 1) :
    (a + j + n).tmod n = (a + j) % n ∧ 0 ≤ (a + j + n).tmod n ∧ (a + j + n).tmod n < n := by
  have h0 : 0 ≤ a + j + n := by rcases hj with h | h | h <;> omega
  have h1 : (a + j + n).tmod n = (a + j) % n := by
    rw [Int.tmod_eq_emod h0 (by omega), Int.add_emod_self]
  rw [h1]
  exact ⟨rfl, Int.emod_nonneg _ (by omega), Int.emod_lt_of_pos _ (by omega)⟩

/-- Two of the three offsets with the same neighbouring coordinate are equal. -/
theorem neighbour_coordinate_inj (a j j' n : Int) (hn : 3 ≤ n)
    (hj : j = -1 ∨ j = 0 ∨ j = 1) (hj' : j' = -1 ∨ j' = 0 ∨ j' = 1)
    (h : (a + j) % n = (a + j') % n) : j = j' := by
  have h1 : (a + j - (a + j')) % n = 0 := Int.emod_eq_emod_iff_emod_sub_eq_zero.mp h
  have h2 : n ∣ (j - j') := by
    have : a + j - (a + j') = j - j' := by ring
    rw [this] at h1
    exact Int.dvd_of_emod_eq_zero h1
  obtain ⟨k, hk⟩ := h2
  have hb : -2 ≤ j - j' ∧ j - j' ≤ 2 := by
    rcases hj with h | h | h <;> rcases hj' with h' | h' | h' <;> omega
  have hk0 : k = 0 := by
    by_contra hne
    rcases lt_or_gt_of_ne hne with hlt | hgt
    · have : k ≤ -1 := by omega
      nlinarith
    · have : 1 ≤ k := by omega
      nlinarith
  rw [hk0] at hk
  omega

/-- The flattening of a triple is injective on valid second and third coordinates. -/
theorem flat_index_inj (a b c a' b' c' n2 n3 : Int)
    (hb : 0 ≤ b ∧ b < n2) (hb' : 0 ≤ b' ∧ b' < n2)
    (hc : 0 ≤ c ∧ c < n3) (hc' : 0 ≤ c' ∧ c' < n3)
    (h : (a * n2 + b) * n3 + c = (a' * n2 + b') * n3 + c') :
    a = a' ∧ b = b' ∧ c = c' := by
  have radix : ∀ (x x' y y' n : Int), 0 ≤ y ∧ y < n → 0 ≤ y' ∧ y' < n →
      x * n + y = x' * n + y' → x = x' ∧ y = y' := by
    intro x x' y y' n hy hy' he
    have hx : x = x' := by
      by_contra hne
      rcases lt_or_gt_of_ne hne with hlt | hgt
      · have : x + 1 ≤ x' := by omega
        nlinarith
      · have : x' + 1 ≤ x := by omega
        nlinarith
    subst hx
    exact ⟨rfl, by omega⟩
  obtain ⟨h1, h2⟩ := radix _ _ _ _ _ hc hc' h
  obtain ⟨h3, h4⟩ := radix _ _ _ _ _ hb hb' h1
  exact ⟨h3, h4, h2⟩

/-- The flattened index of a neighbouring cell is a valid cell. -/
theorem loop_index_range (syst : System) (ind : Fin 3 → Int)
    (hside : ∀ d, 3 ≤ syst.cells.N_side d)
    (hN : syst.cells.N = syst.cells.N_side 0 * syst.cells.N_side 1 * syst.cells.N_side 2)
    (hind : ∀ d, 0 ≤ ind d ∧ ind d < syst.cells.N_side d) :
    ∀ o ∈ neighbour_offsets,
      0 ≤ loop_index syst ind o ∧ loop_index syst ind o < syst.cells.N := by
  intro o ho
  obtain ⟨h1, h2, h3⟩ := neighbour_offsets_values o ho
  rw [hN]
  exact flat_index_bounds _ _ _ _ _ _
    (neighbour_coordinate _ _ _ (hside 0) (hind 0) h1).2
    (neighbour_coordinate _ _ _ (hside 1) (hind 1) h2).2
    (neighbour_coordinate _ _ _ (hside 2) (hind 2) h3).2

/-- The flattened indices of the 27 neighbouring cells are pairwise different. -/
theorem loop_index_nodup (syst : System) (ind : Fin 3 → Int)
    (hside : ∀ d, 3 ≤ syst.cells.N_side d)
    (hind : ∀ d, 0 ≤ ind d ∧ ind d < syst.cells.N_side d) :
    (neighbour_offsets.map (loop_index syst ind)).Nodup := by
  refine List.Nodup.map_on ?_ neighbour_offsets_nodup
  intro o ho o' ho' h
  obtain ⟨h1, h2, h3⟩ := neighbour_offsets_values o ho
  obtain ⟨h1', h2', h3'⟩ := neighbour_offsets_values o' ho'
  have c0 := neighbour_coordinate _ _ _ (hside 0) (hind 0) h1
  have c1 := neighbour_coordinate _ _ _ (hside 1) (hind 1) h2
  have c2 := neighbour_coordinate _ _ _ (hside 2) (hind 2) h3
  have c0' := neighbour_coordinate _ _ _ (hside 0) (hind 0) h1'
  have c1' := neighbour_coordinate _ _ _ (hside 1) (hind 1) h2'
  have c2' := neighbour_coordinate _ _ _ (hside 2) (hind 2) h3'
  obtain ⟨e0, e1, e2⟩ := flat_index_inj _ _ _ _ _ _ _ _ c1.2 c1'.2 c2.2 c2'.2 h
  rw [c0.1, c0'.1] at e0
  rw [c1.1, c1'.1] at e1
  rw [c2.1, c2'.1] at e2
  have j0 := neighbour_coordinate_inj _ _ _ _ (hside 0) h1 h1' e0
  have j1 := neighbour_coordinate_inj _ _ _ _ (hside 1) h2 h2' e1
  have j2 := neighbour_coordinate_inj _ _ _ _ (hside 2) h3 h3' e2
  exact Prod.ext j0 (Prod.ext j1 j2)

/-- Over cells that are valid and pairwise different, the neighbour loops meet every
resident once. -/
theorem neighbour_chain_once (syst : System) (fuel : Nat) (ind : Fin 3 → Int)
    (hch : ChainsOnce syst fuel) :
    ∀ os : List (Int × Int × Int),
      (os.map (loop_index syst ind)).Nodup →
      (∀ o ∈ os, 0 ≤ loop_index syst ind o ∧ loop_index syst ind o < syst.cells.N) →
      ∃ L, neighbour_chain syst fuel ind os = some L ∧ L.Nodup ∧
        ∀ q, q ∈ L ↔ ∃ o ∈ os, ∃ C, cell_chain syst fuel (loop_index syst ind o) = some C ∧ q ∈ C := by
  intro os
  induction os with
  | nil =>
    intro _ _
    exact ⟨[], rfl, List.nodup_nil, by simp⟩
  | cons o os ih =>
    intro hnd hr
    rw [List.map_cons, List.nodup_cons] at hnd
    obtain ⟨R, hR, hRn, hRm⟩ := ih hnd.2 (fun x hx => hr x (List.mem_cons_of_mem _ hx))
    obtain ⟨h0, h1⟩ := hr o (List.mem_cons_self _ _)
    obtain ⟨L, hL, hLn, hLd⟩ := hch _ h0 h1
    refine ⟨L ++ R, ?_, ?_, ?_⟩
    · simp only [neighbour_chain, hL, hR]
    · refine List.Nodup.append hLn hRn ?_
      intro q hqL hqR
      obtain ⟨o', ho', C, hC, hqC⟩ := (hRm q).mp hqR
      have hne : loop_index syst ind o' ≠ loop_index syst ind o := by
        intro he
        exact hnd.1 (List.mem_map.mpr ⟨o', ho', he⟩)
      obtain ⟨g0, g1⟩ := hr o' (List.mem_cons_of_mem _ ho')
      exact hLd _ g0 g1 hne C hC q hqL hqC
    · intro q
      rw [List.mem_append]
      constructor
      · rintro (hq | hq)
        · exact ⟨o, List.mem_cons_self _ _, L, hL, hq⟩
        · obtain ⟨o', ho', C, hC, hqC⟩ := (hRm q).mp hq
          exact ⟨o', List.mem_cons_of_mem _ ho', C, hC, hqC⟩
      · rintro ⟨o', ho', C, hC, hqC⟩
        rcases List.mem_cons.mp ho' with rfl | ho''
        · rw [hL] at hC
          cases hC
          exact Or.inl hqC
        · exact Or.inr ((hRm q).mpr ⟨o', ho'', C, hC, hqC⟩)

/-! ## The neighbour loops as passes over the particles met -/

theorem populate_list_calm (p : Nat) :
    ∀ (L : List Nat) (s s' : State), populate_list p L s = Except.ok s' → Calm s s' := by
  intro L
  induction L with
  | nil =>
    intro s s' h
    simp only [populate_list] at h
    cases h
    exact Calm.calm_refl _
  | cons q qs ih =>
    intro s s' h
    simp only [populate_list] at h
    split at h
    · cases h
    · rename_i s1 hv
      exact (populate_visit_calm _ _ _ _ hv).calm_trans (ih _ _ h)

theorem populate_list_append (p : Nat) :
    ∀ (L R : List Nat) (s : State),
      populate_list p (L ++ R) s =
        match populate_list p L s with
        | Except.error e => Except.error e
        | Except.ok s1 => populate_list p R s1 := by
  intro L
  induction L with
  | nil =>
    intro R s
    rfl
  | cons q qs ih =>
    intro R s
    simp only [List.cons_append, populate_list]
    cases hv : populate_visit s p q with
    | error e => rfl
    | ok s1 => exact ih R s1

/-- A chain followed in a state with the same cell index and particle indices. -/
theorem chain_walk_calm (a b : System) (hc : b.cells = a.cells)
    (hi : ∀ i, (b.particles i).index = (a.particles i).index)
    (fuel : Nat) (q : Option Nat) (L : List Nat)
    (h : chain_walk a.particles a.cells.next fuel q = some L) :
    chain_walk b.particles b.cells.next fuel q = some L := by
  refine chain_walk_congr _ _ _ _ fuel q L h ?_
  intro x _
  rw [hc, hi x]

theorem populate_chain_list (p : Nat) :
    ∀ (fuel : Nat) (q : Option Nat) (L : List Nat) (s : State),
      chain_walk s.syst.particles s.syst.cells.next fuel q = some L →
      populate_chain p fuel q s = populate_list p L s := by
  intro fuel
  induction fuel with
  | zero =>
    intro q L s h
    cases q with
    | none =>
      simp only [chain_walk] at h
      cases h
      rfl
    | some a => simp [chain_walk] at h
  | succ n ih =>
    intro q L s h
    cases q with
    | none =>
      simp only [chain_walk] at h
      cases h
      rfl
    | some a =>
      simp only [chain_walk, Option.map_eq_some'] at h
      obtain ⟨L', hL', rfl⟩ := h
      simp only [populate_chain, populate_list]
      cases hv : populate_visit s p a with
      | error e => rfl
      | ok s1 =>
        have hcalm := populate_visit_calm _ _ _ _ hv
        have hw : chain_walk s1.syst.particles s1.syst.cells.next n
            (s1.syst.cells.next (s1.syst.particles a).index) = some L' := by
          have := chain_walk_calm s.syst s1.syst hcalm.2.1
            (fun i => (hcalm.1.2.2.2.2.2.2 i).1) n _ L' hL'
          rw [hcalm.2.1] at this ⊢
          rw [(hcalm.1.2.2.2.2.2.2 a).1]
          exact this
        exact ih _ _ _ hw

theorem neighbour_chain_calm (a b : System) (hc : b.cells = a.cells)
    (hi : ∀ i, (b.particles i).index = (a.particles i).index)
    (fuel : Nat) (ind : Fin 3 → Int) :
    ∀ (os : List (Int × Int × Int)) (L : List Nat),
      neighbour_chain a fuel ind os = some L → neighbour_chain b fuel ind os = some L := by
  intro os
  induction os with
  | nil =>
    intro L h
    exact h
  | cons o os ih =>
    intro L h
    simp only [neighbour_chain] at h ⊢
    split at h
    · rename_i C R hC hR
      have hli : loop_index b ind o = loop_index a ind o := by
        simp only [loop_index, hc]
      have hC' : cell_chain b fuel (loop_index b ind o) = some C := by
        rw [hli]
        unfold cell_chain at hC ⊢
        have := chain_walk_calm a b hc hi fuel _ C hC
        rw [hc] at this ⊢
        exact this
      rw [hC', ih R hR]
      exact h
    · cases h

theorem populate_cells_list (fuel p : Nat) (ind : Fin 3 → Int) :
    ∀ (os : List (Int × Int × Int)) (L : List Nat) (s : State),
      neighbour_chain s.syst fuel ind os = some L →
      populate_cells fuel p ind os s = populate_list p L s := by
  intro os
  induction os with
  | nil =>
    intro L s h
    simp only [neighbour_chain] at h
    cases h
    rfl
  | cons o os ih =>
    intro L s h
    simp only [neighbour_chain] at h
    split at h
    · rename_i C R hC hR
      cases h
      simp only [populate_cells]
      rw [populate_list_append, populate_chain_list p fuel _ C s hC]
      cases hl : populate_list p C s with
      | error e => rfl
      | ok s1 =>
        have hcalm := populate_list_calm p C s s1 hl
        exact ih R s1 (neighbour_chain_calm s.syst s1.syst hcalm.2.1
          (fun i => (hcalm.1.2.2.2.2.2.2 i).1) fuel ind os R hR)
    · cases h

theorem energy_visit_only_overlap (env : Env) (vm : vmmc_d) (p : Nat) (acc : ℚ × System)
    (q : Nat) : OnlyOverlap acc.2 (energy_visit env vm p acc q).2 := by
  unfold energy_visit
  split_ifs
  · exact pair_energy_only_overlap env acc.2 p q
  · exact OnlyOverlap.oo_refl _

theorem energy_list_only_overlap (env : Env) (vm : vmmc_d) (p : Nat) :
    ∀ (L : List Nat) (acc : ℚ × System), OnlyOverlap acc.2 (energy_list env vm p L acc).2 := by
  intro L
  induction L with
  | nil =>
    intro acc
    exact OnlyOverlap.oo_refl _
  | cons q qs ih =>
    intro acc
    exact (energy_visit_only_overlap env vm p acc q).oo_trans (ih _)

theorem energy_chain_list (env : Env) (vm : vmmc_d) (p : Nat) :
    ∀ (fuel : Nat) (q : Option Nat) (L : List Nat) (acc : ℚ × System),
      chain_walk acc.2.particles acc.2.cells.next fuel q = some L →
      energy_chain env vm p fuel q acc = Except.ok (energy_list env vm p L acc) := by
  intro fuel
  induction fuel with
  | zero =>
    intro q L acc h
    cases q with
    | none =>
      simp only [chain_walk] at h
      cases h
      rfl
    | some a => simp [chain_walk] at h
  | succ n ih =>
    intro q L acc h
    cases q with
    | none =>
      simp only [chain_walk] at h
      cases h
      rfl
    | some a =>
      simp only [chain_walk, Option.map_eq_some'] at h
      obtain ⟨L', hL', rfl⟩ := h
      have hoo := (energy_visit_only_overlap env vm p acc a).same_particles
      have hw : chain_walk (energy_visit env vm p acc a).2.particles
          (energy_visit env vm p acc a).2.cells.next n
          ((energy_visit env vm p acc a).2.cells.next
            ((energy_visit env vm p acc a).2.particles a).index) = some L' := by
        rw [hoo.1, hoo.2]
        exact hL'
      exact ih _ _ (energy_visit env vm p acc a) hw

theorem energy_cells_list (env : Env) (vm : vmmc_d) (fuel p : Nat) (ind : Fin 3 → Int) :
    ∀ (os : List (Int × Int × Int)) (L : List Nat) (acc : ℚ × System),
      neighbour_chain acc.2 fuel ind os = some L →
      energy_cells env vm fuel p ind os acc = Except.ok (energy_list env vm p L acc) := by
  intro os
  induction os with
  | nil =>
    intro L acc h
    simp only [neighbour_chain] at h
    cases h
    rfl
  | cons o os ih =>
    intro L acc h
    simp only [neighbour_chain] at h
    split at h
    · rename_i C R hC hR
      cases h
      simp only [energy_cells]
      rw [energy_chain_list env vm p fuel _ C acc hC]
      have hoo := (energy_list_only_overlap env vm p C acc).same_particles
      have hR' : neighbour_chain (energy_list env vm p C acc).2 fuel ind os = some R :=
        neighbour_chain_calm acc.2 _ hoo.2 (fun i => by rw [hoo.1]) fuel ind os R hR
      simp only []
      rw [ih R _ hR']
      simp only [energy_list, List.foldl_append]
    · cases h

theorem energy_sum_only_overlap (env : Env) (vm : vmmc_d) (nb : Nat → List Nat) :
    ∀ (is : List Nat) (acc : ℚ × System), OnlyOverlap acc.2 (energy_sum env vm nb is acc).2 := by
  intro is
  induction is with
  | nil =>
    intro acc
    exact OnlyOverlap.oo_refl _
  | cons i is ih =>
    intro acc
    exact (energy_list_only_overlap env vm _ _ acc).oo_trans (ih _)

theorem only_overlap_idx (a b : System) (h : OnlyOverlap a b) (p : Nat) :
    cells_fill_and_get_idx_from_particle b p = cells_fill_and_get_idx_from_particle a p := by
  obtain ⟨o, rfl⟩ := h
  rfl

theorem energy_members_sum (env : Env) (vm : vmmc_d) (fuel : Nat) (syst : System)
    (nb : Nat → List Nat)
    (hnb : ∀ p, neighbour_chain syst fuel (cells_fill_and_get_idx_from_particle syst p).2
      neighbour_offsets = some (nb p)) :
    ∀ (is : List Nat) (acc : ℚ × System), OnlyOverlap syst acc.2 →
      (env.NDEBUG = true ∨
        ∀ i ∈ is, vm.is_in_cluster (syst.particles (vm.clust i)).index = 1) →
      energy_members env vm fuel is acc = Except.ok (energy_sum env vm nb is acc) := by
  intro is
  induction is with
  | nil =>
    intro acc _ _
    rfl
  | cons i is ih =>
    intro acc hoo hassert
    have hsp := hoo.same_particles
    have h1 : ¬ (env.NDEBUG = false ∧
        vm.is_in_cluster (acc.2.particles (vm.clust i)).index ≠ 1) := by
      rintro ⟨hn, hc⟩
      rcases hassert with h | h
      · rw [hn] at h
        cases h
      · rw [hsp.1] at hc
        exact hc (h i (List.mem_cons_self _ _))
    simp only [energy_members]
    rw [if_neg h1, only_overlap_idx syst acc.2 hoo]
    have hn : neighbour_chain acc.2 fuel
        (cells_fill_and_get_idx_from_particle syst (vm.clust i)).2 neighbour_offsets
        = some (nb (vm.clust i)) :=
      neighbour_chain_calm syst acc.2 hsp.2 (fun j => by rw [hsp.1]) fuel _ _ _ (hnb _)
    rw [energy_cells_list env vm fuel _ _ _ _ acc hn]
    simp only [energy_sum]
    exact ih _ (hoo.oo_trans (energy_list_only_overlap env vm _ _ acc))
      (hassert.elim Or.inl (fun h => Or.inr (fun j hj => h j (List.mem_cons_of_mem _ hj))))

/-- The chains that `cells_fill` builds from cleared heads hold each particle once. -/
theorem cells_fill_chains_once (syst : System)
    (hidx : ∀ i, i < syst.N → (syst.particles i).index = i)
    (hside : ∀ d, 1 ≤ syst.cells.N_side d)
    (hN : syst.cells.N = syst.cells.N_side 0 * syst.cells.N_side 1 * syst.cells.N_side 2)
    (hclear : ∀ c, 0 ≤ c → c < syst.cells.N → syst.cells.heads c = none) :
    ChainsOnce (cells_fill syst) syst.N := by
  obtain ⟨hch, _⟩ := cells_fill_chains syst hidx hside hN hclear
  intro c h0 h1
  obtain ⟨L, hL, hmem, hcount⟩ := hch c h0 h1
  refine ⟨L, hL, ?_, ?_⟩
  · rw [List.nodup_iff_count_le_one]
    intro q
    by_cases hq : q ∈ L
    · obtain ⟨hqN, hqc, _⟩ := hmem q hq
      exact le_of_eq (hcount q hqN hqc)
    · rw [List.count_eq_zero_of_not_mem hq]
      exact Nat.zero_le _
  · intro c' h0' h1' hne L' hL' q hq hq'
    obtain ⟨L2, hL2, hmem2, _⟩ := hch c' h0' h1'
    rw [hL'] at hL2
    cases hL2
    exact hne (((hmem2 q hq').2.1).symm.trans (hmem q hq).2.1)

/-- C19. For a grid with every side at least 3 and a cell triple `ind` with valid
coordinates, the 27 flattened indices that the neighbour loops compute are pairwise
different and valid cells. Hence, when the chains hold each particle once, the loops
over the neighbours of `ind` meet each resident of these cells exactly once;
`_populate_possible_links` for `p` is the loop body run once for each particle of the
duplicate-free list `nb p` of the residents around `p`, and `_compute_cluster_energy` is
the sum over the members `p` of the loop body run once for each particle of `nb p`, so a
pair of a member and a non-member is counted at most once for that member. -/
theorem neighbour_cells_distinct (s : State) (ind : Fin 3 → Int)
    (hside : ∀ d, 3 ≤ s.syst.cells.N_side d)
    (hN : s.syst.cells.N
      = s.syst.cells.N_side 0 * s.syst.cells.N_side 1 * s.syst.cells.N_side 2)
    (hind : ∀ d, 0 ≤ ind d ∧ ind d < s.syst.cells.N_side d) :
    neighbour_offsets.length = 27 ∧
    (neighbour_offsets.map (loop_index s.syst ind)).Nodup ∧
    (∀ o ∈ neighbour_offsets,
      0 ≤ loop_index s.syst ind o ∧ loop_index s.syst ind o < s.syst.cells.N) ∧
    ∀ fuel, ChainsOnce s.syst fuel →
      (∃ L, neighbour_chain s.syst fuel ind neighbour_offsets = some L ∧ L.Nodup ∧
        ∀ q, q ∈ L ↔ ∃ o ∈ neighbour_offsets, ∃ C,
          cell_chain s.syst fuel (loop_index s.syst ind o) = some C ∧ q ∈ C) ∧
      ∃ nb : Nat → List Nat,
        (∀ p, neighbour_chain s.syst fuel (cells_fill_and_get_idx_from_particle s.syst p).2
            neighbour_offsets = some (nb p) ∧ (nb p).Nodup) ∧
        (∀ (env : Env) (p : Nat),
          (env.NDEBUG = true ∨ s.vmmcdata.is_in_cluster (s.syst.particles p).index = 1) →
          _populate_possible_links env fuel s p = populate_list p (nb p) s) ∧
        (∀ env : Env,
          (env.NDEBUG = true ∨ ∀ i, i < s.vmmcdata.n_clust →
            s.vmmcdata.is_in_cluster (s.syst.particles (s.vmmcdata.clust i)).index = 1) →
          _compute_cluster_energy env fuel s = Except.ok
            (energy_sum env s.vmmcdata nb (List.range s.vmmcdata.n_clust) (0, s.syst))) := by
  refine ⟨by decide, loop_index_nodup s.syst ind hside hind,
    loop_index_range s.syst ind hside hN hind, ?_⟩
  intro fuel hch
  refine ⟨neighbour_chain_once s.syst fuel ind hch _ (loop_index_nodup s.syst ind hside hind)
    (loop_index_range s.syst ind hside hN hind), ?_⟩
  have hp : ∀ p, ∃ L, neighbour_chain s.syst fuel
      (cells_fill_and_get_idx_from_particle s.syst p).2 neighbour_offsets = some L ∧ L.Nodup := by
    intro p
    have hi : ∀ d, 0 ≤ (cells_fill_and_get_idx_from_particle s.syst p).2 d ∧
        (cells_fill_and_get_idx_from_particle s.syst p).2 d < s.syst.cells.N_side d :=
      fun d => idx_component_bounds s.syst _ d (le_trans (by norm_num) (hside d))
    obtain ⟨L, hL, hLn, _⟩ := neighbour_chain_once s.syst fuel _ hch _
      (loop_index_nodup s.syst _ hside hi) (loop_index_range s.syst _ hside hN hi)
    exact ⟨L, hL, hLn⟩
  choose nb hnb using hp
  refine ⟨nb, hnb, ?_, ?_⟩
  · intro env p hassert
    have h1 : ¬ (env.NDEBUG = false ∧
        s.vmmcdata.is_in_cluster (s.syst.particles p).index ≠ 1) := by
      rintro ⟨hn, hc⟩
      rcases hassert with h | h
      · rw [hn] at h
        cases h
      · exact hc h
    unfold _populate_possible_links
    simp only []
    rw [if_neg h1]
    exact populate_cells_list fuel p _ _ _ s (hnb p).1
  · intro env hassert
    exact energy_members_sum env s.vmmcdata fuel s.syst nb (fun p => (hnb p).1) _ (0, s.syst)
      (OnlyOverlap.oo_refl _)
      (hassert.elim Or.inl (fun h => Or.inr (fun i hi => h i (List.mem_range.mp hi))))

/-- The cell index of `wrap_pair_state` holds each particle once. -/
theorem wrap_pair_chains_once : ChainsOnce wrap_pair_state.syst 2 := by
  obtain ⟨hside, hN, hheads, _, _⟩ := cells_init_ready wrap_pair [] 3 wrap_pair.cells
  refine cells_fill_chains_once wrap_pair_init (fun i hi => (wrap_pair_indexed i hi).1) ?_ hN hheads
  intro d
  show 1 ≤ (cells_init wrap_pair [] 3 wrap_pair.cells).1.cells.N_side d
  rw [hside d]
  exact le_trans (by norm_num) (le_max_left _ _)

/-- C19 at `wrap_pair_state`, a grid of 3 cells per side, around the cell of the particle
at `(9.9, 0, 0)`: the 27 indices are pairwise different, and the neighbour loops meet the
two particles once each. -/
theorem neighbour_cells_distinct_witness :
    (neighbour_offsets.map (loop_index wrap_pair_state.syst
      (cells_fill_and_get_idx_from_particle wrap_pair_state.syst 1).2)).Nodup ∧
    ∃ L, neighbour_chain wrap_pair_state.syst 2
        (cells_fill_and_get_idx_from_particle wrap_pair_state.syst 1).2 neighbour_offsets
        = some L ∧ L.Nodup ∧ L.length = 2 := by
  have h := neighbour_cells_distinct wrap_pair_state
    (cells_fill_and_get_idx_from_particle wrap_pair_state.syst 1).2
    (by decide!) (by decide!) (by decide!)
  obtain ⟨⟨L, hL, hn, _⟩, _⟩ := h.2.2.2 2 wrap_pair_chains_once
  refine ⟨h.2.1, L, hL, hn, ?_⟩
  have he : neighbour_chain wrap_pair_state.syst 2
      (cells_fill_and_get_idx_from_particle wrap_pair_state.syst 1).2 neighbour_offsets
      = some [1, 0] := by decide!
  rw [he] at hL
  cases hL
  rfl

/-! ## One visit of the neighbour enumeration -/

/-- The body of the `while(q != NULL)` loop of `_populate_possible_links`, case by case. -/
theorem populate_visit_eq (s : State) (p q : Nat) :
    populate_visit s p q =
      if (s.syst.particles q).index ≠ (s.syst.particles p).index then
        if link_dist2 s p q ≤ s.syst.sqr_rcut then
          if s.vmmcdata.n_possible_links ≥ 16 * s.syst.N_max then Except.error Stop.fatal
          else Except.ok { s with
            syst := s.syst.set_particle q
              (nearest_image s.syst (s.syst.particles p) (s.syst.particles q))
            vmmcdata := { s.vmmcdata with
              possible_links := links_with s p q
              n_possible_links :=
                if link_known s p q then s.vmmcdata.n_possible_links
                else s.vmmcdata.n_possible_links + 1 } }
        else Except.ok s
      else Except.ok s := rfl

/-! ## Periodic images of the degrees of freedom -/

theorem ImageOf.congr {box : vector} {n : Nat} {r0 : vector} {pt0 : Nat → vector}
    {r r' : vector} {pt pt' : Nat → vector} (h : ImageOf box n r0 pt0 r pt)
    (hr : r' = r) (hp : ∀ j, j < n → pt' j = pt j) : ImageOf box n r0 pt0 r' pt' := by
  subst hr
  refine ⟨h.1, ?_⟩
  intro j hj d
  rw [hp j hj]
  exact h.2 j hj d

theorem current_image_self (ref : System) (i : Nat) : CurrentImage ref ref i :=
  ⟨fun d => ⟨0, by simp⟩, fun _ _ _ => rfl⟩

theorem store_dof_particle (s : State) (p i : Nat) :
    (s.store_dof p).syst.particles i
      = if i = p then _store_dof (s.syst.particles p) else s.syst.particles i := by
  simp only [State.store_dof, System.set_particle, Function.update_apply]

theorem restore_dof_particle (s : State) (p i : Nat) :
    (s.restore_dof p).syst.particles i
      = if i = p then _restore_dof (s.syst.particles p) else s.syst.particles i := by
  simp only [State.restore_dof, System.set_particle, Function.update_apply]

/-- The call `_store_dof(p)` keeps the current images, makes the snapshot of `p` an image
when `p` is at one, and keeps the snapshots of the others. -/
theorem store_dof_images (ref : System) (s : State) (p : Nat)
    (hn : ref.n_patches ≤ (s.syst.particles p).n_patches) :
    (∀ i, CurrentImage ref s.syst i → CurrentImage ref (s.store_dof p).syst i) ∧
    (CurrentImage ref s.syst p → SnapshotImage ref (s.store_dof p).syst p) ∧
    (∀ i, i ≠ p → SnapshotImage ref s.syst i → SnapshotImage ref (s.store_dof p).syst i) := by
  refine ⟨?_, ?_, ?_⟩
  · intro i h
    unfold CurrentImage
    rw [store_dof_particle]
    by_cases hi : i = p
    · rw [if_pos hi]
      subst hi
      exact h
    · rw [if_neg hi]
      exact h
  · intro h
    unfold SnapshotImage
    rw [store_dof_particle, if_pos rfl]
    refine ImageOf.congr h rfl ?_
    intro j hj
    show (for_loop _ _ _ : Nat → vector) j = _
    rw [for_loop_copy_apply, if_pos (lt_of_lt_of_le hj hn)]
  · intro i hi h
    unfold SnapshotImage
    rw [store_dof_particle, if_neg hi]
    exact h

/-- The call `_restore_dof(p)` keeps the snapshots, puts `p` at an image when its snapshot
is one, and keeps the others where they are. -/
theorem restore_dof_images (ref : System) (s : State) (p : Nat)
    (hn : ref.n_patches ≤ (s.syst.particles p).n_patches) :
    (∀ i, SnapshotImage ref s.syst i → SnapshotImage ref (s.restore_dof p).syst i) ∧
    (SnapshotImage ref s.syst p → CurrentImage ref (s.restore_dof p).syst p) ∧
    (∀ i, i ≠ p → CurrentImage ref s.syst i → CurrentImage ref (s.restore_dof p).syst i) := by
  refine ⟨?_, ?_, ?_⟩
  · intro i h
    unfold SnapshotImage
    rw [restore_dof_particle]
    by_cases hi : i = p
    · rw [if_pos hi]
      subst hi
      exact h
    · rw [if_neg hi]
      exact h
  · intro h
    unfold CurrentImage
    rw [restore_dof_particle, if_pos rfl]
    refine ImageOf.congr h rfl ?_
    intro j hj
    show (for_loop _ _ _ : Nat → vector) j = _
    rw [for_loop_copy_apply, if_pos (lt_of_lt_of_le hj hn)]
  · intro i hi h
    unfold CurrentImage
    rw [restore_dof_particle, if_neg hi]
    exact h

/-- The call `_move_particle(p)` keeps the snapshots and the places of the others. -/
theorem move_particle_images (ref : System) (s : State) (pr : Proposal) (p : Nat) :
    (∀ i, SnapshotImage ref s.syst i → SnapshotImage ref (s.move_particle pr p).syst i) ∧
    (∀ i, i ≠ p → CurrentImage ref s.syst i → CurrentImage ref (s.move_particle pr p).syst i) := by
  refine ⟨?_, ?_⟩
  · intro i h
    unfold SnapshotImage
    show ImageOf _ _ _ _ ((_move_particle s.syst s.vmmcdata p pr.move pr.angle).particles i).r_old
      ((_move_particle s.syst s.vmmcdata p pr.move pr.angle).particles i).patches_old
    by_cases hi : i = p
    · subst hi
      obtain ⟨h1, h2, _⟩ := move_particle_own s.syst s.vmmcdata i pr.move pr.angle
      rw [h1, h2]
      exact h
    · rw [move_particle_other s.syst s.vmmcdata p pr.move pr.angle i hi]
      exact h
  · intro i hi h
    unfold CurrentImage
    show ImageOf _ _ _ _ ((_move_particle s.syst s.vmmcdata p pr.move pr.angle).particles i).r
      ((_move_particle s.syst s.vmmcdata p pr.move pr.angle).particles i).patches
    rw [move_particle_other s.syst s.vmmcdata p pr.move pr.angle i hi]
    exact h

/-- The rewrite of lines 294-302 puts `q` at a periodic image of where it was. -/
theorem nearest_image_of (box : vector) (n : Nat) (r0 : vector) (pt0 : Nat → vector)
    (syst : System) (P Q : PatchyParticle) (hb : syst.box = box) (hn : syst.n_patches = n)
    (h : ImageOf box n r0 pt0 Q.r Q.patches) :
    ImageOf box n r0 pt0 (nearest_image syst P Q).r (nearest_image syst P Q).patches := by
  have hr : ∀ d, (nearest_image syst P Q).r d
      = Q.r d + ((-(rint ((Q.r d - P.r_old d) / syst.box d)) : Int) : ℚ) * box d := by
    intro d
    show P.r_old d + normalized_diff_vector syst P.r_old Q.r d = _
    simp only [normalized_diff_vector, hb]
    push_cast
    ring
  refine ⟨?_, ?_⟩
  · intro d
    obtain ⟨k, hk⟩ := h.1 d
    refine ⟨k + -(rint ((Q.r d - P.r_old d) / syst.box d)), ?_⟩
    rw [hr d, hk]
    push_cast
    ring
  · intro j hj d
    have hp : (nearest_image syst P Q).patches j d
        = (nearest_image syst P Q).r d + (Q.patches j d - Q.r d) := by
      show for_loop syst.n_patches _ Q.patches j d = _
      rw [for_loop_update_apply, if_pos (by rw [hn]; exact hj)]
      rw [for_loop_update_apply, if_neg (lt_irrefl j)]
      rfl
    rw [hp, ← h.2 j hj d]
    ring

theorem nearest_image_fields (syst : System) (P Q : PatchyParticle) :
    (nearest_image syst P Q).index = Q.index ∧ (nearest_image syst P Q).n_patches = Q.n_patches ∧
    (nearest_image syst P Q).r_old = Q.r_old ∧ (nearest_image syst P Q).patches_old = Q.patches_old ∧
    (nearest_image syst P Q).cell = Q.cell ∧ (nearest_image syst P Q).cell_old = Q.cell_old :=
  ⟨rfl, rfl, rfl, rfl, rfl, rfl⟩

/-- What one visit does to the particles: nothing, or the rewrite of `q`. -/
theorem populate_visit_syst (s s' : State) (p q : Nat)
    (h : populate_visit s p q = Except.ok s') :
    s'.syst = s.syst ∨
      ((s.syst.particles q).index ≠ (s.syst.particles p).index ∧
        link_dist2 s p q ≤ s.syst.sqr_rcut ∧
        s'.syst = s.syst.set_particle q
          (nearest_image s.syst (s.syst.particles p) (s.syst.particles q))) := by
  rw [populate_visit_eq] at h
  by_cases h1 : (s.syst.particles q).index ≠ (s.syst.particles p).index
  · rw [if_pos h1] at h
    by_cases h2 : link_dist2 s p q ≤ s.syst.sqr_rcut
    · rw [if_pos h2] at h
      by_cases h3 : s.vmmcdata.n_possible_links ≥ 16 * s.syst.N_max
      · rw [if_pos h3] at h
        cases h
      · rw [if_neg h3] at h
        cases h
        exact Or.inr ⟨h1, h2, rfl⟩
    · rw [if_neg h2] at h
      cases h
      exact Or.inl rfl
  · rw [if_neg h1] at h
    cases h
    exact Or.inl rfl

theorem populate_visit_images (ref : System) (s s' : State) (p q : Nat)
    (hst : Static ref s.syst) (h : populate_visit s p q = Except.ok s') :
    (∀ i, CurrentImage ref s.syst i → CurrentImage ref s'.syst i) ∧
    (∀ i, SnapshotImage ref s.syst i → SnapshotImage ref s'.syst i) ∧
    s'.syst.particles p = s.syst.particles p := by
  rcases populate_visit_syst s s' p q h with he | ⟨hne, _, he⟩
  · rw [he]
    exact ⟨fun _ h => h, fun _ h => h, rfl⟩
  · rw [he]
    have hqp : p ≠ q := by
      intro hpq
      rw [hpq] at hne
      exact hne rfl
    refine ⟨?_, ?_, ?_⟩
    · intro i hi
      unfold CurrentImage
      simp only [System.set_particle, Function.update_apply]
      by_cases hq : i = q
      · rw [if_pos hq]
        subst hq
        exact nearest_image_of _ _ _ _ s.syst _ _ hst.2.2.1 hst.2.2.2.1 hi
      · rw [if_neg hq]
        exact hi
    · intro i hi
      unfold SnapshotImage
      simp only [System.set_particle, Function.update_apply]
      by_cases hq : i = q
      · rw [if_pos hq]
        subst hq
        exact hi
      · rw [if_neg hq]
        exact hi
    · simp only [System.set_particle, Function.update_noteq hqp]

theorem populate_chain_images (ref : System) (p : Nat) :
    ∀ (fuel : Nat) (q : Option Nat) (s s' : State), Static ref s.syst →
      populate_chain p fuel q s = Except.ok s' →
      (∀ i, CurrentImage ref s.syst i → CurrentImage ref s'.syst i) ∧
      (∀ i, SnapshotImage ref s.syst i → SnapshotImage ref s'.syst i) ∧
      s'.syst.particles p = s.syst.particles p := by
  intro fuel
  induction fuel with
  | zero =>
    intro q s s' _ h
    cases q with
    | none =>
      simp only [populate_chain] at h
      cases h
      exact ⟨fun _ h => h, fun _ h => h, rfl⟩
    | some a => simp [populate_chain] at h
  | succ n ih =>
    intro q s s' hst h
    cases q with
    | none =>
      simp only [populate_chain] at h
      cases h
      exact ⟨fun _ h => h, fun _ h => h, rfl⟩
    | some a =>
      simp only [populate_chain] at h
      split at h
      · cases h
      · rename_i s1 hv
        obtain ⟨a1, a2, a3⟩ := populate_visit_images ref _ _ _ _ hst hv
        obtain ⟨b1, b2, b3⟩ := ih _ _ _ (hst.st_trans (populate_visit_calm _ _ _ _ hv).1) h
        exact ⟨fun i hi => b1 i (a1 i hi), fun i hi => b2 i (a2 i hi), b3.trans a3⟩

theorem populate_cells_images (ref : System) (fuel p : Nat) (ind : Fin 3 → Int) :
    ∀ (os : List (Int × Int × Int)) (s s' : State), Static ref s.syst →
      populate_cells fuel p ind os s = Except.ok s' →
      (∀ i, CurrentImage ref s.syst i → CurrentImage ref s'.syst i) ∧
      (∀ i, SnapshotImage ref s.syst i → SnapshotImage ref s'.syst i) ∧
      s'.syst.particles p = s.syst.particles p := by
  intro os
  induction os with
  | nil =>
    intro s s' _ h
    simp only [populate_cells] at h
    cases h
    exact ⟨fun _ h => h, fun _ h => h, rfl⟩
  | cons o os ih =>
    intro s s' hst h
    simp only [populate_cells] at h
    split at h
    · cases h
    · rename_i s1 hc
      obtain ⟨a1, a2, a3⟩ := populate_chain_images ref p _ _ _ _ hst hc
      obtain ⟨b1, b2, b3⟩ := ih _ _ (hst.st_trans (populate_chain_calm _ _ _ _ _ hc).1) h
      exact ⟨fun i hi => b1 i (a1 i hi), fun i hi => b2 i (a2 i hi), b3.trans a3⟩

theorem populate_links_images (ref : System) (env : Env) (fuel : Nat) (s s' : State) (p : Nat)
    (hst : Static ref s.syst) (h : _populate_possible_links env fuel s p = Except.ok s') :
    (∀ i, CurrentImage ref s.syst i → CurrentImage ref s'.syst i) ∧
    (∀ i, SnapshotImage ref s.syst i → SnapshotImage ref s'.syst i) ∧
    s'.syst.particles p = s.syst.particles p := by
  unfold _populate_possible_links at h
  split_ifs at h
  exact populate_cells_images ref _ _ _ _ _ _ hst h

/-- The enumeration around `p` (store, enumerate, move, enumerate, restore) from a state
in which `p` is at an image: every particle at an image stays at one, every snapshot that
is an image stays one, and the snapshot of `p` is one. -/
theorem links_around_images (ref : System) (env : Env) (fuel : Nat) (pr : Proposal)
    (s s' : State) (p : Nat) (hst : Static ref s.syst)
    (hnp : ∀ i, (ref.particles i).n_patches = ref.n_patches)
    (hp : CurrentImage ref s.syst p)
    (h : vmmc_links_around env fuel pr s p = Except.ok s') :
    (∀ i, CurrentImage ref s.syst i → CurrentImage ref s'.syst i) ∧
    (∀ i, SnapshotImage ref s.syst i → SnapshotImage ref s'.syst i) ∧
    SnapshotImage ref s'.syst p := by
  obtain ⟨s1, s2, h1, h2, rfl⟩ := links_around_steps env fuel pr s s' p h
  have hn0 : ref.n_patches ≤ (s.syst.particles p).n_patches := by
    rw [(hst.2.2.2.2.2.2 p).2, hnp p]
  obtain ⟨a1, a2, a3⟩ := store_dof_images ref s p hn0
  have st0 : Static ref (s.store_dof p).syst := hst.st_trans (store_dof_calm s p).1
  obtain ⟨b1, b2, _⟩ := populate_links_images ref env fuel _ s1 p st0 h1
  have st1 : Static ref s1.syst := st0.st_trans (populate_links_calm _ _ _ _ _ h1).1
  obtain ⟨c1, c2⟩ := move_particle_images ref s1 pr p
  have st2 : Static ref (s1.move_particle pr p).syst := st1.st_trans (move_particle_calm s1 pr p).1
  obtain ⟨d1, d2, _⟩ := populate_links_images ref env fuel _ s2 p st2 h2
  have st3 : Static ref s2.syst := st2.st_trans (populate_links_calm _ _ _ _ _ h2).1
  have hn3 : ref.n_patches ≤ (s2.syst.particles p).n_patches := by
    rw [(st3.2.2.2.2.2.2 p).2, hnp p]
  obtain ⟨e1, e2, e3⟩ := restore_dof_images ref s2 p hn3
  have hsnap : SnapshotImage ref s2.syst p := d2 p (c1 p (b2 p (a2 hp)))
  refine ⟨?_, ?_, e1 p hsnap⟩
  · intro i hi
    by_cases hip : i = p
    · subst hip
      exact e2 hsnap
    · exact e3 i hip (d1 i (c2 i hip (b1 i (a1 i hi))))
  · intro i hi
    by_cases hip : i = p
    · subst hip
      exact e1 i hsnap
    · exact e1 i (d2 i (c1 i (b2 i (a3 i hip hi))))

theorem only_overlap_images (ref : System) (a b : System) (h : OnlyOverlap a b) :
    (∀ i, CurrentImage ref a i → CurrentImage ref b i) ∧
    (∀ i, SnapshotImage ref a i → SnapshotImage ref b i) := by
  obtain ⟨o, rfl⟩ := h
  exact ⟨fun _ h => h, fun _ h => h⟩

/-- A virtual move of `x` (store, move, pair energy, restore) from a state in which `x`
is at an image. -/
theorem virtual_move_images (ref : System) (env : Env) (pr : Proposal) (s : State)
    (p q x : Nat) (hst : Static ref s.syst)
    (hnp : ∀ i, (ref.particles i).n_patches = ref.n_patches)
    (hx : CurrentImage ref s.syst x) :
    (∀ i, CurrentImage ref s.syst i →
      CurrentImage ref (vmmc_virtual_move env pr s p q x).2.2.syst i) ∧
    (∀ i, SnapshotImage ref s.syst i →
      SnapshotImage ref (vmmc_virtual_move env pr s p q x).2.2.syst i) ∧
    SnapshotImage ref (vmmc_virtual_move env pr s p q x).2.2.syst x := by
  have hn0 : ref.n_patches ≤ (s.syst.particles x).n_patches := by
    rw [(hst.2.2.2.2.2.2 x).2, hnp x]
  obtain ⟨a1, a2, a3⟩ := store_dof_images ref s x hn0
  obtain ⟨c1, c2⟩ := move_particle_images ref (s.store_dof x) pr x
  obtain ⟨o1, o2⟩ := only_overlap_images ref _ _
    (pair_energy_only_overlap env ((s.store_dof x).move_particle pr x).syst p q)
  have st2 : Static ref ({ (s.store_dof x).move_particle pr x with
      syst := (_pair_energy env ((s.store_dof x).move_particle pr x).syst p q).2 } : State).syst :=
    ((hst.st_trans (store_dof_calm s x).1).st_trans
      (move_particle_calm (s.store_dof x) pr x).1).st_trans
      (pair_energy_only_overlap env ((s.store_dof x).move_particle pr x).syst p q).static
  have hn3 : ref.n_patches ≤ (({ (s.store_dof x).move_particle pr x with
      syst := (_pair_energy env ((s.store_dof x).move_particle pr x).syst p q).2 } :
      State).syst.particles x).n_patches := by
    rw [(st2.2.2.2.2.2.2 x).2, hnp x]
  obtain ⟨e1, e2, e3⟩ := restore_dof_images ref
    ({ (s.store_dof x).move_particle pr x with
      syst := (_pair_energy env ((s.store_dof x).move_particle pr x).syst p q).2 } : State) x hn3
  have hsnap := o2 x (c1 x (a2 hx))
  refine ⟨?_, ?_, e1 x hsnap⟩
  · intro i hi
    by_cases hix : i = x
    · subst hix
      exact e2 hsnap
    · exact e3 i hix (o1 i (c2 i hix (a1 i hi)))
  · intro i hi
    by_cases hix : i = x
    · subst hix
      exact e1 i hsnap
    · exact e1 i (o2 i (c1 i (a3 i hix hi)))

/-! ## The recruitment keeps the state ready for a rollback -/

theorem Rollable.step {ref : System} {s s' : State} (h : Rollable ref s)
    (hst : Static s.syst s'.syst)
    (hc : ∀ i, CurrentImage ref s.syst i → CurrentImage ref s'.syst i)
    (hs : ∀ i, SnapshotImage ref s.syst i → SnapshotImage ref s'.syst i)
    (r2 : s'.vmmcdata.clust = s.vmmcdata.clust)
    (r3 : s'.vmmcdata.n_clust = s.vmmcdata.n_clust) : Rollable ref s' := by
  refine ⟨h.1.st_trans hst, fun i => hc i (h.2.1 i), ?_⟩
  intro k hk
  rw [r2]
  rw [r3] at hk
  exact hs _ (h.2.2 k hk)

theorem Rollable.same_system {ref : System} {s s' : State} (h : Rollable ref s)
    (hp : s'.syst = s.syst) (r2 : s'.vmmcdata.clust = s.vmmcdata.clust)
    (r3 : s'.vmmcdata.n_clust = s.vmmcdata.n_clust) : Rollable ref s' := by
  refine h.step ?_ ?_ ?_ r2 r3
  · rw [hp]
    exact Static.st_refl _
  · intro i hi
    unfold CurrentImage
    rw [hp]
    exact hi
  · intro i hi
    unfold SnapshotImage
    rw [hp]
    exact hi

theorem Rollable.only_overlap {ref : System} {s : State} (h : Rollable ref s)
    (syst' : System) (ho : OnlyOverlap s.syst syst') : Rollable ref { s with syst := syst' } :=
  h.step ho.static (only_overlap_images ref _ _ ho).1 (only_overlap_images ref _ _ ho).2 rfl rfl

theorem Rollable.links_around {ref : System} {s s' : State} (h : Rollable ref s)
    (hnp : ∀ i, (ref.particles i).n_patches = ref.n_patches)
    (env : Env) (fuel : Nat) (pr : Proposal) (p : Nat)
    (hl : vmmc_links_around env fuel pr s p = Except.ok s') : Rollable ref s' := by
  obtain ⟨a1, a2, _⟩ := links_around_images ref env fuel pr s s' p h.1 hnp (h.2.1 p) hl
  have hr := links_around_related env fuel pr s s' p hl
  exact h.step (links_around_calm env fuel pr s s' p hl).1 a1 a2 hr.2.1 hr.2.2.1

theorem Rollable.virtual_move {ref : System} {s : State} (h : Rollable ref s)
    (hnp : ∀ i, (ref.particles i).n_patches = ref.n_patches)
    (env : Env) (pr : Proposal) (p q x : Nat) :
    Rollable ref (vmmc_virtual_move env pr s p q x).2.2 ∧
      SnapshotImage ref (vmmc_virtual_move env pr s p q x).2.2.syst x := by
  obtain ⟨a1, a2, a3⟩ := virtual_move_images ref env pr s p q x h.1 hnp (h.2.1 x)
  exact ⟨h.step (virtual_move_calm env pr s p q x).1 a1 a2 rfl rfl, a3⟩

theorem Rollable.decide {ref : System} {s : State} (h : Rollable ref s)
    (env : Env) (force : Int) (prob : ℚ) : Rollable ref (vmmc_decide env force prob s).2 := by
  obtain ⟨_, hv, hs⟩ := decide_calm env force prob s
  exact h.same_system hs (by rw [hv]) (by rw [hv])

theorem Rollable.recruit {ref : System} {s : State} (h : Rollable ref s) (q : Nat)
    (hq : SnapshotImage ref s.syst q) : Rollable ref (vmmc_recruit s q) := by
  refine ⟨h.1, h.2.1, ?_⟩
  intro k hk
  have hk' : k < s.vmmcdata.n_clust + 1 := hk
  show SnapshotImage ref s.syst (Function.update s.vmmcdata.clust s.vmmcdata.n_clust q k)
  by_cases hkn : k = s.vmmcdata.n_clust
  · rw [hkn, Function.update_same]
    exact hq
  · rw [Function.update_noteq hkn]
    exact h.2.2 k (by omega)

theorem Rollable.offer {ref : System} {s s' : State} (h : Rollable ref s)
    (hnp : ∀ i, (ref.particles i).n_patches = ref.n_patches)
    (env : Env) (fuel : Nat) (pr : Proposal) (p q : Nat) (E_old p1 : ℚ)
    (ho : vmmc_offer env fuel pr s p q E_old p1 = Except.ok s') : Rollable ref s' := by
  obtain ⟨force, prob, hc⟩ := offer_cases env fuel pr s s' p q E_old p1 ho
  obtain ⟨hv, hsnap⟩ := h.virtual_move hnp env pr p q q
  have hd := hv.decide env force prob
  have hsnap' : SnapshotImage ref
      (vmmc_decide env force prob (vmmc_virtual_move env pr s p q q).2.2).2.syst q := by
    unfold SnapshotImage
    rw [(decide_calm env force prob _).2.2]
    exact hsnap
  rcases hc with hl | hp
  · exact (hd.recruit q hsnap').links_around hnp env fuel pr q hl
  · rw [hp]
    exact hd.same_system rfl rfl rfl

theorem Rollable.drop_link {ref : System} {s : State} (h : Rollable ref s) (link_index : Nat) :
    Rollable ref (drop_link s link_index) :=
  h.same_system rfl rfl rfl

theorem Rollable.try_link {ref : System} {s s' : State} (h : Rollable ref s)
    (hnp : ∀ i, (ref.particles i).n_patches = ref.n_patches)
    (env : Env) (fuel : Nat) (pr : Proposal) (link_index p q : Nat)
    (ht : vmmc_try_link env fuel pr s link_index p q = Except.ok s') : Rollable ref s' := by
  obtain ⟨force, prob, hc⟩ := try_link_cases env fuel pr s s' link_index p q ht
  have h1 : Rollable ref { s with syst := (_pair_energy env s.syst p q).2 } :=
    h.only_overlap _ (pair_energy_only_overlap env s.syst p q)
  have hd := ((h1.virtual_move hnp env pr p q p).1).decide env force prob
  rcases hc with ⟨E, pp, s5, ho, rfl⟩ | rfl
  · exact (hd.offer hnp env fuel pr p q E pp ho).drop_link _
  · exact hd.drop_link _

theorem Rollable.recruit_body {ref : System} {s s' : State} (h : Rollable ref s)
    (hnp : ∀ i, (ref.particles i).n_patches = ref.n_patches)
    (env : Env) (fuel : Nat) (pr : Proposal)
    (hb : vmmc_recruit_body env fuel pr s = Except.ok s') : Rollable ref s' := by
  have h0 : Rollable ref { s with draws := s.draws + 1 } := h.same_system rfl rfl rfl
  rcases recruit_body_cases env fuel pr s s' hb with rfl | ⟨p, q, ht⟩
  · exact h0.drop_link _
  · exact h0.try_link hnp env fuel pr _ p q ht

/-- At every evaluation of the condition of the recruitment loop the state can be rolled
back to the system in which `VMMC_dynamics` started. -/
theorem loop_head_rollable (env : Env) (fuel : Nat) (s0 s : State)
    (hnp : ∀ i, (s0.syst.particles i).n_patches = s0.syst.n_patches)
    (h : LoopHead env fuel s0 s) : Rollable s0.syst s := by
  induction h with
  | first s hl =>
    obtain ⟨hst, _, hp, _⟩ := vmmc_start_static env s0
    have hcur : ∀ i, CurrentImage s0.syst (vmmc_start env s0).1.syst i := by
      intro i
      unfold CurrentImage
      rw [hp]
      exact current_image_self s0.syst i
    obtain ⟨a1, _, a3⟩ := links_around_images s0.syst env fuel _ _ s _ hst hnp (hcur _) hl
    have hr := links_around_related env fuel _ _ s _ hl
    refine ⟨hst.st_trans (links_around_calm env fuel _ _ s _ hl).1, fun i => a1 i (hcur i), ?_⟩
    intro k hk
    rw [hr.2.2.1, (vmmc_start_cluster env s0).1] at hk
    have hk0 : k = 0 := by omega
    rw [hk0, hr.2.1]
    exact a3
  | next s s' _ _ hb ih => exact ih.recruit_body hnp env fuel _ hb

/-! ## The commit stage and the rollback -/

theorem energy_chain_only_overlap (env : Env) (vm : vmmc_d) (p : Nat) :
    ∀ (fuel : Nat) (q : Option Nat) (acc acc' : ℚ × System),
      energy_chain env vm p fuel q acc = Except.ok acc' → OnlyOverlap acc.2 acc'.2 := by
  intro fuel
  induction fuel with
  | zero =>
    intro q acc acc' h
    cases q with
    | none =>
      simp only [energy_chain] at h
      cases h
      exact OnlyOverlap.oo_refl _
    | some a => simp [energy_chain] at h
  | succ n ih =>
    intro q acc acc' h
    cases q with
    | none =>
      simp only [energy_chain] at h
      cases h
      exact OnlyOverlap.oo_refl _
    | some a =>
      simp only [energy_chain] at h
      exact (energy_visit_only_overlap env vm p acc a).oo_trans (ih _ _ _ h)

theorem energy_cells_only_overlap (env : Env) (vm : vmmc_d) (fuel p : Nat) (ind : Fin 3 → Int) :
    ∀ (os : List (Int × Int × Int)) (acc acc' : ℚ × System),
      energy_cells env vm fuel p ind os acc = Except.ok acc' → OnlyOverlap acc.2 acc'.2 := by
  intro os
  induction os with
  | nil =>
    intro acc acc' h
    simp only [energy_cells] at h
    cases h
    exact OnlyOverlap.oo_refl _
  | cons o os ih =>
    intro acc acc' h
    simp only [energy_cells] at h
    split at h
    · cases h
    · rename_i acc1 hc
      exact (energy_chain_only_overlap _ _ _ _ _ _ _ hc).oo_trans (ih _ _ h)

theorem energy_members_only_overlap (env : Env) (vm : vmmc_d) (fuel : Nat) :
    ∀ (is : List Nat) (acc acc' : ℚ × System),
      energy_members env vm fuel is acc = Except.ok acc' → OnlyOverlap acc.2 acc'.2 := by
  intro is
  induction is with
  | nil =>
    intro acc acc' h
    simp only [energy_members] at h
    cases h
    exact OnlyOverlap.oo_refl _
  | cons i is ih =>
    intro acc acc' h
    simp only [energy_members] at h
    split_ifs at h
    split at h
    · cases h
    · rename_i acc1 hc
      exact (energy_cells_only_overlap _ _ _ _ _ _ _ _ hc).oo_trans (ih _ _ h)

theorem compute_cluster_energy_only_overlap (env : Env) (fuel : Nat) (s : State)
    (r : ℚ × System) (h : _compute_cluster_energy env fuel s = Except.ok r) :
    OnlyOverlap s.syst r.2 :=
  energy_members_only_overlap env _ fuel _ _ _ h

/-- The first energy sum changes the flag `overlap` at most. -/
theorem vmmc_energy_before_only_overlap (env : Env) (fuel : Nat) (s : State) (b : ℚ × State)
    (h : vmmc_energy_before env fuel s = Except.ok b) :
    OnlyOverlap s.syst b.2.syst ∧ b.2.vmmcdata = s.vmmcdata ∧ b.2.draws = s.draws := by
  simp only [vmmc_energy_before] at h
  split_ifs at h
  · split at h
    · cases h
    · rename_i r hr
      split_ifs at h
      cases h
      exact ⟨compute_cluster_energy_only_overlap _ _ _ _ hr, rfl, rfl⟩
  · cases h
    exact ⟨OnlyOverlap.oo_refl _, rfl, rfl⟩

/-- What `MC_change_cell` leaves alone: the parameters and every degree of freedom. -/
theorem change_cell_dof (fuel : Nat) (syst syst' : System) (p : Nat)
    (h : MC_change_cell fuel syst p = Except.ok syst') :
    Static syst syst' ∧
    ∀ i, (syst'.particles i).r = (syst.particles i).r ∧
      (syst'.particles i).patches = (syst.particles i).patches ∧
      (syst'.particles i).r_old = (syst.particles i).r_old ∧
      (syst'.particles i).patches_old = (syst.particles i).patches_old := by
  simp only [MC_change_cell] at h
  split_ifs at h
  · cases h
    exact ⟨Static.st_refl _, fun _ => ⟨rfl, rfl, rfl, rfl⟩⟩
  · split at h
    · cases h
    · cases h
      refine ⟨⟨rfl, rfl, rfl, rfl, rfl, rfl, ?_⟩, ?_⟩
      · intro i
        by_cases hi : i = p
        · rw [hi]
          simp
        · simp [Function.update_noteq hi]
      · intro i
        by_cases hi : i = p
        · rw [hi]
          simp
        · simp [Function.update_noteq hi]

theorem change_cell_images (ref : System) (fuel : Nat) (syst syst' : System) (p : Nat)
    (h : MC_change_cell fuel syst p = Except.ok syst') :
    (∀ i, CurrentImage ref syst i → CurrentImage ref syst' i) ∧
    (∀ i, SnapshotImage ref syst i → SnapshotImage ref syst' i) := by
  obtain ⟨_, hd⟩ := change_cell_dof fuel syst syst' p h
  constructor
  · intro i hi
    unfold CurrentImage
    rw [(hd i).1, (hd i).2.1]
    exact hi
  · intro i hi
    unfold SnapshotImage
    rw [(hd i).2.2.1, (hd i).2.2.2]
    exact hi

/-- One pass of the loop at lines 200-211 up to the test of `max_move`: the state after
`_store_dof`, `_move_particle` and `MC_change_cell`. -/
theorem apply_pass_images (ref : System)
    (hnp : ∀ i, (ref.particles i).n_patches = ref.n_patches)
    (fuel : Nat) (pr : Proposal) (s : State) (p : Nat) (syst2 : System)
    (hst : Static ref s.syst) (hp : CurrentImage ref s.syst p)
    (hc : MC_change_cell fuel ((s.store_dof p).move_particle pr p).syst p = Except.ok syst2) :
    Static ref syst2 ∧
    (∀ x, x ≠ p → CurrentImage ref s.syst x → CurrentImage ref syst2 x) ∧
    (∀ x, SnapshotImage ref s.syst x → SnapshotImage ref syst2 x) ∧
    SnapshotImage ref syst2 p := by
  have hn0 : ref.n_patches ≤ (s.syst.particles p).n_patches := by
    rw [(hst.2.2.2.2.2.2 p).2, hnp p]
  obtain ⟨a1, a2, a3⟩ := store_dof_images ref s p hn0
  obtain ⟨c1, c2⟩ := move_particle_images ref (s.store_dof p) pr p
  obtain ⟨d1, d2⟩ := change_cell_images ref fuel _ syst2 p hc
  have hsnap : SnapshotImage ref syst2 p := d2 p (c1 p (a2 hp))
  refine ⟨((hst.st_trans (store_dof_calm s p).1).st_trans
    (move_particle_calm (s.store_dof p) pr p).1).st_trans (change_cell_dof _ _ _ _ hc).1,
    ?_, ?_, hsnap⟩
  · intro x hx hi
    exact d1 x (c2 x hx (a1 x hi))
  · intro x hi
    by_cases hx : x = p
    · subst hx
      exact hsnap
    · exact d2 x (c1 x (a3 x hx hi))

/-- The loop at lines 200-211, however it ends: the particles outside the cluster are at
images, and the snapshots of all members are images. -/
theorem vmmc_apply_images (ref : System)
    (hnp : ∀ i, (ref.particles i).n_patches = ref.n_patches) (fuel : Nat) (pr : Proposal) :
    ∀ (todo i : Nat) (s : State) (r : State × Bool),
      vmmc_apply fuel pr todo i s = Except.ok r →
      Static ref s.syst →
      i + todo ≤ s.vmmcdata.n_clust →
      (∀ k k', k < s.vmmcdata.n_clust → k' < s.vmmcdata.n_clust →
        s.vmmcdata.clust k = s.vmmcdata.clust k' → k = k') →
      (∀ x, (∀ k, k < i → s.vmmcdata.clust k ≠ x) → CurrentImage ref s.syst x) →
      (∀ k, k < s.vmmcdata.n_clust → SnapshotImage ref s.syst (s.vmmcdata.clust k)) →
      Static ref r.1.syst ∧ r.1.vmmcdata = s.vmmcdata ∧
      (∀ x, (∀ k, k < s.vmmcdata.n_clust → s.vmmcdata.clust k ≠ x) →
        CurrentImage ref r.1.syst x) ∧
      (∀ k, k < s.vmmcdata.n_clust → SnapshotImage ref r.1.syst (s.vmmcdata.clust k)) := by
  intro todo
  induction todo with
  | zero =>
    intro i s r h hst hle _ hcur hsnap
    simp only [vmmc_apply] at h
    cases h
    exact ⟨hst, rfl, fun x hx => hcur x (fun k hk => hx k (by omega)), hsnap⟩
  | succ n ih =>
    intro i s r h hst hle hdist hcur hsnap
    simp only [vmmc_apply] at h
    split at h
    · cases h
    · rename_i syst2 hc
      have hi : i < s.vmmcdata.n_clust := by omega
      have hp : CurrentImage ref s.syst (s.vmmcdata.clust i) := by
        apply hcur
        intro k hk he
        have := hdist k i (by omega) hi he
        omega
      obtain ⟨b1, b2, b3, b4⟩ := apply_pass_images ref hnp fuel pr s _ syst2 hst hp hc
      have hcur2 : ∀ x, (∀ k, k < i + 1 → s.vmmcdata.clust k ≠ x) → CurrentImage ref syst2 x := by
        intro x hx
        exact b2 x (fun he => hx i (by omega) he.symm)
          (hcur x (fun k hk => hx k (by omega)))
      have hsnap2 : ∀ k, k < s.vmmcdata.n_clust →
          SnapshotImage ref syst2 (s.vmmcdata.clust k) := fun k hk => b3 _ (hsnap k hk)
      split_ifs at h
      · cases h
        exact ⟨b1, rfl, fun x hx => hcur2 x (fun k hk => hx k (by omega)), hsnap2⟩
      · exact ih (i + 1)
          { (s.store_dof (s.vmmcdata.clust i)).move_particle pr (s.vmmcdata.clust i) with
            syst := syst2 } r h b1 (by show i + 1 + n ≤ s.vmmcdata.n_clust; omega) hdist hcur2 hsnap2

/-- The loop at lines 219-222 puts every member of the cluster back at an image. -/
theorem restore_loop_images (ref : System)
    (hnp : ∀ i, (ref.particles i).n_patches = ref.n_patches) (s : State)
    (hst : Static ref s.syst)
    (hcur : ∀ x, (∀ k, k < s.vmmcdata.n_clust → s.vmmcdata.clust k ≠ x) →
      CurrentImage ref s.syst x)
    (hsnap : ∀ k, k < s.vmmcdata.n_clust → SnapshotImage ref s.syst (s.vmmcdata.clust k)) :
    ∀ j, j ≤ s.vmmcdata.n_clust →
      Static ref (for_loop j (fun i s => s.restore_dof (s.vmmcdata.clust i)) s).syst ∧
      (for_loop j (fun i s => s.restore_dof (s.vmmcdata.clust i)) s).vmmcdata = s.vmmcdata ∧
      (∀ x, ((∃ k, k < j ∧ s.vmmcdata.clust k = x) ∨
          (∀ k, k < s.vmmcdata.n_clust → s.vmmcdata.clust k ≠ x)) →
        CurrentImage ref (for_loop j (fun i s => s.restore_dof (s.vmmcdata.clust i)) s).syst x) ∧
      (∀ k, k < s.vmmcdata.n_clust →
        SnapshotImage ref (for_loop j (fun i s => s.restore_dof (s.vmmcdata.clust i)) s).syst
          (s.vmmcdata.clust k)) := by
  intro j
  induction j with
  | zero =>
    intro _
    refine ⟨hst, rfl, ?_, hsnap⟩
    intro x hx
    rcases hx with ⟨k, hk, _⟩ | hx
    · omega
    · exact hcur x hx
  | succ j ih =>
    intro hj
    obtain ⟨a1, a2, a3, a4⟩ := ih (by omega)
    rw [for_loop_succ]
    rw [a2]
    have hn : ref.n_patches ≤
        ((for_loop j (fun i s => s.restore_dof (s.vmmcdata.clust i)) s).syst.particles
          (s.vmmcdata.clust j)).n_patches := by
      rw [(a1.2.2.2.2.2.2 _).2, hnp _]
    obtain ⟨e1, e2, e3⟩ := restore_dof_images ref _ (s.vmmcdata.clust j) hn
    refine ⟨a1.st_trans (restore_dof_calm _ _).1, a2, ?_, fun k hk => e1 _ (a4 k hk)⟩
    intro x hx
    by_cases hxj : x = s.vmmcdata.clust j
    · rw [hxj]
      exact e2 (a4 j (by omega))
    · apply e3 x hxj
      apply a3
      rcases hx with ⟨k, hk, he⟩ | hx
      · left
        refine ⟨k, ?_, he⟩
        by_contra hkj
        have : k = j := by omega
        rw [this] at he
        exact hxj he.symm
      · exact Or.inr hx

theorem vmmc_cleanup_images (ref : System) (fuel : Nat) :
    ∀ (is : List Nat) (s s' : State), vmmc_cleanup fuel is s = Except.ok s' →
      (∀ i, CurrentImage ref s.syst i → CurrentImage ref s'.syst i) := by
  intro is
  induction is with
  | nil =>
    intro s s' h
    simp only [vmmc_cleanup] at h
    cases h
    exact fun _ h => h
  | cons i is ih =>
    intro s s' h
    simp only [vmmc_cleanup] at h
    split at h
    · cases h
    · rename_i syst1 hc
      intro x hx
      exact ih _ _ h x ((change_cell_images ref fuel _ syst1 _ hc).1 x hx)

/-- The stages of a rejected trial: the first energy sum, then the loop at lines 200-211,
whose final state is the one in which the commit decision is taken. -/
theorem vmmc_trial_reject (env : Env) (fuel : Nat) (pr : Proposal) (s : State) (t : Trial)
    (h : vmmc_trial env fuel pr s = Except.ok t) (hrej : t.force_reject = 1) :
    ∃ (b : ℚ × State) (m : State × Bool),
      vmmc_energy_before env fuel s = Except.ok b ∧
      vmmc_apply fuel pr b.2.vmmcdata.n_clust 0 b.2 = Except.ok m ∧ t.s = m.1 := by
  simp only [vmmc_trial] at h
  split at h
  · cases h
  · rename_i b hb
    split at h
    · cases h
    · rename_i m hm
      split_ifs at h with hfr
      · split at h
        · cases h
        · split_ifs at h
          cases h
          rw [hfr] at hrej
          have h01 : (0 : Int) ≠ 1 := by decide
          exact absurd hrej h01
      · cases h
        exact ⟨b, m, hb, hm, rfl⟩

theorem cells_fill_static (syst : System) : Static syst (cells_fill syst) := by
  have key : ∀ k, Static syst (for_loop k cells_fill_body syst) := by
    intro k
    induction k with
    | zero => exact Static.st_refl _
    | succ k ih =>
      rw [for_loop_succ]
      refine ih.st_trans ⟨rfl, rfl, rfl, rfl, rfl, rfl, ?_⟩
      intro j
      by_cases hj : j = k
      · subst hj
        simp [cells_fill_body]
      · simp [cells_fill_body, Function.update_noteq hj]
  exact key _

/-- A run whose accepted counter did not move took its commit decision with
`force_reject = 1`. -/
theorem rejected_force_reject (env : Env) (fuel : Nat) (s0 s' : State)
    (b : State × Proposal) (t : Trial)
    (hb : vmmc_build env fuel s0 = Except.ok b)
    (ht : vmmc_trial env fuel b.2 b.1 = Except.ok t)
    (hc : vmmc_cleanup fuel (List.range (vmmc_commit t).vmmcdata.n_clust) (vmmc_commit t)
      = Except.ok s') :
    (t.force_reject = 1 → s'.syst.accepted = s0.syst.accepted) ∧
    (t.force_reject = 0 → s'.syst.accepted = s0.syst.accepted + 1) ∧
    (t.force_reject = 0 ∨ t.force_reject = 1) := by
  obtain ⟨hhead, _, _⟩ := vmmc_build_head env fuel s0 b hb
  have h1 := (loop_head_kept env fuel s0 b.1 hhead).2.2
  obtain ⟨hrel, hval⟩ := vmmc_trial_related env fuel b.2 b.1 t ht
  have h2 := hrel.2.2.2.2.2
  obtain ⟨_, _, _, _, c1, c0⟩ := vmmc_commit_effect t
  have h3 := (vmmc_cleanup_effect fuel _ _ _ hc).1.2.2
  refine ⟨?_, ?_, hval⟩
  · intro h
    rw [h3, (c1 h).2, h2, h1]
  · intro h
    rw [h3, (c0 h).2, h2, h1]

/-- C11. Rollback is exact up to periodic images: when `VMMC_dynamics` starts with
`is_in_cluster` identically zero and every particle has the `n_patches` of the system,
then after every run that returns without incrementing the accepted counter (whichever
constraint set `force_reject`, the early end of the loop at lines 200-211 included) every
particle has `r[d]` equal to its value before the call plus an integer multiple of
`box[d]`, and every offset `patches[j] - r` equal to its value before the call. -/
theorem rollback_exact_up_to_images (env : Env) (fuel : Nat) (s0 s' : State)
    (h0 : ∀ i, s0.vmmcdata.is_in_cluster i = 0)
    (hnp : ∀ i, (s0.syst.particles i).n_patches = s0.syst.n_patches)
    (hrun : VMMC_dynamics env fuel s0 = Except.ok s')
    (hrej : s'.syst.accepted = s0.syst.accepted) :
    ∀ i, (∀ d, ∃ k : Int,
        (s'.syst.particles i).r d = (s0.syst.particles i).r d + (k : ℚ) * s0.syst.box d) ∧
      ∀ j, j < s0.syst.n_patches → ∀ d,
        (s'.syst.particles i).patches j d - (s'.syst.particles i).r d
          = (s0.syst.particles i).patches j d - (s0.syst.particles i).r d := by
  obtain ⟨b, t, hb, ht, hc⟩ := vmmc_dynamics_stages env fuel s0 s' hrun
  obtain ⟨r1, r0, rv⟩ := rejected_force_reject env fuel s0 s' b t hb ht hc
  have hfr : t.force_reject = 1 := by
    rcases rv with h | h
    · have := r0 h
      omega
    · exact h
  obtain ⟨hhead, _, hpr⟩ := vmmc_build_head env fuel s0 b hb
  have hroll := loop_head_rollable env fuel s0 b.1 hnp hhead
  have hinv := loop_head_inv env fuel s0 h0 b.1 hhead
  obtain ⟨bb, m, hbb, hm, hts⟩ := vmmc_trial_reject env fuel b.2 b.1 t ht hfr
  obtain ⟨hoo, hvm, _⟩ := vmmc_energy_before_only_overlap env fuel b.1 bb hbb
  have hroll2 : Rollable s0.syst bb.2 := by
    have := hroll.only_overlap bb.2.syst hoo
    exact ⟨this.1, this.2.1, fun k hk => by
      rw [hvm] at hk ⊢
      exact this.2.2 k hk⟩
  have hdist : ∀ k k', k < bb.2.vmmcdata.n_clust → k' < bb.2.vmmcdata.n_clust →
      bb.2.vmmcdata.clust k = bb.2.vmmcdata.clust k' → k = k' := by
    intro k k' hk hk' he
    rw [hvm] at hk hk' he
    exact hinv.2.2.2.2 k k' hk hk' (by rw [he])
  obtain ⟨a1, a2, a3, a4⟩ := vmmc_apply_images s0.syst hnp fuel b.2 _ 0 bb.2 m hm hroll2.1
    (by omega) hdist (fun x _ => hroll2.2.1 x) hroll2.2.2
  have hc1 : vmmc_commit t
      = for_loop t.s.vmmcdata.n_clust (fun i s => s.restore_dof (s.vmmcdata.clust i)) t.s := by
    have h10 : ¬ t.force_reject = 0 := by rw [hfr]; decide
    simp only [vmmc_commit, if_pos hfr, if_neg h10]
  rw [hts, a2] at hc1
  have a3' : ∀ x, (∀ k, k < m.1.vmmcdata.n_clust → m.1.vmmcdata.clust k ≠ x) →
      CurrentImage s0.syst m.1.syst x := by
    rw [a2]
    exact a3
  have a4' : ∀ k, k < m.1.vmmcdata.n_clust →
      SnapshotImage s0.syst m.1.syst (m.1.vmmcdata.clust k) := by
    rw [a2]
    exact a4
  obtain ⟨_, _, e3, _⟩ := restore_loop_images s0.syst hnp m.1 a1 a3' a4'
    m.1.vmmcdata.n_clust (le_refl _)
  rw [a2] at e3
  rw [hc1] at hc
  have hall : ∀ x, CurrentImage s0.syst
      (for_loop bb.2.vmmcdata.n_clust (fun i s => s.restore_dof (s.vmmcdata.clust i)) m.1).syst
      x := by
    intro x
    apply e3
    by_cases hx : ∃ k, k < bb.2.vmmcdata.n_clust ∧ bb.2.vmmcdata.clust k = x
    · exact Or.inl hx
    · right
      intro k hk he
      exact hx ⟨k, hk, he⟩
  intro i
  exact vmmc_cleanup_images s0.syst fuel _ _ _ hc i (hall i)

theorem holds_after_spec {α : Type} (x : Except Stop α) (P : α → Bool)
    (h : holds_after x P = true) : ∃ a, x = Except.ok a ∧ P a = true := by
  cases x with
  | ok a => exact ⟨a, rfl, h⟩
  | error e => simp [holds_after] at h

theorem wrap_pair_state_patches :
    ∀ i, (wrap_pair_state.syst.particles i).n_patches = 0 := by
  intro i
  have h := (cells_fill_static wrap_pair_init).2.2.2.2.2.2 i
  show ((cells_fill wrap_pair_init).particles i).n_patches = 0
  rw [h.2]
  show (wrap_pair.particles i).n_patches = 0
  unfold wrap_pair two_particles
  simp only []
  split_ifs <;> rfl

set_option maxHeartbeats 1000000 in
theorem tight_run_checked :
    holds_after (VMMC_dynamics eager_env 5 bonded_tight_state) tight_run_check = true := by
  decide!

/-- The run from `bonded_tight_state` with every draw 0: both particles are recruited,
the loop at lines 200-211 stops at the second member, whose distance `0.2` to the seed
exceeds `max_move`, and the move is rejected; the particle at `(9.9, 0, 0)` ends at
`(-0.1, 0, 0)`, one box length away. -/
theorem tight_run :
    ∃ s', VMMC_dynamics eager_env 5 bonded_tight_state = Except.ok s' ∧
      s'.syst.accepted = bonded_tight_state.syst.accepted ∧
      (s'.syst.particles 1).r 0 = -(1 / 10) := by
  refine Exists.elim (holds_after_spec (VMMC_dynamics eager_env 5 bonded_tight_state)
    tight_run_check tight_run_checked) (fun s' hsp => ?_)
  have hP : (decide (s'.syst.accepted = bonded_tight_state.syst.accepted) &&
    decide ((s'.syst.particles 1).r 0 = -(1 / 10))) = true := hsp.2
  exact ⟨s', hsp.1, of_decide_eq_true (Bool.and_eq_true_iff.mp hP).1,
    of_decide_eq_true (Bool.and_eq_true_iff.mp hP).2⟩

/-- C11 at `bonded_tight_state` with every draw 0: the run is rejected by the early end
of the loop at lines 200-211, and the particle at `(9.9, 0, 0)` ends at `(-0.1, 0, 0)`,
its position before the call less one box length. -/
theorem rollback_exact_up_to_images_witness :
    ∃ s', VMMC_dynamics eager_env 5 bonded_tight_state = Except.ok s' ∧
      (s'.syst.particles 1).r 0 = -(1 / 10) ∧
      ∀ i, (∀ d, ∃ k : Int,
          (s'.syst.particles i).r d = (bonded_tight_state.syst.particles i).r d
            + (k : ℚ) * bonded_tight_state.syst.box d) ∧
        ∀ j, j < bonded_tight_state.syst.n_patches → ∀ d,
          (s'.syst.particles i).patches j d - (s'.syst.particles i).r d
            = (bonded_tight_state.syst.particles i).patches j d
              - (bonded_tight_state.syst.particles i).r d := by
  refine Exists.elim tight_run (fun s' h => ?_)
  exact ⟨s', h.1, h.2.2, rollback_exact_up_to_images eager_env 5 bonded_tight_state s'
    (fun _ => rfl) wrap_pair_state_patches h.1 h.2.1⟩

/-! ## The loop that applies the move to the cluster -/

/-- The position that `_move_particle(p)` gives to `p`, and to no other particle. -/
theorem move_particle_r (syst : System) (vm : vmmc_d) (p : Nat) (move : vector) (t : ℚ)
    (x : Nat) :
    ((_move_particle syst vm p move t).particles x).r =
      if x = p then
        (match vm.which_move with
          | MoveKind.VMMC_TRANSLATION => fun d => (syst.particles p).r d + move d
          | MoveKind.VMMC_ROTATION => fun d =>
            (syst.particles (vm.clust 0)).r d
              + MATRIX_VECTOR_MULTIPLICATION vm.rotation
                  (fun e => (syst.particles p).r e - (syst.particles (vm.clust 0)).r e) d)
      else (syst.particles x).r := by
  by_cases hx : x = p
  · rw [if_pos hx, hx]
    unfold _move_particle
    cases vm.which_move <;> simp only [System.set_particle, Function.update_same]
  · rw [if_neg hx, move_particle_other syst vm p move t x hx]

theorem store_dof_r (s : State) (p x : Nat) :
    ((s.store_dof p).syst.particles x).r = (s.syst.particles x).r := by
  rw [store_dof_particle]
  split_ifs with h
  · rw [h]
    rfl
  · rfl

theorem move_member_frame (pr : Proposal) (i : Nat) (s : State) :
    (move_member pr i s).vmmcdata = s.vmmcdata ∧
      (move_member pr i s).syst.box = s.syst.box := by
  refine ⟨rfl, ?_⟩
  exact ((store_dof_calm s _).calm_trans (move_particle_calm _ pr _)).1.2.2.1

/-- The position of every particle after `_store_dof(p); _move_particle(p)`. -/
theorem move_member_r (pr : Proposal) (i : Nat) (s : State) (x : Nat) :
    ((move_member pr i s).syst.particles x).r =
      if x = s.vmmcdata.clust i then
        (match s.vmmcdata.which_move with
          | MoveKind.VMMC_TRANSLATION => fun d =>
            (s.syst.particles (s.vmmcdata.clust i)).r d + pr.move d
          | MoveKind.VMMC_ROTATION => fun d =>
            (s.syst.particles (s.vmmcdata.clust 0)).r d
              + MATRIX_VECTOR_MULTIPLICATION s.vmmcdata.rotation
                  (fun e => (s.syst.particles (s.vmmcdata.clust i)).r e
                    - (s.syst.particles (s.vmmcdata.clust 0)).r e) d)
      else (s.syst.particles x).r := by
  have h := move_particle_r (s.store_dof (s.vmmcdata.clust i)).syst s.vmmcdata
    (s.vmmcdata.clust i) pr.move pr.angle x
  simp only [store_dof_r] at h
  exact h

theorem SamePlaces.after_member {a b : State} (h : SamePlaces a b) (pr : Proposal) (i : Nat) :
    SamePlaces (move_member pr i a) (move_member pr i b) := by
  obtain ⟨hv, hb, hr⟩ := h
  refine ⟨?_, ?_, ?_⟩
  · rw [(move_member_frame pr i a).1, (move_member_frame pr i b).1, hv]
  · rw [(move_member_frame pr i a).2, (move_member_frame pr i b).2, hb]
  · intro x
    rw [move_member_r, move_member_r, hv]
    simp only [hr]

theorem for_loop_move_frame (pr : Proposal) (s : State) :
    ∀ n, (for_loop n (move_member pr) s).vmmcdata = s.vmmcdata ∧
      (for_loop n (move_member pr) s).syst.box = s.syst.box := by
  intro n
  induction n with
  | zero => exact ⟨rfl, rfl⟩
  | succ n ih =>
    rw [for_loop_succ]
    exact ⟨(move_member_frame pr n _).1.trans ih.1, (move_member_frame pr n _).2.trans ih.2⟩

theorem SamePlaces.after_loop {a b : State} (h : SamePlaces a b) (pr : Proposal) :
    ∀ n, SamePlaces (for_loop n (move_member pr) a) (for_loop n (move_member pr) b) := by
  intro n
  induction n with
  | zero => exact h
  | succ n ih =>
    rw [for_loop_succ, for_loop_succ]
    exact ih.after_member pr n

/-- The passes after the one for position `i` leave the members they do not move where
they are. -/
theorem for_loop_move_later (pr : Proposal) (s : State) (m : Nat) (x : Nat) :
    ∀ n, m ≤ n → (∀ j, m ≤ j → j < n → s.vmmcdata.clust j ≠ x) →
      ((for_loop n (move_member pr) s).syst.particles x).r
        = ((for_loop m (move_member pr) s).syst.particles x).r := by
  intro n
  induction n with
  | zero =>
    intro hm _
    have : m = 0 := by omega
    rw [this]
  | succ n ih =>
    intro hm hx
    by_cases hmn : m = n + 1
    · rw [hmn]
    · rw [for_loop_succ, move_member_r, (for_loop_move_frame pr s n).1,
        if_neg (fun he => hx n (by omega) (by omega) he.symm)]
      exact ih (by omega) (fun j h1 h2 => hx j h1 (by omega))

theorem member_dist2_congr (a b : State) (k : Nat)
    (hb : a.syst.box = b.syst.box)
    (h0 : (a.syst.particles (a.vmmcdata.clust 0)).r = (b.syst.particles (b.vmmcdata.clust 0)).r)
    (hk : (a.syst.particles (a.vmmcdata.clust k)).r = (b.syst.particles (b.vmmcdata.clust k)).r) :
    member_dist2 a k = member_dist2 b k := by
  unfold member_dist2 normalized_diff_vector
  rw [h0, hk, hb]

/-- The loop at lines 200-211 ends without its `break` exactly when, after the move of the
whole cluster, no member from position `i` on is farther than `max_move` from
`clust[0]`. -/
theorem vmmc_apply_break (fuel : Nat) (pr : Proposal) (ref : State)
    (hdist : ∀ k k', k < ref.vmmcdata.n_clust → k' < ref.vmmcdata.n_clust →
      ref.vmmcdata.clust k = ref.vmmcdata.clust k' → k = k') :
    ∀ (todo i : Nat) (s : State) (r : State × Bool),
      vmmc_apply fuel pr todo i s = Except.ok r →
      i + todo = ref.vmmcdata.n_clust →
      SamePlaces s (for_loop i (move_member pr) ref) →
      (r.2 = false ↔ ∀ k, i ≤ k → k < ref.vmmcdata.n_clust →
        member_dist2 (cluster_moved pr ref) k
          ≤ ref.vmmcdata.max_move * ref.vmmcdata.max_move) := by
  intro todo
  induction todo with
  | zero =>
    intro i s r h hle _
    simp only [vmmc_apply] at h
    cases h
    refine ⟨fun _ k h1 h2 => ?_, fun _ => rfl⟩
    omega
  | succ n ih =>
    intro i s r h hle hsame
    have hi : i < ref.vmmcdata.n_clust := by omega
    simp only [vmmc_apply] at h
    split at h
    · cases h
    · rename_i syst2 hc
      obtain ⟨hcst, hcd⟩ := change_cell_dof fuel _ syst2 _ hc
      have hsame1 : SamePlaces (move_member pr i s) (for_loop (i + 1) (move_member pr) ref) := by
        rw [for_loop_succ]
        exact hsame.after_member pr i
      have hsame2 : SamePlaces
          ({ (s.store_dof (s.vmmcdata.clust i)).move_particle pr (s.vmmcdata.clust i) with
            syst := syst2 } : State) (for_loop (i + 1) (move_member pr) ref) := by
        refine ⟨hsame1.1, ?_, ?_⟩
        · show syst2.box = _
          rw [hcst.2.2.1]
          exact hsame1.2.1
        · intro x
          show (syst2.particles x).r = _
          rw [(hcd x).1]
          exact hsame1.2.2 x
      have hfin : ∀ k, k ≤ i →
          ((cluster_moved pr ref).syst.particles (ref.vmmcdata.clust k)).r
            = ((for_loop (i + 1) (move_member pr) ref).syst.particles
                (ref.vmmcdata.clust k)).r := by
        intro k hk
        refine for_loop_move_later pr ref (i + 1) _ _ (by omega) ?_
        intro j h1 h2 he
        have := hdist j k h2 (by omega) he
        omega
      have hvm : s.vmmcdata = ref.vmmcdata := by
        rw [hsame.1, (for_loop_move_frame pr ref i).1]
      have hval : member_dist2
          ({ (s.store_dof (s.vmmcdata.clust i)).move_particle pr (s.vmmcdata.clust i) with
            syst := syst2 } : State) i = member_dist2 (cluster_moved pr ref) i := by
        have hcv : (cluster_moved pr ref).vmmcdata = ref.vmmcdata :=
          (for_loop_move_frame pr ref _).1
        have hcb : (cluster_moved pr ref).syst.box = ref.syst.box :=
          (for_loop_move_frame pr ref _).2
        have hv12 : ({ (s.store_dof (s.vmmcdata.clust i)).move_particle pr
            (s.vmmcdata.clust i) with syst := syst2 } : State).vmmcdata = ref.vmmcdata := hvm
        refine member_dist2_congr _ _ i ?_ ?_ ?_
        · rw [hsame2.2.1, (for_loop_move_frame pr ref (i + 1)).2, hcb]
        · rw [hv12, hcv, hfin 0 (by omega)]
          exact hsame2.2.2 _
        · rw [hv12, hcv, hfin i (le_refl _)]
          exact hsame2.2.2 _
      have hmax : ((s.store_dof (s.vmmcdata.clust i)).move_particle pr
          (s.vmmcdata.clust i)).vmmcdata.max_move = ref.vmmcdata.max_move := by
        show s.vmmcdata.max_move = _
        rw [hvm]
      have htest : (SCALAR
          (normalized_diff_vector syst2
            (syst2.particles (((s.store_dof (s.vmmcdata.clust i)).move_particle pr
              (s.vmmcdata.clust i)).vmmcdata.clust 0)).r
            (syst2.particles (s.vmmcdata.clust i)).r)
          (normalized_diff_vector syst2
            (syst2.particles (((s.store_dof (s.vmmcdata.clust i)).move_particle pr
              (s.vmmcdata.clust i)).vmmcdata.clust 0)).r
            (syst2.particles (s.vmmcdata.clust i)).r))
          = member_dist2 (cluster_moved pr ref) i := by
        rw [← hval]
        rfl
      rw [htest, hmax] at h
      split_ifs at h with hgt
      · cases h
        constructor
        · intro hf
          cases hf
        · intro hall
          exact absurd (hall i (le_refl _) hi) (not_le.mpr hgt)
      · have hrec := ih (i + 1) _ r h (by omega) hsame2
        rw [hrec]
        constructor
        · intro hall k h1 h2
          by_cases hki : k = i
          · rw [hki]
            exact not_lt.mp hgt
          · exact hall k (by omega) h2
        · intro hall k h1 h2
          exact hall k (by omega) h2

/-- The stages of lines 175-215: the first energy sum, the loop at lines 200-211, and the
value of `force_reject` when the commit decision is taken. -/
theorem vmmc_trial_stages (env : Env) (fuel : Nat) (pr : Proposal) (s : State) (t : Trial)
    (h : vmmc_trial env fuel pr s = Except.ok t) :
    ∃ (b : ℚ × State) (m : State × Bool),
      vmmc_energy_before env fuel s = Except.ok b ∧
      vmmc_apply fuel pr b.2.vmmcdata.n_clust 0 b.2 = Except.ok m ∧
      t.force_reject = force_reject_after m.2 (vmmc_constraints s) := by
  simp only [vmmc_trial] at h
  split at h
  · cases h
  · rename_i b hb
    split at h
    · cases h
    · rename_i m hm
      split_ifs at h with hfr
      · split at h
        · cases h
        · split_ifs at h
          cases h
          exact ⟨b, m, hb, hm, rfl⟩
      · cases h
        exact ⟨b, m, hb, hm, rfl⟩

/-- The two global constraints of lines 175-188 leave `force_reject` at 0 exactly when
the cluster has not reached `max_cluster` and every prelinked particle is a member. -/
theorem vmmc_constraints_zero (seed : Nat) (s : State) (hinv : ClusterInv seed s) :
    vmmc_constraints s = 0 ↔
      ((s.vmmcdata.n_clust : Int) ≠ s.vmmcdata.max_cluster ∧
        ∀ i, i < s.vmmcdata.n_prelinked_particles →
          ∃ k, k < s.vmmcdata.n_clust ∧
            (s.syst.particles (s.vmmcdata.clust k)).index
              = (s.syst.particles (s.vmmcdata.prelinked_particles i)).index) := by
  obtain ⟨_, _, h3, h4, _⟩ := hinv
  have hmem : ∀ i, (¬ s.vmmcdata.is_in_cluster
        (s.syst.particles (s.vmmcdata.prelinked_particles i)).index = 0) ↔
      ∃ k, k < s.vmmcdata.n_clust ∧
        (s.syst.particles (s.vmmcdata.clust k)).index
          = (s.syst.particles (s.vmmcdata.prelinked_particles i)).index := by
    intro i
    rw [← h4]
    rcases h3 (s.syst.particles (s.vmmcdata.prelinked_particles i)).index with h | h
    · rw [h]
      simp
    · rw [h]
      simp
  simp only [vmmc_constraints]
  by_cases hany : (List.range s.vmmcdata.n_prelinked_particles).any (fun i =>
      decide (s.vmmcdata.is_in_cluster
        (s.syst.particles (s.vmmcdata.prelinked_particles i)).index = 0)) = true
  · rw [if_pos hany]
    constructor
    · intro h
      exact absurd h (by decide)
    · rintro ⟨_, hall⟩
      rw [List.any_eq_true] at hany
      obtain ⟨i, hi, hz⟩ := hany
      exact absurd (of_decide_eq_true hz) ((hmem i).mpr (hall i (List.mem_range.mp hi)))
  · rw [if_neg hany]
    have hall : ∀ i, i < s.vmmcdata.n_prelinked_particles →
        ∃ k, k < s.vmmcdata.n_clust ∧
          (s.syst.particles (s.vmmcdata.clust k)).index
            = (s.syst.particles (s.vmmcdata.prelinked_particles i)).index := by
      intro i hi
      apply (hmem i).mp
      intro hz
      apply hany
      rw [List.any_eq_true]
      exact ⟨i, List.mem_range.mpr hi, decide_eq_true hz⟩
    split_ifs with hc
    · constructor
      · intro h
        exact absurd h (by decide)
      · rintro ⟨hne, _⟩
        exact absurd hc hne
    · exact ⟨fun _ => ⟨hc, hall⟩, fun _ => rfl⟩

/-- C12. For a run of `VMMC_dynamics` that starts with `is_in_cluster` identically zero
and returns, with `b` the state in which the recruitment loop ended: the accepted
counter is incremented if and only if (i) `n_clust != max_cluster`, (ii) every entry of
`prelinked_particles` is a member of the cluster, and (iii) after the trial move of every
member, the squared minimum-image distance of every member to `clust[0].r` is at most
`max_move^2`. The counter is otherwise unchanged; in particular a cluster that has
reached `max_cluster` is rejected. -/
theorem acceptance_decision (env : Env) (fuel : Nat) (s0 s' : State) (b : State × Proposal)
    (h0 : ∀ i, s0.vmmcdata.is_in_cluster i = 0)
    (hb : vmmc_build env fuel s0 = Except.ok b)
    (hrun : VMMC_dynamics env fuel s0 = Except.ok s') :
    (s'.syst.accepted = s0.syst.accepted + 1 ↔
      ((b.1.vmmcdata.n_clust : Int) ≠ b.1.vmmcdata.max_cluster ∧
        (∀ i, i < b.1.vmmcdata.n_prelinked_particles →
          ∃ k, k < b.1.vmmcdata.n_clust ∧
            (b.1.syst.particles (b.1.vmmcdata.clust k)).index
              = (b.1.syst.particles (b.1.vmmcdata.prelinked_particles i)).index) ∧
        ∀ k, k < b.1.vmmcdata.n_clust →
          member_dist2 (cluster_moved b.2 b.1) k
            ≤ b.1.vmmcdata.max_move * b.1.vmmcdata.max_move)) ∧
    (s'.syst.accepted = s0.syst.accepted ∨ s'.syst.accepted = s0.syst.accepted + 1) ∧
    ((b.1.vmmcdata.n_clust : Int) = b.1.vmmcdata.max_cluster →
      s'.syst.accepted = s0.syst.accepted) := by
  obtain ⟨b', t, hb', ht, hc⟩ := vmmc_dynamics_stages env fuel s0 s' hrun
  rw [hb] at hb'
  cases hb'
  obtain ⟨r1, r0, rv⟩ := rejected_force_reject env fuel s0 s' b t hb ht hc
  obtain ⟨hhead, _, _⟩ := vmmc_build_head env fuel s0 b hb
  have hinv := loop_head_inv env fuel s0 h0 b.1 hhead
  obtain ⟨bb, m, hbb, hm, hfr⟩ := vmmc_trial_stages env fuel b.2 b.1 t ht
  obtain ⟨hoo, hvm, _⟩ := vmmc_energy_before_only_overlap env fuel b.1 bb hbb
  have hdist : ∀ k k', k < b.1.vmmcdata.n_clust → k' < b.1.vmmcdata.n_clust →
      b.1.vmmcdata.clust k = b.1.vmmcdata.clust k' → k = k' := by
    intro k k' hk hk' he
    exact hinv.2.2.2.2 k k' hk hk' (by rw [he])
  have hsame : SamePlaces bb.2 (for_loop 0 (move_member b.2) b.1) := by
    refine ⟨hvm, hoo.static.2.2.1, ?_⟩
    intro x
    rw [hoo.same_particles.1]
    rfl
  have hbreak := vmmc_apply_break fuel b.2 b.1 hdist bb.2.vmmcdata.n_clust 0 bb.2 m hm
    (by rw [hvm]; omega) hsame
  have hcz := vmmc_constraints_zero _ b.1 hinv
  have hacc : s'.syst.accepted = s0.syst.accepted + 1 ↔ t.force_reject = 0 := by
    constructor
    · intro h
      rcases rv with h' | h'
      · exact h'
      · have := r1 h'
        omega
    · exact r0
  have hzero : t.force_reject = 0 ↔ (m.2 = false ∧ vmmc_constraints b.1 = 0) := by
    rw [hfr]
    constructor
    · exact force_reject_after_zero _ _
    · rintro ⟨h1, h2⟩
      rw [h1, h2]
      rfl
  refine ⟨?_, ?_, ?_⟩
  · rw [hacc, hzero, hbreak, hcz]
    constructor
    · rintro ⟨h1, h2, h3⟩
      exact ⟨h2, h3, fun k hk => h1 k (Nat.zero_le _) hk⟩
    · rintro ⟨h2, h3, h1⟩
      exact ⟨fun k _ hk => h1 k hk, h2, h3⟩
  · rcases rv with h | h
    · exact Or.inr (r0 h)
    · exact Or.inl (r1 h)
  · intro hcap
    rcases rv with h | h
    · have hz := (hzero.mp h).2
      exact absurd hcap (hcz.mp hz).1
    · exact r1 h

/-- C12 at `bonded_tight_state` with every draw 0: the run returns with the accepted
counter unchanged, so one of the three conditions fails (the second member is at distance
`0.2 > max_move` from the seed). -/
theorem acceptance_decision_witness :
    ∃ s' b, VMMC_dynamics eager_env 5 bonded_tight_state = Except.ok s' ∧
      vmmc_build eager_env 5 bonded_tight_state = Except.ok b ∧
      s'.syst.accepted = bonded_tight_state.syst.accepted ∧
      ¬ ((b.1.vmmcdata.n_clust : Int) ≠ b.1.vmmcdata.max_cluster ∧
        (∀ i, i < b.1.vmmcdata.n_prelinked_particles →
          ∃ k, k < b.1.vmmcdata.n_clust ∧
            (b.1.syst.particles (b.1.vmmcdata.clust k)).index
              = (b.1.syst.particles (b.1.vmmcdata.prelinked_particles i)).index) ∧
        ∀ k, k < b.1.vmmcdata.n_clust →
          member_dist2 (cluster_moved b.2 b.1) k
            ≤ b.1.vmmcdata.max_move * b.1.vmmcdata.max_move) := by
  refine Exists.elim tight_run (fun s' h => ?_)
  refine Exists.elim (vmmc_dynamics_stages eager_env 5 bonded_tight_state s' h.1) (fun b hb => ?_)
  refine Exists.elim hb (fun t ht => ?_)
  refine ⟨s', b, h.1, ht.1, h.2.1, ?_⟩
  intro hall
  have hacc := (acceptance_decision eager_env 5 bonded_tight_state s' b (fun _ => rfl)
    ht.1 h.1).1.mpr hall
  rw [h.2.1] at hacc
  omega

/-! ## A seed without neighbours -/

/-- A chain that the enumeration followed to its end ends within the fuel. -/
theorem populate_chain_walk (p : Nat) :
    ∀ (fuel : Nat) (q : Option Nat) (s s' : State),
      populate_chain p fuel q s = Except.ok s' →
      ∃ L, chain_walk s.syst.particles s.syst.cells.next fuel q = some L := by
  intro fuel
  induction fuel with
  | zero =>
    intro q s s' h
    cases q with
    | none => exact ⟨[], rfl⟩
    | some a => simp [populate_chain] at h
  | succ n ih =>
    intro q s s' h
    cases q with
    | none => exact ⟨[], rfl⟩
    | some a =>
      simp only [populate_chain] at h
      split at h
      · cases h
      · rename_i s1 hv
        obtain ⟨L, hL⟩ := ih _ _ _ h
        have hcalm := populate_visit_calm _ _ _ _ hv
        have hw := chain_walk_calm s1.syst s.syst hcalm.2.1.symm
          (fun i => ((hcalm.1.2.2.2.2.2.2 i).1).symm) n _ L hL
        rw [hcalm.2.1, (hcalm.1.2.2.2.2.2.2 a).1] at hw
        refine ⟨a :: L, ?_⟩
        simp only [chain_walk, hw, Option.map_some']

theorem populate_cells_walk (fuel p : Nat) (ind : Fin 3 → Int) :
    ∀ (os : List (Int × Int × Int)) (s s' : State),
      populate_cells fuel p ind os s = Except.ok s' →
      ∃ L, neighbour_chain s.syst fuel ind os = some L := by
  intro os
  induction os with
  | nil =>
    intro s s' _
    exact ⟨[], rfl⟩
  | cons o os ih =>
    intro s s' h
    simp only [populate_cells] at h
    split at h
    · cases h
    · rename_i s1 hc
      obtain ⟨C, hC⟩ := populate_chain_walk p fuel _ s s1 hc
      obtain ⟨R, hR⟩ := ih _ _ h
      have hcalm := populate_chain_calm _ _ _ _ _ hc
      have hR' := neighbour_chain_calm s1.syst s.syst hcalm.2.1.symm
        (fun i => ((hcalm.1.2.2.2.2.2.2 i).1).symm) fuel ind os R hR
      refine ⟨C ++ R, ?_⟩
      have hC' : cell_chain s.syst fuel (loop_index s.syst ind o) = some C := hC
      simp only [neighbour_chain, hC', hR']

/-- The loop body run over particles that all fail its two tests changes nothing. -/
theorem populate_list_idle (p : Nat) (s : State) :
    ∀ L : List Nat,
      (∀ q ∈ L, (s.syst.particles q).index ≠ (s.syst.particles p).index →
        s.syst.sqr_rcut < link_dist2 s p q) →
      populate_list p L s = Except.ok s := by
  intro L
  induction L with
  | nil =>
    intro _
    rfl
  | cons q qs ih =>
    intro h
    have hv : populate_visit s p q = Except.ok s := by
      rw [populate_visit_eq]
      by_cases h1 : (s.syst.particles q).index ≠ (s.syst.particles p).index
      · rw [if_pos h1, if_neg (not_le.mpr (h q (List.mem_cons_self _ _) h1))]
      · rw [if_neg h1]
    simp only [populate_list, hv]
    exact ih (fun x hx => h x (List.mem_cons_of_mem _ hx))

/-- The enumeration around an isolated particle changes nothing. -/
theorem populate_links_idle (env : Env) (fuel : Nat) (s s' : State) (p : Nat)
    (h : _populate_possible_links env fuel s p = Except.ok s') (hiso : Isolated s fuel p) :
    s' = s := by
  unfold _populate_possible_links at h
  split_ifs at h
  obtain ⟨L, hL⟩ := populate_cells_walk fuel p _ _ s s' h
  rw [populate_cells_list fuel p _ _ L s hL, populate_list_idle p s L (hiso L hL)] at h
  exact (Except.ok.inj h).symm

theorem link_dist2_congr (a b : State) (p q : Nat) (hb : b.syst.box = a.syst.box)
    (hp : (b.syst.particles p).r = (a.syst.particles p).r)
    (hq : (b.syst.particles q).r = (a.syst.particles q).r) :
    link_dist2 b p q = link_dist2 a p q := by
  unfold link_dist2
  rw [hb, hp, hq]

/-- Isolation depends on the cell index, the box, the cutoff and the indices and
positions of the particles only. -/
theorem Isolated.iso_same {a b : State} {fuel p : Nat} (h : Isolated a fuel p)
    (hc : b.syst.cells = a.syst.cells) (hb : b.syst.box = a.syst.box)
    (hs : b.syst.sqr_rcut = a.syst.sqr_rcut)
    (hi : ∀ i, (b.syst.particles i).index = (a.syst.particles i).index)
    (hr : ∀ i, (b.syst.particles i).r = (a.syst.particles i).r) : Isolated b fuel p := by
  intro L hL q hq hne
  rw [hi q, hi p] at hne
  rw [hs, link_dist2_congr a b p q hb (hr p) (hr q)]
  refine h L ?_ q hq hne
  have hidx : cells_fill_and_get_idx_from_particle b.syst p
      = cells_fill_and_get_idx_from_particle a.syst p :=
    idx_from_particle_congr a.syst b.syst p hb (by rw [hc]) (hr p)
  rw [hidx] at hL
  exact neighbour_chain_calm b.syst a.syst hc.symm (fun i => (hi i).symm) fuel _ _ L hL

/-- The enumeration around a particle that is isolated before and after its trial move:
the state is the one after `_store_dof`, `_move_particle` and `_restore_dof`. -/
theorem links_around_idle (env : Env) (fuel : Nat) (pr : Proposal) (s s' : State) (p : Nat)
    (h : vmmc_links_around env fuel pr s p = Except.ok s')
    (h1 : Isolated (s.store_dof p) fuel p)
    (h2 : Isolated ((s.store_dof p).move_particle pr p) fuel p) :
    s' = (((s.store_dof p).move_particle pr p).restore_dof p) := by
  obtain ⟨x1, x2, e1, e2, rfl⟩ := links_around_steps env fuel pr s s' p h
  have hx1 := populate_links_idle env fuel _ x1 p e1 h1
  subst hx1
  have hx2 := populate_links_idle env fuel _ x2 p e2 h2
  subst hx2
  rfl

/-- The recruitment loop makes no pass from a state in which its condition fails. -/
theorem recruit_loop_skip (env : Env) (fuel : Nat) (pr : Proposal) (k : Nat) (s : State)
    (h : ¬ recruit_guard s) : vmmc_recruit_loop env fuel pr k s = Except.ok s := by
  cases k with
  | zero => simp only [vmmc_recruit_loop, if_neg h]
  | succ k => simp only [vmmc_recruit_loop, if_neg h]

theorem normalized_diff_self (syst : System) (a : vector) (d : Fin 3) :
    normalized_diff_vector syst a a d = 0 := by
  simp only [normalized_diff_vector, sub_self, zero_div, rint_zero, Int.cast_zero, mul_zero]

theorem member_dist2_seed (s : State) : member_dist2 s 0 = 0 := by
  simp only [member_dist2, SCALAR, normalized_diff_self, mul_zero, add_zero]

/-- The two constraints of lines 175-188 for a cluster below the cap without prelinked
particles. -/
theorem vmmc_constraints_none (s : State) (hp : s.vmmcdata.n_prelinked_particles = 0)
    (hc : (s.vmmcdata.n_clust : Int) ≠ s.vmmcdata.max_cluster) : vmmc_constraints s = 0 := by
  simp only [vmmc_constraints, hp, List.range_zero, List.any_nil, if_neg hc]
  rfl

/-- With a pair oracle that never reports an interaction of `p`, the energy loops for `p`
return their accumulator. -/
theorem energy_chain_none (env : Env) (vm : vmmc_d) (p : Nat)
    (hnone : ∀ syst q, (env.MC_interact syst p q).1 = Interaction.NONE) :
    ∀ (fuel : Nat) (q : Option Nat) (acc acc' : ℚ × System),
      energy_chain env vm p fuel q acc = Except.ok acc' → acc' = acc := by
  have hv : ∀ (acc : ℚ × System) (q : Nat), energy_visit env vm p acc q = acc := by
    intro acc q
    unfold energy_visit _pair_energy
    rw [hnone]
    simp
  intro fuel
  induction fuel with
  | zero =>
    intro q acc acc' h
    cases q with
    | none =>
      simp only [energy_chain] at h
      exact (Except.ok.inj h).symm
    | some a => simp [energy_chain] at h
  | succ n ih =>
    intro q acc acc' h
    cases q with
    | none =>
      simp only [energy_chain] at h
      exact (Except.ok.inj h).symm
    | some a =>
      simp only [energy_chain] at h
      have hv' := hv acc a
      unfold energy_visit at hv'
      rw [hv'] at h
      exact ih _ _ _ h

theorem energy_cells_none (env : Env) (vm : vmmc_d) (fuel p : Nat) (ind : Fin 3 → Int)
    (hnone : ∀ syst q, (env.MC_interact syst p q).1 = Interaction.NONE) :
    ∀ (os : List (Int × Int × Int)) (acc acc' : ℚ × System),
      energy_cells env vm fuel p ind os acc = Except.ok acc' → acc' = acc := by
  intro os
  induction os with
  | nil =>
    intro acc acc' h
    simp only [energy_cells] at h
    exact (Except.ok.inj h).symm
  | cons o os ih =>
    intro acc acc' h
    simp only [energy_cells] at h
    split at h
    · cases h
    · rename_i acc1 hc
      have h1 := energy_chain_none env vm p hnone _ _ _ _ hc
      rw [h1] at h
      exact ih _ _ h

/-- The cluster energy of a one-particle cluster whose particle has no interaction. -/
theorem compute_cluster_energy_none (env : Env) (fuel : Nat) (s : State) (r : ℚ × System)
    (hn : s.vmmcdata.n_clust = 1)
    (hnone : ∀ syst q, (env.MC_interact syst (s.vmmcdata.clust 0) q).1 = Interaction.NONE)
    (h : _compute_cluster_energy env fuel s = Except.ok r) : r.1 = 0 := by
  unfold _compute_cluster_energy at h
  rw [hn] at h
  have hr : List.range 1 = [0] := rfl
  rw [hr] at h
  simp only [energy_members] at h
  split_ifs at h
  split at h
  · cases h
  · rename_i acc1 hc
    have h1 := energy_cells_none env s.vmmcdata fuel _ _ hnone _ _ _ hc
    cases h
    rw [h1]

theorem vmmc_cleanup_dof (fuel : Nat) :
    ∀ (is : List Nat) (s s' : State), vmmc_cleanup fuel is s = Except.ok s' →
      s'.vmmcdata.n_clust = s.vmmcdata.n_clust ∧
      ∀ x, (s'.syst.particles x).r = (s.syst.particles x).r ∧
        (s'.syst.particles x).patches = (s.syst.particles x).patches := by
  intro is
  induction is with
  | nil =>
    intro s s' h
    simp only [vmmc_cleanup] at h
    cases h
    exact ⟨rfl, fun _ => ⟨rfl, rfl⟩⟩
  | cons i is ih =>
    intro s s' h
    simp only [vmmc_cleanup] at h
    split at h
    · cases h
    · rename_i syst1 hc
      obtain ⟨h1, h2⟩ := ih _ _ h
      obtain ⟨_, hd⟩ := change_cell_dof fuel _ syst1 _ hc
      refine ⟨h1, fun x => ⟨(h2 x).1.trans (hd x).1, (h2 x).2.trans (hd x).2.1⟩⟩

/-- The state in which an accepted trial takes the commit decision. -/
theorem vmmc_trial_accept_state (env : Env) (fuel : Nat) (pr : Proposal) (s : State)
    (t : Trial) (h : vmmc_trial env fuel pr s = Except.ok t) (hacc : t.force_reject = 0) :
    ∃ (b : ℚ × State) (m : State × Bool) (after : ℚ × System),
      vmmc_energy_before env fuel s = Except.ok b ∧
      vmmc_apply fuel pr b.2.vmmcdata.n_clust 0 b.2 = Except.ok m ∧
      _compute_cluster_energy env fuel m.1 = Except.ok after ∧
      t.s = { m.1 with syst := after.2 } := by
  simp only [vmmc_trial] at h
  split at h
  · cases h
  · rename_i b hb
    split at h
    · cases h
    · rename_i m hm
      split_ifs at h with hfr
      · split at h
        · cases h
        · rename_i after ha
          split_ifs at h
          cases h
          exact ⟨b, m, after, hb, hm, ha, rfl⟩
      · cases h
        exact absurd hacc hfr

/-- One pass of the loop at lines 200-211. -/
theorem vmmc_apply_one (fuel : Nat) (pr : Proposal) (i : Nat) (s : State) (r : State × Bool)
    (h : vmmc_apply fuel pr 1 i s = Except.ok r) :
    ∃ syst2, MC_change_cell fuel (move_member pr i s).syst (s.vmmcdata.clust i)
        = Except.ok syst2 ∧
      r.1 = { move_member pr i s with syst := syst2 } := by
  simp only [vmmc_apply] at h
  split at h
  · cases h
  · rename_i syst2 hc
    refine ⟨syst2, hc, ?_⟩
    split_ifs at h
    · cases h
      rfl
    · cases h
      rfl

theorem vmmc_commit_accept (t : Trial) (h : t.force_reject = 0) :
    (vmmc_commit t).vmmcdata = t.s.vmmcdata ∧
      (vmmc_commit t).syst.particles = t.s.syst.particles := by
  have h1 : ¬ t.force_reject = 1 := by rw [h]; decide
  constructor <;> simp only [vmmc_commit, if_neg h1, if_pos h]

theorem move_member_other (pr : Proposal) (i : Nat) (s : State) (x : Nat)
    (hx : x ≠ s.vmmcdata.clust i) :
    (move_member pr i s).syst.particles x = s.syst.particles x := by
  show (_move_particle (s.store_dof (s.vmmcdata.clust i)).syst
    (s.store_dof (s.vmmcdata.clust i)).vmmcdata (s.vmmcdata.clust i) pr.move pr.angle).particles x
    = _
  rw [move_particle_other _ _ _ pr.move pr.angle x hx, store_dof_particle, if_neg hx]

/-- The state after the enumeration around an isolated seed: nothing is recorded, and
every particle is where it was. -/
theorem isolated_seed_links (env : Env) (fuel : Nat) (s0 s1 : State)
    (hbefore : Isolated s0 fuel (vmmc_seed env s0))
    (hafter : Isolated (move_member (vmmc_start env s0).2 0 (vmmc_start env s0).1) fuel
      (vmmc_seed env s0))
    (hl : vmmc_links_around env fuel (vmmc_start env s0).2 (vmmc_start env s0).1
      ((vmmc_start env s0).1.vmmcdata.clust 0) = Except.ok s1) :
    s1.vmmcdata = (vmmc_start env s0).1.vmmcdata ∧
    s1.syst.box = s0.syst.box ∧
    (∀ x, (s1.syst.particles x).r = (s0.syst.particles x).r) ∧
    (∀ x, x ≠ vmmc_seed env s0 → s1.syst.particles x = s0.syst.particles x) := by
  obtain ⟨hst, hcells, hpart, _⟩ := vmmc_start_static env s0
  have hiso1 : Isolated ((vmmc_start env s0).1.store_dof (vmmc_seed env s0)) fuel
      (vmmc_seed env s0) := by
    refine hbefore.iso_same hcells hst.2.2.1 hst.2.2.2.2.1 ?_ ?_
    · intro i
      have := ((store_dof_calm (vmmc_start env s0).1 (vmmc_seed env s0)).1.2.2.2.2.2.2 i).1
      rw [this, hpart]
    · intro i
      rw [store_dof_r, hpart]
  have hs1 : s1 = (move_member (vmmc_start env s0).2 0 (vmmc_start env s0).1).restore_dof
      (vmmc_seed env s0) := links_around_idle env fuel _ _ s1 _ hl hiso1 hafter
  have hM : ∀ x, x ≠ vmmc_seed env s0 →
      (move_member (vmmc_start env s0).2 0 (vmmc_start env s0).1).syst.particles x
        = s0.syst.particles x := by
    intro x hx
    rw [move_member_other _ _ _ x hx, hpart]
  have hother : ∀ x, x ≠ vmmc_seed env s0 → s1.syst.particles x = s0.syst.particles x := by
    intro x hx
    rw [hs1]
    have := restore_dof_particle
      (move_member (vmmc_start env s0).2 0 (vmmc_start env s0).1) (vmmc_seed env s0) x
    rw [if_neg hx] at this
    exact this.trans (hM x hx)
  refine ⟨by rw [hs1]; rfl, ?_, ?_, hother⟩
  · rw [hs1]
    have h1 := (restore_dof_calm
      (move_member (vmmc_start env s0).2 0 (vmmc_start env s0).1) (vmmc_seed env s0)).1.2.2.1
    have h2 := (move_member_frame (vmmc_start env s0).2 0 (vmmc_start env s0).1).2
    exact (h1.trans h2).trans hst.2.2.1
  · intro x
    by_cases hx : x = vmmc_seed env s0
    · rw [hs1, hx]
      have := restore_dof_particle
        (move_member (vmmc_start env s0).2 0 (vmmc_start env s0).1) (vmmc_seed env s0)
        (vmmc_seed env s0)
      rw [if_pos rfl] at this
      rw [this]
      show ((move_member (vmmc_start env s0).2 0 (vmmc_start env s0).1).syst.particles
        (vmmc_seed env s0)).r_old = _
      have hown := (move_particle_own
        ((vmmc_start env s0).1.store_dof (vmmc_seed env s0)).syst
        (vmmc_start env s0).1.vmmcdata (vmmc_seed env s0)
        (vmmc_start env s0).2.move (vmmc_start env s0).2.angle).1
      have hsd := store_dof_particle (vmmc_start env s0).1 (vmmc_seed env s0) (vmmc_seed env s0)
      rw [if_pos rfl] at hsd
      rw [hsd] at hown
      refine hown.trans ?_
      show ((vmmc_start env s0).1.syst.particles (vmmc_seed env s0)).r = _
      rw [hpart]
    · rw [hother x hx]

/-- C18. Isolated seed: when no other particle in the 27 neighbouring cells of the seed is
within `sqr_rcut` of it, neither before nor after the trial move of the seed, and
`max_cluster != 1`, then every run that returns ends the recruitment with no link and with
the cluster `{seed}`, increments the accepted counter whatever `max_move` is, leaves the
seed at its moved position and every other particle with its `r` and `patches`, and adds
to the energy the cluster energy of the seed after the move less the one before it, which
is 0 when the pair oracle reports no interaction of the seed. -/
theorem isolated_seed_move (env : Env) (fuel : Nat) (s0 s' : State)
    (hrun : VMMC_dynamics env fuel s0 = Except.ok s')
    (hcap : s0.vmmcdata.max_cluster ≠ 1)
    (hbefore : Isolated s0 fuel (vmmc_seed env s0))
    (hafter : Isolated (move_member (vmmc_start env s0).2 0 (vmmc_start env s0).1) fuel
      (vmmc_seed env s0)) :
    (∃ b, vmmc_build env fuel s0 = Except.ok b ∧ b.1.vmmcdata.n_possible_links = 0 ∧
      b.1.vmmcdata.n_clust = 1 ∧ b.1.vmmcdata.clust 0 = vmmc_seed env s0 ∧
      ∃ (before : ℚ × System) (m : State) (after : ℚ × System),
        _compute_cluster_energy env fuel b.1 = Except.ok before ∧
        vmmc_apply fuel b.2 b.1.vmmcdata.n_clust 0 { b.1 with syst := before.2 }
          = Except.ok (m, false) ∧
        _compute_cluster_energy env fuel m = Except.ok after ∧
        s'.syst.energy = s0.syst.energy + (after.1 - before.1) ∧
        ((∀ syst q, (env.MC_interact syst (vmmc_seed env s0) q).1 = Interaction.NONE) →
          before.1 = 0 ∧ after.1 = 0 ∧ s'.syst.energy = s0.syst.energy)) ∧
    s'.vmmcdata.n_clust = 1 ∧
    s'.vmmcdata.clust 0 = vmmc_seed env s0 ∧
    s'.syst.accepted = s0.syst.accepted + 1 ∧
    (s'.syst.particles (vmmc_seed env s0)).r
      = ((move_member (vmmc_start env s0).2 0 (vmmc_start env s0).1).syst.particles
          (vmmc_seed env s0)).r ∧
    (∀ x, x ≠ vmmc_seed env s0 →
      (s'.syst.particles x).r = (s0.syst.particles x).r ∧
      (s'.syst.particles x).patches = (s0.syst.particles x).patches) := by
  obtain ⟨b, t, hb, ht, hc⟩ := vmmc_dynamics_stages env fuel s0 s' hrun
  obtain ⟨hst, hcells, hpart, _, hmaxc, hnl, hnp⟩ := vmmc_start_static env s0
  obtain ⟨hn1, _, _, _, _, _⟩ := vmmc_start_cluster env s0
  -- the recruitment stage
  have hb' := hb
  simp only [vmmc_build] at hb'
  split at hb'
  · cases hb'
  rename_i s1 hl
  obtain ⟨hv1, hbox1, hr1, ho1⟩ := isolated_seed_links env fuel s0 s1 hbefore hafter hl
  have hg : ¬ recruit_guard s1 := by
    intro h
    have h1 := h.1
    rw [hv1, hnl] at h1
    exact absurd h1 (lt_irrefl 0)
  rw [recruit_loop_skip env fuel _ fuel s1 hg] at hb'
  cases hb'
  have hnc : s1.vmmcdata.n_clust = 1 := by rw [hv1, hn1]
  have hseed : s1.vmmcdata.clust 0 = vmmc_seed env s0 := by rw [hv1]; rfl
  -- the commit decision
  have hcz : vmmc_constraints s1 = 0 := by
    refine vmmc_constraints_none s1 (by rw [hv1, hnp]) ?_
    rw [hnc, hv1, hmaxc]
    intro h
    exact hcap h.symm
  obtain ⟨bb, m, hbb, hm, hfr⟩ := vmmc_trial_stages env fuel _ s1 t ht
  obtain ⟨hoo, hvm, _⟩ := vmmc_energy_before_only_overlap env fuel s1 bb hbb
  have hsame : SamePlaces bb.2 (for_loop 0 (move_member (vmmc_start env s0).2) s1) := by
    refine ⟨hvm, hoo.static.2.2.1, ?_⟩
    intro x
    rw [hoo.same_particles.1]
    rfl
  have hbreak := vmmc_apply_break fuel (vmmc_start env s0).2 s1
    (fun k k' hk hk' _ => by rw [hnc] at hk hk'; omega)
    bb.2.vmmcdata.n_clust 0 bb.2 m hm (by rw [hvm]; omega) hsame
  have hm2 : m.2 = false := by
    rw [hbreak]
    intro k _ hk
    rw [hnc] at hk
    have hk0 : k = 0 := by omega
    rw [hk0, member_dist2_seed]
    exact mul_self_nonneg _
  have hfr0 : t.force_reject = 0 := by
    rw [hfr, hm2, hcz]
    rfl
  obtain ⟨_, r0, _⟩ := rejected_force_reject env fuel s0 s' _ t hb ht hc
  -- the energy
  obtain ⟨hh, _, _⟩ := vmmc_build_head env fuel s0 _ hb
  have hk0 := loop_head_kept env fuel s0 s1 hh
  obtain ⟨hrt, _⟩ := vmmc_trial_related env fuel _ s1 t ht
  obtain ⟨_, _, _, _, _, hacc⟩ := vmmc_commit_effect t
  obtain ⟨hkc, hclc, _⟩ := vmmc_cleanup_effect fuel _ _ _ hc
  obtain ⟨before, m', after, hbe, hm', haf, hd⟩ :=
    vmmc_trial_accept env fuel _ s1 t ht hfr0
  have hen : s'.syst.energy = s0.syst.energy + (after.1 - before.1) := by
    rw [hkc.2.1, (hacc hfr0).1, hrt.2.2.2.2.1, hk0.2.1, hd]
  have hrm' := vmmc_apply_related fuel _ _ _ _ _ hm'
  -- the particles
  obtain ⟨bb2, m2, after2, hbb2, hm2', haf2, hts⟩ :=
    vmmc_trial_accept_state env fuel _ s1 t ht hfr0
  rw [hbb] at hbb2
  cases hbb2
  rw [hm] at hm2'
  cases hm2'
  have hbn : bb.2.vmmcdata.n_clust = 1 := by rw [hvm, hnc]
  rw [hbn] at hm
  obtain ⟨syst2, hcc, hm1⟩ := vmmc_apply_one fuel _ 0 bb.2 m hm
  obtain ⟨_, hcd⟩ := change_cell_dof fuel _ syst2 _ hcc
  obtain ⟨hcn, hcl⟩ := vmmc_cleanup_dof fuel _ _ _ hc
  obtain ⟨hcv, hcp⟩ := vmmc_commit_accept t hfr0
  have hoo2 := (compute_cluster_energy_only_overlap env fuel m.1 after2 haf2).same_particles.1
  have hfinal : ∀ x, (s'.syst.particles x).r
        = ((move_member (vmmc_start env s0).2 0 bb.2).syst.particles x).r ∧
      (s'.syst.particles x).patches
        = ((move_member (vmmc_start env s0).2 0 bb.2).syst.particles x).patches := by
    intro x
    have e1 : (vmmc_commit t).syst.particles x = m.1.syst.particles x := by
      rw [hcp, hts]
      show after2.2.particles x = _
      rw [hoo2]
    have e2 : (m.1.syst.particles x).r
          = ((move_member (vmmc_start env s0).2 0 bb.2).syst.particles x).r ∧
        (m.1.syst.particles x).patches
          = ((move_member (vmmc_start env s0).2 0 bb.2).syst.particles x).patches := by
      rw [hm1]
      exact ⟨(hcd x).1, (hcd x).2.1⟩
    exact ⟨((hcl x).1.trans (by rw [e1])).trans e2.1, ((hcl x).2.trans (by rw [e1])).trans e2.2⟩
  have hbseed : bb.2.vmmcdata.clust 0 = vmmc_seed env s0 := by rw [hvm, hseed]
  have hplaces : SamePlaces bb.2 (vmmc_start env s0).1 := by
    refine ⟨hvm.trans hv1, ?_, ?_⟩
    · rw [hoo.static.2.2.1, hbox1, hst.2.2.1]
    · intro x
      rw [hoo.same_particles.1, hr1 x, hpart]
  refine ⟨⟨_, hb, by rw [hv1, hnl], hnc, hseed, before, m', after, hbe, hm', haf, hen, ?_⟩,
    ?_, ?_, r0 hfr0, ?_, ?_⟩
  · intro hnone
    have hb0 : before.1 = 0 :=
      compute_cluster_energy_none env fuel s1 before hnc (by rw [hseed]; exact hnone) hbe
    have ha0 : after.1 = 0 := by
      refine compute_cluster_energy_none env fuel m' after ?_ ?_ haf
      · rw [hrm'.2.2.1]
        exact hnc
      · rw [hrm'.2.1]
        show ∀ syst q, (env.MC_interact syst (s1.vmmcdata.clust 0) q).1 = Interaction.NONE
        rw [hseed]
        exact hnone
    refine ⟨hb0, ha0, ?_⟩
    rw [hen, hb0, ha0]
    ring
  · rw [hcn, hcv, hts]
    show m.1.vmmcdata.n_clust = 1
    rw [hm1]
    exact hbn
  · rw [hclc, hcv, hts]
    show m.1.vmmcdata.clust 0 = _
    rw [hm1]
    exact hbseed
  · rw [(hfinal _).1]
    exact (hplaces.after_member (vmmc_start env s0).2 0).2.2 _
  · intro x hx
    have hxb : x ≠ bb.2.vmmcdata.clust 0 := by rw [hbseed]; exact hx
    have e3 : (move_member (vmmc_start env s0).2 0 bb.2).syst.particles x
        = s0.syst.particles x := by
      rw [move_member_other _ _ _ x hxb, hoo.same_particles.1, ho1 x hx]
    rw [(hfinal x).1, (hfinal x).2, e3]
    exact ⟨rfl, rfl⟩

theorem small_box_residents :
    neighbour_chain small_box_state.syst 5
        (cells_fill_and_get_idx_from_particle small_box_state.syst
          (vmmc_seed quiet_env small_box_state)).2 neighbour_offsets = some [0, 1] ∧
    ∀ q ∈ [0, 1],
      (small_box_state.syst.particles q).index
          ≠ (small_box_state.syst.particles (vmmc_seed quiet_env small_box_state)).index →
        small_box_state.syst.sqr_rcut
          < link_dist2 small_box_state (vmmc_seed quiet_env small_box_state) q := by
  decide!

theorem small_box_residents_moved :
    neighbour_chain
        (move_member (vmmc_start quiet_env small_box_state).2 0
          (vmmc_start quiet_env small_box_state).1).syst 5
        (cells_fill_and_get_idx_from_particle
          (move_member (vmmc_start quiet_env small_box_state).2 0
            (vmmc_start quiet_env small_box_state).1).syst
          (vmmc_seed quiet_env small_box_state)).2 neighbour_offsets = some [1, 0] ∧
    ∀ q ∈ [1, 0],
      ((move_member (vmmc_start quiet_env small_box_state).2 0
          (vmmc_start quiet_env small_box_state).1).syst.particles q).index
        ≠ ((move_member (vmmc_start quiet_env small_box_state).2 0
            (vmmc_start quiet_env small_box_state).1).syst.particles
              (vmmc_seed quiet_env small_box_state)).index →
      (move_member (vmmc_start quiet_env small_box_state).2 0
          (vmmc_start quiet_env small_box_state).1).syst.sqr_rcut
        < link_dist2
            (move_member (vmmc_start quiet_env small_box_state).2 0
              (vmmc_start quiet_env small_box_state).1)
            (vmmc_seed quiet_env small_box_state) q := by
  decide!

/-- In `small_box_state` the seed, the particle at the origin, is isolated: the other
particle, at `(3, 3, 3)`, is at squared distance 27 from it, beyond the cutoff 9. -/
theorem small_box_isolated :
    Isolated small_box_state 5 (vmmc_seed quiet_env small_box_state) := by
  intro L hL q hq
  have h := small_box_residents
  rw [h.1] at hL
  rw [← Option.some.inj hL] at hq
  exact h.2 q hq

/-- After the trial move by `(-1/2, -1/2, -1/2)` the seed of `small_box_state` is still
isolated. -/
theorem small_box_isolated_moved :
    Isolated (move_member (vmmc_start quiet_env small_box_state).2 0
      (vmmc_start quiet_env small_box_state).1) 5 (vmmc_seed quiet_env small_box_state) := by
  intro L hL q hq
  have h := small_box_residents_moved
  rw [h.1] at hL
  rw [← Option.some.inj hL] at hq
  exact h.2 q hq

theorem small_box_run :
    (VMMC_dynamics quiet_env 5 small_box_state).toBool = true ∧
    vmmc_seed quiet_env small_box_state = 0 ∧
    ((move_member (vmmc_start quiet_env small_box_state).2 0
      (vmmc_start quiet_env small_box_state).1).syst.particles 0).r
      = ![-(1 / 2), -(1 / 2), -(1 / 2)] := by
  decide!

/-- C18 at `small_box_state` (box 6, cutoff 3, particles at the origin and at
`(3, 3, 3)`) with every draw 0 and a pair oracle that reports no interaction: the seed
moves alone by `(-1/2, -1/2, -1/2)`, the move is accepted, the other particle stays and
the energy is unchanged. -/
theorem isolated_seed_move_witness :
    ∃ s', VMMC_dynamics quiet_env 5 small_box_state = Except.ok s' ∧
      s'.vmmcdata.n_clust = 1 ∧
      s'.syst.accepted = small_box_state.syst.accepted + 1 ∧
      (s'.syst.particles 0).r = ![-(1 / 2), -(1 / 2), -(1 / 2)] ∧
      (s'.syst.particles 1).r = (small_box_state.syst.particles 1).r ∧
      s'.syst.energy = small_box_state.syst.energy := by
  have hrun := eq_ok_of_toBool (VMMC_dynamics quiet_env 5 small_box_state) small_box_state
    small_box_run.1
  have h := isolated_seed_move quiet_env 5 small_box_state _ hrun (by decide)
    small_box_isolated small_box_isolated_moved
  have hseed := small_box_run.2.1
  rw [hseed] at h
  obtain ⟨⟨b, _, _, _, _, before, m, after, _, _, _, _, hnone⟩, h2, _, h4, h5, h6⟩ := h
  exact ⟨_, hrun, h2, h4, h5.trans small_box_run.2.2, (h6 1 (by decide)).1,
    (hnone (fun _ _ => rfl)).2.2⟩

/-! ## The list of possible links -/

theorem wrap_pair_state_index :
    ∀ i, (wrap_pair_state.syst.particles i).index < wrap_pair_state.syst.N := by
  intro i
  have h := cells_fill_static wrap_pair_init
  show ((cells_fill wrap_pair_init).particles i).index < (cells_fill wrap_pair_init).N
  rw [(h.2.2.2.2.2.2 i).1, h.1]
  show (wrap_pair.particles i).index < 2
  unfold wrap_pair two_particles
  simp only []
  split_ifs
  · exact Nat.zero_lt_two
  · exact Nat.one_lt_two

theorem chain_walk_mono (particles : Nat → PatchyParticle) (next : Nat → Option Nat) :
    ∀ (fuel fuel' : Nat) (q : Option Nat) (L : List Nat), fuel ≤ fuel' →
      chain_walk particles next fuel q = some L →
      chain_walk particles next fuel' q = some L := by
  intro fuel
  induction fuel with
  | zero =>
    intro fuel' q L _ h
    cases q with
    | none =>
      simp only [chain_walk] at h
      cases h
      cases fuel' <;> rfl
    | some a => simp [chain_walk] at h
  | succ n ih =>
    intro fuel' q L hle h
    cases q with
    | none =>
      simp only [chain_walk] at h
      cases h
      cases fuel' <;> rfl
    | some a =>
      cases fuel' with
      | zero => omega
      | succ m =>
        simp only [chain_walk, Option.map_eq_some'] at h ⊢
        obtain ⟨L', hL', rfl⟩ := h
        exact ⟨L', ih m _ L' (by omega) hL', rfl⟩

theorem ChainsOnce.mono {syst : System} {fuel fuel' : Nat} (h : ChainsOnce syst fuel)
    (hle : fuel ≤ fuel') : ChainsOnce syst fuel' := by
  intro c h0 h1
  obtain ⟨L, hL, hn, hd⟩ := h c h0 h1
  refine ⟨L, chain_walk_mono _ _ fuel fuel' _ L hle hL, hn, ?_⟩
  intro c' h0' h1' hne L' hL'
  obtain ⟨L2, hL2, _, _⟩ := h c' h0' h1'
  have h2 := chain_walk_mono _ _ fuel fuel' _ L2 hle hL2
  have he : L' = L2 := by
    have hL'' : chain_walk syst.particles syst.cells.next fuel' (syst.cells.heads c')
        = some L' := hL'
    rw [h2] at hL''
    exact (Option.some.inj hL'').symm
  rw [he]
  exact hd c' h0' h1' hne L2 hL2

theorem ChainsOnce.chains_same {a b : System} {fuel : Nat} (h : ChainsOnce a fuel)
    (hc : b.cells = a.cells) (hi : ∀ i, (b.particles i).index = (a.particles i).index) :
    ChainsOnce b fuel := by
  have hto : ∀ c L, cell_chain a fuel c = some L → cell_chain b fuel c = some L := by
    intro c L hL
    unfold cell_chain at hL ⊢
    have := chain_walk_calm a b hc hi fuel _ L hL
    rw [hc] at this ⊢
    exact this
  have hfrom : ∀ c L, cell_chain b fuel c = some L → cell_chain a fuel c = some L := by
    intro c L hL
    unfold cell_chain at hL ⊢
    have := chain_walk_calm b a hc.symm (fun i => (hi i).symm) fuel _ L hL
    rw [← hc] at this ⊢
    exact this
  intro c h0 h1
  rw [hc] at h1
  obtain ⟨L, hL, hn, hd⟩ := h c h0 h1
  refine ⟨L, hto c L hL, hn, ?_⟩
  intro c' h0' h1' hne L' hL'
  rw [hc] at h1'
  exact hd c' h0' h1' hne L' (hfrom c' L' hL')

theorem GoodCells.cells_calm {s s' : State} {fuel : Nat} (h : GoodCells s.syst fuel)
    (hc : Calm s s') : GoodCells s'.syst fuel := by
  obtain ⟨h1, h2, h3⟩ := h
  refine ⟨?_, ?_, h3.chains_same hc.2.1 (fun i => (hc.1.2.2.2.2.2.2 i).1)⟩
  · rw [hc.2.1]
    exact h1
  · rw [hc.2.1]
    exact h2

/-- With a good cell index, `_populate_possible_links` is the loop body run over the
duplicate-free list of the residents around `p`, unless its `assert` fails. -/
theorem populate_links_as_list (env : Env) (fuel : Nat) (s : State) (p : Nat)
    (hg : GoodCells s.syst fuel) :
    ∃ L, L.Nodup ∧
      (_populate_possible_links env fuel s p = Except.error Stop.assertion ∨
        _populate_possible_links env fuel s p = populate_list p L s) := by
  obtain ⟨h1, h2, h3⟩ := hg
  have hi : ∀ d, 0 ≤ (cells_fill_and_get_idx_from_particle s.syst p).2 d ∧
      (cells_fill_and_get_idx_from_particle s.syst p).2 d < s.syst.cells.N_side d :=
    fun d => idx_component_bounds s.syst _ d (le_trans (by norm_num) (h1 d))
  obtain ⟨L, hL, hLn, _⟩ := neighbour_chain_once s.syst fuel _ h3 _
    (loop_index_nodup s.syst _ h1 hi) (loop_index_range s.syst _ h1 h2 hi)
  refine ⟨L, hLn, ?_⟩
  unfold _populate_possible_links
  simp only []
  split_ifs
  · exact Or.inl rfl
  · exact Or.inr (populate_cells_list fuel p _ _ L s hL)

theorem populate_visit_stop (s : State) (p q : Nat) (e : Stop)
    (h : populate_visit s p q = Except.error e) : e = Stop.fatal := by
  rw [populate_visit_eq] at h
  split_ifs at h
  · cases h
    rfl

theorem populate_list_stop (p : Nat) :
    ∀ (L : List Nat) (s : State) (e : Stop),
      populate_list p L s = Except.error e → e = Stop.fatal := by
  intro L
  induction L with
  | nil =>
    intro s e h
    simp [populate_list] at h
  | cons q qs ih =>
    intro s e h
    simp only [populate_list] at h
    split at h
    · rename_i e' he
      cases h
      exact populate_visit_stop s p q e he
    · exact ih _ _ h

theorem populate_links_no_fuel_stop (env : Env) (fuel : Nat) (s : State) (p : Nat)
    (hg : GoodCells s.syst fuel) :
    _populate_possible_links env fuel s p ≠ Except.error Stop.out_of_fuel := by
  obtain ⟨L, _, h | h⟩ := populate_links_as_list env fuel s p hg
  · rw [h]
    intro hc
    cases hc
  · rw [h]
    intro hc
    have := populate_list_stop p L s _ hc
    cases this

theorem populate_visit_capped (s s' : State) (p q : Nat) (hcap : LinksCapped s)
    (h : populate_visit s p q = Except.ok s') : LinksCapped s' := by
  rw [populate_visit_eq] at h
  by_cases h1 : (s.syst.particles q).index ≠ (s.syst.particles p).index
  swap
  · rw [if_neg h1] at h
    cases h
    exact hcap
  rw [if_pos h1] at h
  by_cases h2 : link_dist2 s p q ≤ s.syst.sqr_rcut
  swap
  · rw [if_neg h2] at h
    cases h
    exact hcap
  rw [if_pos h2] at h
  by_cases h3 : s.vmmcdata.n_possible_links ≥ 16 * s.syst.N_max
  · rw [if_pos h3] at h
    cases h
  rw [if_neg h3] at h
  cases h
  unfold LinksCapped at hcap ⊢
  show (if link_known s p q then s.vmmcdata.n_possible_links
    else s.vmmcdata.n_possible_links + 1) ≤ 16 * s.syst.N_max
  split_ifs
  · exact hcap
  · omega

theorem populate_list_capped (p : Nat) :
    ∀ (L : List Nat) (s s' : State), LinksCapped s →
      populate_list p L s = Except.ok s' → LinksCapped s' := by
  intro L
  induction L with
  | nil =>
    intro s s' hcap h
    simp only [populate_list] at h
    cases h
    exact hcap
  | cons q qs ih =>
    intro s s' hcap h
    simp only [populate_list] at h
    split at h
    · cases h
    · rename_i s1 hv
      exact ih _ _ (populate_visit_capped s s1 p q hcap hv) h

theorem populate_links_capped (env : Env) (fuel : Nat) (s s' : State) (p : Nat)
    (hcap : LinksCapped s) (h : _populate_possible_links env fuel s p = Except.ok s') :
    LinksCapped s' := by
  unfold _populate_possible_links at h
  split_ifs at h
  obtain ⟨L, hL⟩ := populate_cells_walk fuel p _ _ s s' h
  rw [populate_cells_list fuel p _ _ L s hL] at h
  exact populate_list_capped p L s s' hcap h

theorem LinksCapped.cap_calm {s s' : State} (h : LinksCapped s) (hc : Static s.syst s'.syst)
    (hn : s'.vmmcdata.n_possible_links ≤ s.vmmcdata.n_possible_links) : LinksCapped s' := by
  unfold LinksCapped at h ⊢
  rw [hc.2.1]
  omega

theorem links_around_capped (env : Env) (fuel : Nat) (pr : Proposal) (s s' : State) (p : Nat)
    (hcap : LinksCapped s) (h : vmmc_links_around env fuel pr s p = Except.ok s') :
    LinksCapped s' := by
  obtain ⟨s1, s2, h1, h2, rfl⟩ := links_around_steps env fuel pr s s' p h
  have c0 : LinksCapped (s.store_dof p) := hcap.cap_calm (store_dof_calm s p).1 (le_refl _)
  have c1 := populate_links_capped env fuel _ s1 p c0 h1
  have c2 : LinksCapped (s1.move_particle pr p) :=
    c1.cap_calm (move_particle_calm s1 pr p).1 (le_refl _)
  have c3 := populate_links_capped env fuel _ s2 p c2 h2
  exact c3.cap_calm (restore_dof_calm s2 p).1 (le_refl _)

theorem links_around_no_fuel_stop (env : Env) (fuel : Nat) (pr : Proposal) (s : State)
    (p : Nat) (hg : GoodCells s.syst fuel) :
    vmmc_links_around env fuel pr s p ≠ Except.error Stop.out_of_fuel := by
  intro h
  simp only [vmmc_links_around] at h
  split at h
  · rename_i e he
    cases h
    exact populate_links_no_fuel_stop env fuel _ p (hg.cells_calm (store_dof_calm s p)) he
  · rename_i s1 h1
    split at h
    · rename_i e he
      cases h
      have hc := (store_dof_calm s p).calm_trans
        ((populate_links_calm _ _ _ _ _ h1).calm_trans (move_particle_calm s1 pr p))
      exact populate_links_no_fuel_stop env fuel _ p (hg.cells_calm hc) he
    · cases h

/-- The state in which `q` is asked (after the virtual move of `x` and the draw) has the
`vmmcdata` of the state before and is related to it by `Calm`. -/
theorem asked_state (env : Env) (pr : Proposal) (s : State) (p q x : Nat) (F : Int) (P : ℚ) :
    (vmmc_decide env F P (vmmc_virtual_move env pr s p q x).2.2).2.vmmcdata = s.vmmcdata ∧
      Calm s (vmmc_decide env F P (vmmc_virtual_move env pr s p q x).2.2).2 := by
  obtain ⟨hc, hv, _⟩ := decide_calm env F P (vmmc_virtual_move env pr s p q x).2.2
  exact ⟨hv.trans (virtual_move_working_set env pr s p q x).1,
    (virtual_move_calm env pr s p q x).calm_trans hc⟩

theorem offer_no_fuel_stop (env : Env) (fuel : Nat) (pr : Proposal) (s : State) (p q : Nat)
    (E_old p1 : ℚ) (hg : GoodCells s.syst fuel) :
    vmmc_offer env fuel pr s p q E_old p1 ≠ Except.error Stop.out_of_fuel := by
  intro h
  simp only [vmmc_offer] at h
  split_ifs at h
  all_goals
    first
    | exact links_around_no_fuel_stop env fuel pr _ q
        (hg.cells_calm ((asked_state env pr s p q q _ _).2.calm_trans (recruit_calm _ q))) h

/-- The ways in which lines 120-171 stop. -/
theorem try_link_error (env : Env) (fuel : Nat) (pr : Proposal) (s : State)
    (link_index p q : Nat) (e : Stop)
    (h : vmmc_try_link env fuel pr s link_index p q = Except.error e) :
    e = Stop.assertion ∨
      ∃ (F : Int) (P E pp : ℚ),
        vmmc_offer env fuel pr
          (vmmc_decide env F P
            (vmmc_virtual_move env pr { s with syst := (_pair_energy env s.syst p q).2 }
              p q p).2.2).2 p q E pp = Except.error e := by
  simp only [vmmc_try_link] at h
  split_ifs at h
  all_goals
    first
    | (cases h; exact Or.inl rfl)
    | (split at h
       · rename_i e' he
         cases h
         exact Or.inr ⟨_, _, _, _, he⟩
       · cases h)

theorem try_link_no_fuel_stop (env : Env) (fuel : Nat) (pr : Proposal) (s : State)
    (link_index p q : Nat) (hg : GoodCells s.syst fuel) :
    vmmc_try_link env fuel pr s link_index p q ≠ Except.error Stop.out_of_fuel := by
  intro h
  have c1 := only_overlap_calm s _ (pair_energy_only_overlap env s.syst p q)
  rcases try_link_error env fuel pr s link_index p q _ h with h1 | ⟨F, P, E, pp, ho⟩
  · cases h1
  · exact offer_no_fuel_stop env fuel pr _ p q E pp
      (hg.cells_calm (c1.calm_trans (asked_state env pr _ p q p F P).2)) ho

/-- The ways in which one pass of the recruitment loop stops. -/
theorem recruit_body_error (env : Env) (fuel : Nat) (pr : Proposal) (s : State) (e : Stop)
    (h : vmmc_recruit_body env fuel pr s = Except.error e) :
    e = Stop.assertion ∨
      ∃ p q, vmmc_try_link env fuel pr { s with draws := s.draws + 1 }
        (int_cast (env.drand48 s.draws * (s.vmmcdata.n_possible_links : ℚ))).toNat p q
        = Except.error e := by
  simp only [vmmc_recruit_body] at h
  split_ifs at h
  all_goals
    first
    | (cases h; exact Or.inl rfl)
    | exact Or.inr ⟨_, _, h⟩

theorem recruit_body_no_fuel_stop (env : Env) (fuel : Nat) (pr : Proposal) (s : State)
    (hg : GoodCells s.syst fuel) :
    vmmc_recruit_body env fuel pr s ≠ Except.error Stop.out_of_fuel := by
  intro h
  have hg' : GoodCells ({ s with draws := s.draws + 1 } : State).syst fuel := hg
  rcases recruit_body_error env fuel pr s _ h with h1 | ⟨p, q, ht⟩
  · cases h1
  · exact try_link_no_fuel_stop env fuel pr _ _ p q hg' ht

theorem offer_progress (env : Env) (fuel : Nat) (pr : Proposal) (s s' : State) (p q : Nat)
    (E_old p1 : ℚ) (hcap : LinksCapped s)
    (ho : vmmc_offer env fuel pr s p q E_old p1 = Except.ok s') :
    LinksCapped s' ∧
      (s'.vmmcdata.n_clust = s.vmmcdata.n_clust + 1 ∨
        (s'.vmmcdata.n_clust = s.vmmcdata.n_clust ∧
          s'.vmmcdata.n_possible_links = s.vmmcdata.n_possible_links)) := by
  obtain ⟨force, prob, hc⟩ := offer_cases env fuel pr s s' p q E_old p1 ho
  obtain ⟨hv, hcalm⟩ := asked_state env pr s p q q force prob
  have hd : LinksCapped (vmmc_decide env force prob (vmmc_virtual_move env pr s p q q).2.2).2 :=
    hcap.cap_calm hcalm.1 (by rw [hv])
  rcases hc with hl | hp
  · have hr : LinksCapped
        (vmmc_recruit (vmmc_decide env force prob (vmmc_virtual_move env pr s p q q).2.2).2 q) :=
      hd.cap_calm (recruit_calm _ q).1 (le_refl _)
    refine ⟨links_around_capped env fuel pr _ s' q hr hl, Or.inl ?_⟩
    rw [(links_around_related env fuel pr _ s' q hl).2.2.1]
    show (vmmc_decide env force prob (vmmc_virtual_move env pr s p q q).2.2).2.vmmcdata.n_clust + 1
      = _
    rw [hv]
  · rw [hp]
    refine ⟨hd.cap_calm (prelink_calm _ q).1 (le_refl _), Or.inr ⟨?_, ?_⟩⟩
    · show (vmmc_decide env force prob
        (vmmc_virtual_move env pr s p q q).2.2).2.vmmcdata.n_clust = _
      rw [hv]
    · show (vmmc_decide env force prob
        (vmmc_virtual_move env pr s p q q).2.2).2.vmmcdata.n_possible_links = _
      rw [hv]

theorem drop_link_counts (s : State) (link_index : Nat) :
    (drop_link s link_index).vmmcdata.n_clust = s.vmmcdata.n_clust ∧
    (drop_link s link_index).vmmcdata.n_possible_links = s.vmmcdata.n_possible_links - 1 ∧
    (drop_link s link_index).syst = s.syst :=
  ⟨rfl, rfl, rfl⟩

theorem LinksCapped.cap_dropped {s : State} (h : LinksCapped s) (link_index : Nat) :
    LinksCapped (drop_link s link_index) := by
  unfold LinksCapped at h ⊢
  rw [(drop_link_counts s link_index).2.1, (drop_link_counts s link_index).2.2]
  omega

theorem try_link_progress (env : Env) (fuel : Nat) (pr : Proposal) (s s' : State)
    (link_index p q : Nat) (hcap : LinksCapped s) (hpos : 0 < s.vmmcdata.n_possible_links)
    (ht : vmmc_try_link env fuel pr s link_index p q = Except.ok s') :
    LinksCapped s' ∧
      (s'.vmmcdata.n_clust = s.vmmcdata.n_clust + 1 ∨
        (s'.vmmcdata.n_clust = s.vmmcdata.n_clust ∧
          s'.vmmcdata.n_possible_links + 1 = s.vmmcdata.n_possible_links)) := by
  obtain ⟨force, prob, hc⟩ := try_link_cases env fuel pr s s' link_index p q ht
  have c1 := only_overlap_calm s _ (pair_energy_only_overlap env s.syst p q)
  obtain ⟨hv, hcalm⟩ := asked_state env pr
    ({ s with syst := (_pair_energy env s.syst p q).2 } : State) p q p force prob
  have hv' : (vmmc_decide env force prob (vmmc_virtual_move env pr
      ({ s with syst := (_pair_energy env s.syst p q).2 } : State) p q p).2.2).2.vmmcdata
      = s.vmmcdata := hv
  have hd : LinksCapped (vmmc_decide env force prob (vmmc_virtual_move env pr
      ({ s with syst := (_pair_energy env s.syst p q).2 } : State) p q p).2.2).2 :=
    hcap.cap_calm (c1.calm_trans hcalm).1 (by rw [hv'])
  rcases hc with ⟨E, pp, s5, ho, rfl⟩ | rfl
  · obtain ⟨h5, hcase⟩ := offer_progress env fuel pr _ s5 p q E pp hd ho
    refine ⟨h5.cap_dropped _, ?_⟩
    rw [(drop_link_counts s5 link_index).1, (drop_link_counts s5 link_index).2.1]
    rcases hcase with h | ⟨h, hn⟩
    · left
      rw [h, hv']
    · right
      rw [h, hn, hv']
      exact ⟨rfl, by omega⟩
  · refine ⟨hd.cap_dropped _, Or.inr ?_⟩
    rw [(drop_link_counts _ link_index).1, (drop_link_counts _ link_index).2.1, hv']
    exact ⟨rfl, by omega⟩

theorem recruit_body_progress (env : Env) (fuel : Nat) (pr : Proposal) (s s' : State)
    (hcap : LinksCapped s) (hpos : 0 < s.vmmcdata.n_possible_links)
    (hb : vmmc_recruit_body env fuel pr s = Except.ok s') :
    LinksCapped s' ∧
      (s'.vmmcdata.n_clust = s.vmmcdata.n_clust + 1 ∨
        (s'.vmmcdata.n_clust = s.vmmcdata.n_clust ∧
          s'.vmmcdata.n_possible_links + 1 = s.vmmcdata.n_possible_links)) := by
  have h0 : LinksCapped ({ s with draws := s.draws + 1 } : State) := hcap
  rcases recruit_body_cases env fuel pr s s' hb with rfl | ⟨p, q, ht⟩
  · refine ⟨h0.cap_dropped _, Or.inr ?_⟩
    rw [(drop_link_counts _ _).1, (drop_link_counts _ _).2.1]
    exact ⟨rfl, by show s.vmmcdata.n_possible_links - 1 + 1 = _; omega⟩
  · exact try_link_progress env fuel pr { s with draws := s.draws + 1 } s' _ p q h0 hpos ht

/-- A cluster whose members have pairwise different indices below `N` has at most `N`
members. -/
theorem cluster_size_le (seed : Nat) (s : State) (hinv : ClusterInv seed s)
    (hidx : ∀ i, (s.syst.particles i).index < s.syst.N) : s.vmmcdata.n_clust ≤ s.syst.N := by
  have h := Finset.card_le_card_of_injOn
    (fun k => (s.syst.particles (s.vmmcdata.clust k)).index)
    (s := Finset.range s.vmmcdata.n_clust) (t := Finset.range s.syst.N)
    (fun k _ => Finset.mem_range.mpr (hidx _))
    (fun k hk k' hk' he => hinv.2.2.2.2 k k' (Finset.mem_range.mp hk) (Finset.mem_range.mp hk') he)
  simpa using h

/-- What holds at every evaluation of the condition of the recruitment loop. -/
theorem loop_head_capped (env : Env) (fuel : Nat) (s0 s : State)
    (h : LoopHead env fuel s0 s) : LinksCapped s := by
  induction h with
  | first s hl =>
    refine links_around_capped env fuel _ _ s _ ?_ hl
    unfold LinksCapped
    rw [(vmmc_start_static env s0).2.2.2.2.2.1]
    exact Nat.zero_le _
  | next s s' _ hg hb ih => exact (recruit_body_progress env fuel _ s s' ih hg.1 hb).1

theorem loop_head_good_cells (env : Env) (fuel : Nat) (s0 s : State)
    (hg : GoodCells s0.syst fuel) (h : LoopHead env fuel s0 s) : GoodCells s.syst fuel := by
  obtain ⟨hst, hcells, hpart, _⟩ := vmmc_start_static env s0
  have hA : GoodCells (vmmc_start env s0).1.syst fuel := by
    obtain ⟨h1, h2, h3⟩ := hg
    refine ⟨?_, ?_, h3.chains_same hcells (fun i => by rw [hpart])⟩
    · rw [hcells]
      exact h1
    · rw [hcells]
      exact h2
  exact hA.cells_calm (loop_head_calm env fuel s0 s h)

/-- One pass of the recruitment loop from a loop head: it does not run out of fuel, and
it either recruits a particle or shortens the list by one. -/
theorem recruit_pass (env : Env) (fuel : Nat) (s0 s : State)
    (h0 : ∀ i, s0.vmmcdata.is_in_cluster i = 0)
    (hidx : ∀ i, (s0.syst.particles i).index < s0.syst.N)
    (hg : GoodCells s0.syst fuel)
    (hs : LoopHead env fuel s0 s) (hguard : recruit_guard s) :
    vmmc_recruit_body env fuel (vmmc_start env s0).2 s ≠ Except.error Stop.out_of_fuel ∧
    ∀ s', vmmc_recruit_body env fuel (vmmc_start env s0).2 s = Except.ok s' →
      RecruitedOrDropped s s' ∧ recruit_budget s0 s' < recruit_budget s0 s := by
  refine ⟨recruit_body_no_fuel_stop env fuel _ s (loop_head_good_cells env fuel s0 s hg hs), ?_⟩
  intro s' hb
  have hs' : LoopHead env fuel s0 s' := LoopHead.next s s' hs hguard hb
  have hcap' := loop_head_capped env fuel s0 s' hs'
  obtain ⟨_, hcase⟩ := recruit_body_progress env fuel _ s s'
    (loop_head_capped env fuel s0 s hs) hguard.1 hb
  have hcalm := loop_head_calm env fuel s0 s hs
  have hcalm' := loop_head_calm env fuel s0 s' hs'
  obtain ⟨hst, _, _, _, hmaxc, _, _⟩ := vmmc_start_static env s0
  have hmax : s.vmmcdata.max_cluster = s0.vmmcdata.max_cluster := hcalm.2.2.2.1.trans hmaxc
  have hmax' : s'.vmmcdata.max_cluster = s0.vmmcdata.max_cluster := hcalm'.2.2.2.1.trans hmaxc
  have hNmax' : s'.syst.N_max = s0.syst.N_max := hcalm'.1.2.1.trans hst.2.1
  have hlt : (s.vmmcdata.n_clust : Int) < s0.vmmcdata.max_cluster := by
    rw [← hmax]
    exact hguard.2
  have hltn : s.vmmcdata.n_clust < s0.vmmcdata.max_cluster.toNat := by omega
  unfold LinksCapped at hcap'
  rw [hNmax'] at hcap'
  rcases hcase with h | ⟨h, hn⟩
  · constructor
    · left
      refine ⟨h, ?_, ?_⟩
      · rw [hmax', h]
        push_cast
        omega
      · refine cluster_size_le _ s' (loop_head_inv env fuel s0 h0 s' hs') ?_
        intro i
        rw [(hcalm'.1.2.2.2.2.2.2 i).1, hcalm'.1.1, (hst.2.2.2.2.2.2 i).1, hst.1]
        exact hidx i
    · unfold recruit_budget
      rw [h]
      have e : s0.vmmcdata.max_cluster.toNat - s.vmmcdata.n_clust
          = (s0.vmmcdata.max_cluster.toNat - (s.vmmcdata.n_clust + 1)) + 1 := by omega
      have hn' : s'.vmmcdata.n_possible_links + 1 ≤ 16 * s0.syst.N_max + 1 := by omega
      rw [e]
      generalize 16 * s0.syst.N_max + 1 = C at hn' ⊢
      rw [Nat.add_mul, Nat.one_mul]
      omega
  · constructor
    · exact Or.inr ⟨h, hn⟩
    · unfold recruit_budget
      rw [h]
      omega

/-- From a loop head, the recruitment loop with at least as many passes as the budget
allows does not run out of passes. -/
theorem recruit_loop_no_fuel_stop (env : Env) (fuel : Nat) (s0 : State)
    (h0 : ∀ i, s0.vmmcdata.is_in_cluster i = 0)
    (hidx : ∀ i, (s0.syst.particles i).index < s0.syst.N)
    (hg : GoodCells s0.syst fuel) :
    ∀ (k : Nat) (s : State), LoopHead env fuel s0 s →
      (recruit_guard s → recruit_budget s0 s ≤ k) →
      vmmc_recruit_loop env fuel (vmmc_start env s0).2 k s
        ≠ Except.error Stop.out_of_fuel := by
  intro k
  induction k with
  | zero =>
    intro s hs hk h
    simp only [vmmc_recruit_loop] at h
    split_ifs at h with hguard
    have := hk hguard
    have hpos := hguard.1
    unfold recruit_budget at this
    omega
  | succ k ih =>
    intro s hs hk h
    simp only [vmmc_recruit_loop] at h
    split_ifs at h with hguard
    obtain ⟨hno, hstep⟩ := recruit_pass env fuel s0 s h0 hidx hg hs hguard
    split at h
    · rename_i e he
      cases h
      exact hno he
    · rename_i s1 hb
      obtain ⟨_, hdec⟩ := hstep s1 hb
      have := hk hguard
      exact ih s1 (LoopHead.next s s1 hs hguard hb) (fun _ => by omega) h

/-- The budget of passes at a loop head is below `max_cluster * (16 * N_max + 1)`. -/
theorem recruit_budget_bound (env : Env) (fuel : Nat) (s0 s : State)
    (h0 : ∀ i, s0.vmmcdata.is_in_cluster i = 0)
    (hs : LoopHead env fuel s0 s) (hguard : recruit_guard s) :
    recruit_budget s0 s ≤ s0.vmmcdata.max_cluster.toNat * (16 * s0.syst.N_max + 1) := by
  have hcap := loop_head_capped env fuel s0 s hs
  have hcalm := loop_head_calm env fuel s0 s hs
  obtain ⟨hst, _, _, _, hmaxc, _, _⟩ := vmmc_start_static env s0
  have hmax : s.vmmcdata.max_cluster = s0.vmmcdata.max_cluster := hcalm.2.2.2.1.trans hmaxc
  have hNmax : s.syst.N_max = s0.syst.N_max := hcalm.1.2.1.trans hst.2.1
  have hn1 := (loop_head_inv env fuel s0 h0 s hs).1
  have hlt : (s.vmmcdata.n_clust : Int) < s0.vmmcdata.max_cluster := by
    rw [← hmax]
    exact hguard.2
  unfold LinksCapped at hcap
  rw [hNmax] at hcap
  unfold recruit_budget
  have e : s0.vmmcdata.max_cluster.toNat
      = (s0.vmmcdata.max_cluster.toNat - s.vmmcdata.n_clust) + s.vmmcdata.n_clust := by omega
  have hmul : s0.vmmcdata.max_cluster.toNat * (16 * s0.syst.N_max + 1)
      = (s0.vmmcdata.max_cluster.toNat - s.vmmcdata.n_clust) * (16 * s0.syst.N_max + 1)
        + s.vmmcdata.n_clust * (16 * s0.syst.N_max + 1) := by
    rw [← Nat.add_mul, ← e]
  rw [hmul]
  have : 16 * s0.syst.N_max + 1 ≤ s.vmmcdata.n_clust * (16 * s0.syst.N_max + 1) :=
    Nat.le_mul_of_pos_left _ hn1
  omega

/-- C20. The recruitment loop of `VMMC_dynamics` terminates. For a start with
`is_in_cluster` zero, particle indices below `N`, a grid with sides of at least 3 and
chains that hold each particle once and end within `F` particles, for every sequence of
draws and every pair oracle, and every `fuel >= F`: the seed enumeration and every pass
of the loop end without exhausting the fuel; each pass either recruits a particle
(`n_clust` grows by one and stays at most `max_cluster` and at most `N`) or leaves
`n_clust` and shortens the list of possible links by one; the budget
`(max_cluster - n_clust) * (16 * N_max + 1) + n_possible_links` decreases in each pass, so
the loop makes at most `max_cluster * (16 * N_max + 1)` passes, and lines 56-172 end
(returning, or by a failed `assert` or `output_exit`) when the fuel is at least that. -/
theorem recruitment_loop_terminates (env : Env) (F fuel : Nat) (s0 : State)
    (h0 : ∀ i, s0.vmmcdata.is_in_cluster i = 0)
    (hidx : ∀ i, (s0.syst.particles i).index < s0.syst.N)
    (hside : ∀ d, 3 ≤ s0.syst.cells.N_side d)
    (hN : s0.syst.cells.N
      = s0.syst.cells.N_side 0 * s0.syst.cells.N_side 1 * s0.syst.cells.N_side 2)
    (hch : ChainsOnce s0.syst F) (hF : F ≤ fuel) :
    vmmc_links_around env fuel (vmmc_start env s0).2 (vmmc_start env s0).1
        ((vmmc_start env s0).1.vmmcdata.clust 0) ≠ Except.error Stop.out_of_fuel ∧
    (∀ s, LoopHead env fuel s0 s → recruit_guard s →
      vmmc_recruit_body env fuel (vmmc_start env s0).2 s ≠ Except.error Stop.out_of_fuel ∧
      ∀ s', vmmc_recruit_body env fuel (vmmc_start env s0).2 s = Except.ok s' →
        RecruitedOrDropped s s' ∧ recruit_budget s0 s' < recruit_budget s0 s) ∧
    (∀ s k, LoopHead env fuel s0 s →
      s0.vmmcdata.max_cluster.toNat * (16 * s0.syst.N_max + 1) ≤ k →
      vmmc_recruit_loop env fuel (vmmc_start env s0).2 k s
        ≠ Except.error Stop.out_of_fuel) ∧
    (s0.vmmcdata.max_cluster.toNat * (16 * s0.syst.N_max + 1) ≤ fuel →
      vmmc_build env fuel s0 ≠ Except.error Stop.out_of_fuel) := by
  have hg : GoodCells s0.syst fuel := ⟨hside, hN, hch.mono hF⟩
  obtain ⟨hst, hcells, hpart, _⟩ := vmmc_start_static env s0
  have hA : GoodCells (vmmc_start env s0).1.syst fuel := by
    refine ⟨?_, ?_, hg.2.2.chains_same hcells (fun i => by rw [hpart])⟩
    · rw [hcells]
      exact hside
    · rw [hcells]
      exact hN
  have hseed := links_around_no_fuel_stop env fuel (vmmc_start env s0).2 (vmmc_start env s0).1
    ((vmmc_start env s0).1.vmmcdata.clust 0) hA
  have hloop : ∀ s k, LoopHead env fuel s0 s →
      s0.vmmcdata.max_cluster.toNat * (16 * s0.syst.N_max + 1) ≤ k →
      vmmc_recruit_loop env fuel (vmmc_start env s0).2 k s
        ≠ Except.error Stop.out_of_fuel := by
    intro s k hs hk
    refine recruit_loop_no_fuel_stop env fuel s0 h0 hidx hg k s hs ?_
    intro hguard
    exact le_trans (recruit_budget_bound env fuel s0 s h0 hs hguard) hk
  refine ⟨hseed, fun s hs hguard => recruit_pass env fuel s0 s h0 hidx hg hs hguard, hloop, ?_⟩
  intro hk h
  simp only [vmmc_build] at h
  split at h
  · rename_i e he
    cases h
    exact hseed he
  · rename_i s1 hl
    split at h
    · rename_i e he
      cases h
      exact hloop s1 fuel (LoopHead.first s1 hl) hk he
    · cases h

/-- C20 at `wrap_pair_state` (`max_cluster = 10`, `N_max = 2`, chains of at most 2
particles): with fuel 330 the recruitment stage ends for every choice of the
collaborators, here `eager_env`. -/
theorem recruitment_loop_terminates_witness :
    vmmc_build eager_env 330 wrap_pair_state ≠ Except.error Stop.out_of_fuel :=
  (recruitment_loop_terminates eager_env 2 330 wrap_pair_state (fun _ => rfl)
    wrap_pair_state_index (by decide!) (by decide!) wrap_pair_chains_once
    (by decide)).2.2.2 (by decide!)

/-! ## The bound on the prelinked particles -/

theorem star_head_first :
    vmmc_links_around axis_env 7 (vmmc_start axis_env star_state).2
      (vmmc_start axis_env star_state).1 ((vmmc_start axis_env star_state).1.vmmcdata.clust 0)
      = Except.ok (star_head 0) :=
  eq_ok_of_toBool _ star_state (by decide!)

theorem star_head_next (k : Nat)
    (h : (vmmc_recruit_body axis_env 7 (vmmc_start axis_env star_state).2
      (star_head k)).toBool = true) :
    vmmc_recruit_body axis_env 7 (vmmc_start axis_env star_state).2 (star_head k)
      = Except.ok (star_head (k + 1)) :=
  eq_ok_of_toBool _ star_state h

set_option maxHeartbeats 1000000 in
theorem star_head_loop : LoopHead axis_env 7 star_state (star_head 6) := by
  have h0 : LoopHead axis_env 7 star_state (star_head 0) :=
    LoopHead.first _ star_head_first
  have h1 : LoopHead axis_env 7 star_state (star_head 1) :=
    LoopHead.next _ _ h0 (by decide!) (star_head_next 0 (by decide!))
  have h2 : LoopHead axis_env 7 star_state (star_head 2) :=
    LoopHead.next _ _ h1 (by decide!) (star_head_next 1 (by decide!))
  have h3 : LoopHead axis_env 7 star_state (star_head 3) :=
    LoopHead.next _ _ h2 (by decide!) (star_head_next 2 (by decide!))
  have h4 : LoopHead axis_env 7 star_state (star_head 4) :=
    LoopHead.next _ _ h3 (by decide!) (star_head_next 3 (by decide!))
  have h5 : LoopHead axis_env 7 star_state (star_head 5) :=
    LoopHead.next _ _ h4 (by decide!) (star_head_next 4 (by decide!))
  exact LoopHead.next _ _ h5 (by decide!) (star_head_next 5 (by decide!))

set_option maxHeartbeats 1000000 in
theorem star_head_counts :
    (List.range 8).map (fun k => ((star_head k).vmmcdata.n_clust,
      (star_head k).vmmcdata.n_possible_links,
      (star_head k).vmmcdata.n_prelinked_particles))
      = [(1, 4, 0), (1, 3, 1), (2, 5, 1), (2, 4, 2), (2, 3, 3), (2, 2, 4), (2, 1, 5),
          (2, 0, 6)] := by
  decide!

set_option maxHeartbeats 1000000 in
theorem star_last_pass :
    recruit_guard (star_head 6) ∧
    (vmmc_recruit_body axis_env 7 (vmmc_start axis_env star_state).2
      (star_head 6)).toBool = true ∧
    (star_head 6).vmmcdata.n_prelinked_particles = 5 ∧
    (star_head 6).vmmcdata.prelinked_particles 5 = 0 ∧
    (star_head 7).vmmcdata.n_prelinked_particles = 6 ∧
    (star_head 7).vmmcdata.prelinked_particles 5 = 3 := by
  decide!

set_option maxHeartbeats 1000000 in
theorem star_run_checked :
    holds_after (VMMC_dynamics axis_env 7 star_state) star_run_check = true := by
  decide!

/-- C21 at the input `star_state` (`N = N_max = 5`, so `prelinked_particles` has 5
entries): the seed 0 is declined by particle 4, recruits particle 1, and then the two
members are declined by the particles 2, 3, 4 and 2, 3 in turn. When the loop condition
is evaluated for the seventh time `n_prelinked_particles` is 5, the pass that follows
writes particle 3 to `prelinked_particles[5]`, beyond the allocation, and the move
returns rejected with `n_prelinked_particles = 6`. -/
theorem prelinked_written_beyond_allocation :
    star_state.syst.N ≤ star_state.syst.N_max ∧
    prelinked_slots star_state.syst = 5 ∧
    (List.range 8).map (fun k => ((star_head k).vmmcdata.n_clust,
      (star_head k).vmmcdata.n_possible_links,
      (star_head k).vmmcdata.n_prelinked_particles))
      = [(1, 4, 0), (1, 3, 1), (2, 5, 1), (2, 4, 2), (2, 3, 3), (2, 2, 4), (2, 1, 5),
          (2, 0, 6)] ∧
    LoopHead axis_env 7 star_state (star_head 6) ∧
    recruit_guard (star_head 6) ∧
    (star_head 6).vmmcdata.n_prelinked_particles = prelinked_slots star_state.syst ∧
    (star_head 6).vmmcdata.prelinked_particles 5 = 0 ∧
    vmmc_recruit_body axis_env 7 (vmmc_start axis_env star_state).2 (star_head 6)
      = Except.ok (star_head 7) ∧
    (star_head 7).vmmcdata.n_prelinked_particles = 6 ∧
    (star_head 7).vmmcdata.prelinked_particles 5 = 3 ∧
    ∃ s', VMMC_dynamics axis_env 7 star_state = Except.ok s' ∧
      s'.vmmcdata.n_prelinked_particles = 6 ∧
      s'.vmmcdata.prelinked_particles 5 = 3 ∧
      s'.syst.accepted = star_state.syst.accepted := by
  refine ⟨by decide!, by decide!, star_head_counts, star_head_loop, star_last_pass.1,
    star_last_pass.2.2.1, star_last_pass.2.2.2.1, star_head_next 6 star_last_pass.2.1,
    star_last_pass.2.2.2.2.1, star_last_pass.2.2.2.2.2, ?_⟩
  refine Exists.elim (holds_after_spec (VMMC_dynamics axis_env 7 star_state)
    star_run_check star_run_checked) (fun s' hsp => ?_)
  have hP : (decide (s'.vmmcdata.n_prelinked_particles = 6) &&
    (decide (s'.vmmcdata.prelinked_particles 5 = 3) &&
      decide (s'.syst.accepted = star_state.syst.accepted))) = true := hsp.2
  have h1 := Bool.and_eq_true_iff.mp hP
  have h2 := Bool.and_eq_true_iff.mp h1.2
  exact ⟨s', hsp.1, of_decide_eq_true h1.1, of_decide_eq_true h2.1, of_decide_eq_true h2.2⟩

end IPC
